import Mathlib

/-!
# Verification of the pyslvs position-analysis core

Shallow embedding, in Lean 4, of the pyslvs planar-linkage solver sources:

* `src/tinycadlib.pyx` — geometry kernel (`plap`, `pllp`, `plpp`, `pxy`),
  DOF accounting (`vpoint_dof`), the expression interpreter
  (`expr_parse`, `data_collecting`, `expr_solving`);
* `pyslvs/triangulation.pyx` — the triangle-expression synthesizer
  (`t_config`) and its helpers;
* `src/graph_layout.pyx` — the ordered-set container and the
  cycle-basis / outer-loop layout engine.

Python floating-point doubles are modelled by `ℝ`; the NaN failure
coordinate is modelled by `Option` (a `none` coordinate is the NaN pair).
Python dicts are modelled by insertion-ordered association lists, Python
exceptions by `Except`.  The `VPoint` joint class and the `Graph` class are
not part of this repository (only their declarations are imported by the
sources), so their interface is modelled from the specification where noted.
-/

namespace Pyslvs

/-- A 2D cartesian coordinate (a pair of doubles in the source). -/
abbrev Pt : Type := ℝ × ℝ

/-- Joint kinds of the PMKS vocabulary (`VJoint` enum in `expression.pxd`):
revolute, prismatic, revolute-prismatic. -/
inductive VJoint : Type
  | R
  | P
  | RP
deriving DecidableEq, Repr

/-- Modelled from the spec: the joint ("Point") record of §3 and the
mechanism-graph collaborator interface of §6 — the `expression.pyx` source is
not part of this repository.  A joint carries an ordered list of link names,
a joint kind, an orientation angle (degrees), and one or two 2D coordinates
(`cA` is the base coordinate `c[0]`, also exposed as the attributes `x`, `y`;
`cB` is the second coordinate `c[1]` of slider joints).  The spec names but
does not define the pin-grounded and has-offset predicates, so they are
modelled as stored attributes of the joint. -/
structure VPoint : Type where
  links : List String
  type : VJoint
  angle : ℝ
  cA : Pt
  cB : Pt
  pin_grounded : Bool
  has_offset : Bool

/-- The attribute `x` of a joint: the first component of its base coordinate. -/
def VPoint.x (v : VPoint) : ℝ := v.cA.1

/-- The attribute `y` of a joint: the second component of its base coordinate. -/
def VPoint.y (v : VPoint) : ℝ := v.cA.2

/-- `VLink.FRAME`, the distinguished ground link name. -/
def FRAME : String := "ground"

/-- Modelled from the spec (§3): "grounded" means one of the joint's links is
the distinguished frame/ground link. -/
def VPoint.grounded (v : VPoint) : Bool := FRAME ∈ v.links

/-- Modelled from the spec (§3, §4.2): `VPoint.c_slider_joint` constructs a
synthetic slider joint from a link list, a joint kind, an angle and a base
position; both coordinates start at the given position. -/
def VPoint.c_slider_joint (links : List String) (t : VJoint) (angle : ℝ)
    (x y : ℝ) : VPoint :=
  { links := links, type := t, angle := angle, cA := (x, y), cB := (x, y),
    pin_grounded := false, has_offset := false }

/-! ## DOF accounting: `vpoint_dof` (tinycadlib.pyx:233-260) -/

/-- One joint's contribution to the accumulated link set: the Python
`vlinks.update(vpoint.links)`. -/
def linkSetOf (v : VPoint) : Finset String := v.links.toFinset

/-- The loop of `vpoint_dof`: walks the joint list accumulating the distinct
link set (seeded with `'ground'`), the count `j1` of 1-DOF joints and the
count `j2` of 2-DOF joints, then returns `3·(len(vlinks)−1) − 2·j1 − j2`.
Joints with fewer than two links are skipped (`if not link_count > 1`). -/
def vpoint_dof_go : List VPoint → Finset String → ℤ → ℤ → ℤ
  | [], vlinks, j1, j2 => 3 * ((vlinks.card : ℤ) - 1) - 2 * j1 - j2
  | v :: rest, vlinks, j1, j2 =>
    if v.links.length ≤ 1 then
      vpoint_dof_go rest vlinks j1 j2
    else
      match v.type with
      | VJoint.R =>
          vpoint_dof_go rest (vlinks ∪ linkSetOf v)
            (j1 + ((v.links.length : ℤ) - 1)) j2
      | VJoint.P =>
          vpoint_dof_go rest (vlinks ∪ linkSetOf v)
            (j1 + (if 2 < v.links.length then (v.links.length : ℤ) - 2 else 0) + 1) j2
      | VJoint.RP =>
          vpoint_dof_go rest (vlinks ∪ linkSetOf v)
            (j1 + (if 2 < v.links.length then (v.links.length : ℤ) - 2 else 0))
            (j2 + 1)

/-- `vpoint_dof` (tinycadlib.pyx:233-260): planar Gruebler/Kutzbach DOF of a
joint list. -/
def vpoint_dof (vpoints : List VPoint) : ℤ := vpoint_dof_go vpoints {FRAME} 0 0

/-! The claim-side (spec §4.4) formulation of the DOF formula, stated
independently of the loop above. -/

/-- The joints that count in the DOF formula: those with at least two link
memberships. -/
def dofJoints (vps : List VPoint) : List VPoint :=
  vps.filter (fun v => 2 ≤ v.links.length)

/-- The distinct links appearing on joints with ≥ 2 link memberships,
plus the always-present ground link (the claim's `L`). -/
def claimLinks (vps : List VPoint) : Finset String :=
  {FRAME} ∪ ((dofJoints vps).map linkSetOf).foldr (· ∪ ·) ∅

/-- The claim's per-joint `j1` contribution: `memberships − 1` per revolute
joint, `1` plus memberships beyond 2 per prismatic joint, memberships beyond
2 per RP joint. -/
def claimJ1 (v : VPoint) : ℤ :=
  match v.type with
  | VJoint.R => (v.links.length : ℤ) - 1
  | VJoint.P => 1 + (if 2 < v.links.length then (v.links.length : ℤ) - 2 else 0)
  | VJoint.RP => if 2 < v.links.length then (v.links.length : ℤ) - 2 else 0

/-- The claim's per-joint `j2` contribution: 1 per RP joint. -/
def claimJ2 (v : VPoint) : ℤ :=
  match v.type with
  | VJoint.RP => 1
  | _ => 0

/-! ## Geometry kernel (tinycadlib.pyx:43-153)

The kernel operates on C doubles; we model them by `ℝ` and model the NaN
failure pair by `Option.none`.  (With real — as opposed to floating-point —
arithmetic, the computations following the guards of `pllp`/`plpp` are
well-defined exactly, which we prove below.) -/

/-- `distance`/`Coordinate.distance` (tinycadlib.pyx:43-45,57-59):
`hypot(x2 - x1, y2 - y1)`. -/
noncomputable def distPt (a b : Pt) : ℝ :=
  Real.sqrt ((b.1 - a.1) ^ 2 + (b.2 - a.2) ^ 2)

/-- The C `atan2`, modelled as the argument of the complex number `x + y·i`. -/
noncomputable def atan2 (y x : ℝ) : ℝ := Complex.arg ⟨x, y⟩

/-- `plap` (tinycadlib.pyx:69-81): point on circle by angle.  The optional
reference point `c2` sets the base angle; `inverse` flips the sign of the
offset angle.  Total (no failure mode). -/
noncomputable def plap (c1 : Pt) (d0 a0 : ℝ) (c2 : Option Pt)
    (inverse : Bool) : Pt :=
  let a1 := match c2 with
    | some c2 => atan2 (c2.2 - c1.2) (c2.1 - c1.1)
    | none => 0
  if inverse then
    (c1.1 + d0 * Real.cos (a1 - a0), c1.2 + d0 * Real.sin (a1 - a0))
  else
    (c1.1 + d0 * Real.cos (a1 + a0), c1.2 + d0 * Real.sin (a1 + a0))

/-- The local variable `a` of `pllp` (tinycadlib.pyx:108):
`(d0·d0 − d1·d1 + d·d) / (2·d)`. -/
noncomputable def pllpA (c1 : Pt) (d0 d1 : ℝ) (c2 : Pt) : ℝ :=
  (d0 * d0 - d1 * d1 + distPt c1 c2 * distPt c1 c2) / (2 * distPt c1 c2)

/-- The local variable `h` of `pllp` (tinycadlib.pyx:109):
`sqrt(d0·d0 − a·a)`. -/
noncomputable def pllpH (c1 : Pt) (d0 d1 : ℝ) (c2 : Pt) : ℝ :=
  Real.sqrt (d0 * d0 - pllpA c1 d0 d1 c2 * pllpA c1 d0 d1 c2)

/-- The point computed by `pllp` (tinycadlib.pyx:108-116) after its failure
guards have passed: `(xm ∓ h·dy/d, ym ± h·dx/d)` with
`xm = c1.x + a·dx/d`, `ym = c1.y + a·dy/d`. -/
noncomputable def pllpPoint (c1 : Pt) (d0 d1 : ℝ) (c2 : Pt)
    (inverse : Bool) : Pt :=
  if inverse then
    (c1.1 + pllpA c1 d0 d1 c2 * (c2.1 - c1.1) / distPt c1 c2
       + pllpH c1 d0 d1 c2 * (c2.2 - c1.2) / distPt c1 c2,
     c1.2 + pllpA c1 d0 d1 c2 * (c2.2 - c1.2) / distPt c1 c2
       - pllpH c1 d0 d1 c2 * (c2.1 - c1.1) / distPt c1 c2)
  else
    (c1.1 + pllpA c1 d0 d1 c2 * (c2.1 - c1.1) / distPt c1 c2
       - pllpH c1 d0 d1 c2 * (c2.2 - c1.2) / distPt c1 c2,
     c1.2 + pllpA c1 d0 d1 c2 * (c2.2 - c1.2) / distPt c1 c2
       + pllpH c1 d0 d1 c2 * (c2.1 - c1.1) / distPt c1 c2)

/-- `pllp` (tinycadlib.pyx:84-116): intersection of the circle of radius
`d0` around `c1` with the circle of radius `d1` around `c2`, selected by
`inverse`; `none` models the `(NAN, NAN)` failure pair returned when the
circles are separate, nested, or coincident. -/
noncomputable def pllp (c1 : Pt) (d0 d1 : ℝ) (c2 : Pt)
    (inverse : Bool) : Option Pt :=
  if distPt c1 c2 > d0 + d1 then none
  else if distPt c1 c2 < |d0 - d1| then none
  else if distPt c1 c2 = 0 ∧ d0 = d1 then none
  else some (pllpPoint c1 d0 d1 c2 inverse)

/-- The point computed by `plpp` (tinycadlib.pyx:144-148) when the line
through `c2`, `c3` meets the circle of radius `d0` around `c1` twice. -/
noncomputable def plppPoint (c1 : Pt) (d0 : ℝ) (c2 c3 : Pt) (u : ℝ)
    (inverse : Bool) : Pt :=
  let dx := c3.1 - c2.1
  let dy := c3.2 - c2.2
  let inter : Pt := (c2.1 + u * dx, c2.2 + u * dy)
  let f := Real.sqrt (d0 * d0 - distPt c1 inter * distPt c1 inter) / distPt c2 c3
  if inverse then (inter.1 - dx * f, inter.2 - dy * f)
  else (inter.1 + dx * f, inter.2 + dy * f)

/-- `plpp` (tinycadlib.pyx:119-148): intersection of a line and a circle;
`none` models the `(NAN, NAN)` failure pair.  (The C code divides by
`line_mag²` without a zero test in `cdivision` mode; real division by zero
is modelled by Lean's `x / 0 = 0` convention.) -/
noncomputable def plpp (c1 : Pt) (d0 : ℝ) (c2 c3 : Pt)
    (inverse : Bool) : Option Pt :=
  let dx := c3.1 - c2.1
  let dy := c3.2 - c2.2
  let u := ((c1.1 - c2.1) * dx + (c1.2 - c2.2) * dy) / (distPt c2 c3 * distPt c2 c3)
  let inter : Pt := (c2.1 + u * dx, c2.2 + u * dy)
  if distPt c1 inter > d0 then none
  else if distPt c1 inter = d0 then some inter
  else some (plppPoint c1 d0 c2 c3 u inverse)

/-- `pxy` (tinycadlib.pyx:151-153): relative cartesian offset.  Total. -/
def pxy (c1 : Pt) (x y : ℝ) : Pt := (c1.1 + x, c1.2 + y)

/-! ## Ordered set (graph_layout.pyx:264-607)

The `OrderedSet` container is an insertion-ordered set; we model an ordered
set by its element list (which is duplicate-free by construction).  `_add`
(graph_layout.pyx:172-181) appends an element unless it is already present;
`_from_iterable`/`__init__` (graph_layout.pyx:278-294) folds `_add` over an
iterable starting from the empty set. -/

/-- `_add` (graph_layout.pyx:172-181): append `x` unless already present. -/
def osAdd {α : Type} [DecidableEq α] (l : List α) (x : α) : List α :=
  if x ∈ l then l else l ++ [x]

/-- `OrderedSet._from_iterable` / `__init__` (graph_layout.pyx:278-294):
insert every element of the iterable in encounter order, skipping
duplicates. -/
def osFromIterable {α : Type} [DecidableEq α] (it : List α) : List α :=
  it.foldl osAdd []

/-- `OrderedSet.__or__` (graph_layout.pyx:442-451): build a fresh ordered set
from the chained iteration of both operands. -/
def osUnion {α : Type} [DecidableEq α] (A B : List α) : List α :=
  osFromIterable (A ++ B)

/-- `OrderedSet.__sub__` (graph_layout.pyx:341-352): build a fresh ordered
set from the elements of `self` not contained in `other`. -/
def osSub {α : Type} [DecidableEq α] (A B : List α) : List α :=
  osFromIterable (A.filter (fun a => a ∉ B))

/-- `OrderedSet.__and__` (graph_layout.pyx:367-378): build a fresh ordered
set from the elements of `self` contained in `other`. -/
def osInter {α : Type} [DecidableEq α] (A B : List α) : List α :=
  osFromIterable (A.filter (fun a => a ∈ B))

/-! ## P→RP normalization (triangulation.pyx:263-307, tinycadlib.pyx:289-334)

Both `t_config` and `data_collecting` copy the caller's joint list
(`vpoints = list(vpoints_)`), build a link-name → joint-index adjacency
dictionary (`vlinks`), and then replace selected revolute joints reachable
from prismatic joints by synthetic RP joints, assigning the replacements
into the copy.  `t_config` stores the joints of a link as a Python set
(`{node}` / `.add`, insertion-ordered and duplicate-free in our model) while
`data_collecting` stores them as a list (`[node]` / `.append`, which keeps
duplicate occurrences of a joint that lists the same link twice). -/

/-- Update the value of key `k` of an insertion-ordered dictionary with `f`,
appending `(k, init)` when the key is absent (Python dict assignment keeps
the position of an existing key). -/
def dictUpd {κ ν : Type} [DecidableEq κ] :
    List (κ × ν) → κ → (ν → ν) → ν → List (κ × ν)
  | [], k, _, init => [(k, init)]
  | (k', v) :: rest, k, f, init =>
    if k = k' then (k', f v) :: rest else (k', v) :: dictUpd rest k f init

/-- Dictionary lookup. -/
def dictGet {κ ν : Type} [DecidableEq κ] : List (κ × ν) → κ → Option ν
  | [], _ => none
  | (k', v) :: rest, k => if k = k' then some v else dictGet rest k

/-- The `vlinks` dictionary of `data_collecting` (tinycadlib.pyx:295-305):
link name → list of joint indices, values appended with `.append`. -/
def buildVlinksDGo : List (String × List ℕ) → ℕ → List VPoint → List (String × List ℕ)
  | d, _, [] => d
  | d, node, vp :: rest =>
      buildVlinksDGo
        (vp.links.foldl (fun d link => dictUpd d link (fun l => l ++ [node]) [node]) d)
        (node + 1) rest

/-- `data_collecting`'s `vlinks`. -/
def buildVlinksD (vpoints : List VPoint) : List (String × List ℕ) :=
  buildVlinksDGo [] 0 vpoints

/-- The `vlinks` dictionary of `t_config` (triangulation.pyx:268-280):
link name → set of joint indices, values added with `.add` (modelled as an
insertion-ordered duplicate-free list). -/
def buildVlinksTGo : List (String × List ℕ) → ℕ → List VPoint → List (String × List ℕ)
  | d, _, [] => d
  | d, node, vp :: rest =>
      buildVlinksTGo
        (vp.links.foldl (fun d link => dictUpd d link (fun l => osAdd l node) [node]) d)
        (node + 1) rest

/-- `t_config`'s `vlinks`. -/
def buildVlinksT (vpoints : List VPoint) : List (String × List ℕ) :=
  buildVlinksTGo [] 0 vpoints

/-- The synthetic RP joint replacing revolute joint `rv` on a secondary link
of prismatic joint `pv` (triangulation.pyx:298-307, tinycadlib.pyx:325-334):
`VPoint.c_slider_joint([pv.links[0]] + [l for l in rv.links if l not in
pv.links], RP, pv.angle, rv.x, rv.y)` — the replacement takes the prismatic
joint's primary link followed by the revolute joint's links not already on
the prismatic joint, the prismatic joint's angle, and the revolute joint's
base position. -/
def replSlider (pv rv : VPoint) : VPoint :=
  VPoint.c_slider_joint
    (pv.links.headD "" :: rv.links.filter (fun l => l ∉ pv.links))
    VJoint.RP pv.angle rv.cA.1 rv.cA.2

/-- One candidate joint of the inner replacement loop of `t_config`
(triangulation.pyx:293-307): skip the base joint and non-revolute joints,
replace revolute joints by `replSlider`. -/
def tcInnerNode (base : ℕ) (pv : VPoint) (cur : List VPoint) (node : ℕ) :
    List VPoint :=
  match cur.get? node with
  | none => cur
  | some rv =>
    if node = base ∨ rv.type ≠ VJoint.R then cur
    else cur.set node (replSlider pv rv)

/-- One candidate joint of the inner replacement loop of `data_collecting`
(tinycadlib.pyx:319-334): skip the base joint and joints of type P or RP,
replace the rest (the revolute joints) by `replSlider`. -/
def dcInnerNode (base : ℕ) (pv : VPoint) (cur : List VPoint) (node : ℕ) :
    List VPoint :=
  match cur.get? node with
  | none => cur
  | some rv =>
    if node = base ∨ (rv.type = VJoint.P ∨ rv.type = VJoint.RP) then cur
    else cur.set node (replSlider pv rv)

/-- One base joint of `t_config`'s replacement loop (triangulation.pyx:287-307):
only prismatic **grounded** joints trigger replacements, over each of their
secondary links. -/
def tcPerBase (vl : List (String × List ℕ)) (cur : List VPoint) (base : ℕ) :
    List VPoint :=
  match cur.get? base with
  | none => cur
  | some pv =>
    if pv.type ≠ VJoint.P ∨ pv.grounded = false then cur
    else
      (pv.links.drop 1).foldl
        (fun c link => ((dictGet vl link).getD []).foldl (tcInnerNode base pv) c) cur

/-- One base joint of `data_collecting`'s replacement loop
(tinycadlib.pyx:313-334): **every** prismatic joint triggers replacements
(there is no grounded test), over each of its secondary links. -/
def dcPerBase (vl : List (String × List ℕ)) (cur : List VPoint) (base : ℕ) :
    List VPoint :=
  match cur.get? base with
  | none => cur
  | some pv =>
    if pv.type ≠ VJoint.P then cur
    else
      (pv.links.drop 1).foldl
        (fun c link => ((dictGet vl link).getD []).foldl (dcInnerNode base pv) c) cur

/-- The P→RP normalization performed by `t_config`
(triangulation.pyx:283-307) on its defensive copy of the joint list. -/
def tcNormalize (vpoints : List VPoint) : List VPoint :=
  (List.range vpoints.length).foldl (tcPerBase (buildVlinksT vpoints)) vpoints

/-- The P→RP normalization performed by `data_collecting`
(tinycadlib.pyx:307-334) on its defensive copy of the joint list. -/
def dcNormalize (vpoints : List VPoint) : List VPoint :=
  (List.range vpoints.length).foldl (dcPerBase (buildVlinksD vpoints)) vpoints

/-- The effect of one inner replacement step on its own entry. -/
def innerRes (base : ℕ) (pv : VPoint) (m : ℕ) (rv : VPoint) : VPoint :=
  if m = base ∨ rv.type ≠ VJoint.R then rv else replSlider pv rv

/-- The invariant of the base loop: every entry of the working copy is
either the original joint or a synthetic RP replacement. -/
def normInv (vps cur : List VPoint) : Prop :=
  ∀ i, cur.get? i = vps.get? i ∨
    ∃ v, cur.get? i = some v ∧ v.type = VJoint.RP

/-- A prismatic joint that is **not** grounded, together with a revolute
joint sharing its secondary link `L2`: `data_collecting` replaces the
revolute joint with a synthetic RP joint, `t_config` does not. -/
def vpP7 : VPoint :=
  { links := ["L1", "L2"], type := VJoint.P, angle := 0, cA := (0, 0),
    cB := (0, 0), pin_grounded := false, has_offset := false }

/-- A revolute joint on link `L2` (see `vpP7`). -/
def vpR7 : VPoint :=
  { links := ["L2"], type := VJoint.R, angle := 0, cA := (1, 0),
    cB := (1, 0), pin_grounded := false, has_offset := false }

/-- A grounded prismatic joint with secondary link `L2` (for the amended C7
witness). -/
def vpP7g : VPoint :=
  { links := ["ground", "L2"], type := VJoint.P, angle := 0, cA := (0, 0),
    cB := (0, 0), pin_grounded := false, has_offset := false }

/-! ## Heap-level model of the defensive copy (C8)

`t_config` and `data_collecting` receive the caller's joint sequence
`vpoints_` and immediately execute `vpoints = list(vpoints_)`
(triangulation.pyx:263, tinycadlib.pyx:291): the copy shares the caller's
`VPoint` objects but is a distinct list.  The only statements that write
through either list are the P→RP replacement assignments
`vpoints[node] = VPoint.c_slider_joint(...)`, which store a freshly
allocated object into the **copy**; every other use of `vpoints` in both
routines is a read, and no `VPoint` attribute is ever assigned.  To state
this aliasing fact we model the object store explicitly: a heap is a list
of `VPoint` objects and a joint sequence is a list of addresses (indices
into the heap); allocation appends to the heap. -/

/-- Heap-level inner replacement step shared by both routines: reads the
candidate joint through the copy, and on replacement allocates a fresh
`replSlider` object (address `heap.length`) and assigns it into the copy. -/
def hpInnerNode (tcGuard : Bool) (base : ℕ) (pv : VPoint)
    (st : List VPoint × List ℕ) (node : ℕ) : List VPoint × List ℕ :=
  match (st.2.get? node).bind st.1.get? with
  | none => st
  | some rv =>
    if node = base ∨ (if tcGuard then rv.type ≠ VJoint.R
        else (rv.type = VJoint.P ∨ rv.type = VJoint.RP)) then st
    else (st.1 ++ [replSlider pv rv], st.2.set node st.1.length)

/-- Heap-level per-base step of the replacement loop: `tcGuard` selects
`t_config`'s guard (grounded prismatic joints only) versus
`data_collecting`'s (every prismatic joint). -/
def hpPerBase (tcGuard : Bool) (vl : List (String × List ℕ))
    (st : List VPoint × List ℕ) (base : ℕ) : List VPoint × List ℕ :=
  match (st.2.get? base).bind st.1.get? with
  | none => st
  | some pv =>
    if (if tcGuard then pv.type ≠ VJoint.P ∨ pv.grounded = false
        else pv.type ≠ VJoint.P) then st
    else
      (pv.links.drop 1).foldl
        (fun s link => ((dictGet vl link).getD []).foldl
          (hpInnerNode tcGuard base pv) s) st

/-- The joint sequence a list of addresses denotes. -/
def derefHeap (heap : List VPoint) (lst : List ℕ) : List VPoint :=
  lst.map (fun a => (heap.get? a).getD
    { links := [], type := VJoint.R, angle := 0, cA := (0, 0), cB := (0, 0),
      pin_grounded := false, has_offset := false })

/-- `t_config`'s normalization phase at the heap level: copy the caller's
address list (`vpoints = list(vpoints_)` shares addresses), then run the
replacement loop on the copy. -/
def hpTcNormalize (heap : List VPoint) (lst : List ℕ) :
    List VPoint × List ℕ :=
  (List.range lst.length).foldl
    (hpPerBase true (buildVlinksT (derefHeap heap lst))) (heap, lst)

/-- `data_collecting`'s normalization phase at the heap level. -/
def hpDcNormalize (heap : List VPoint) (lst : List ℕ) :
    List VPoint × List ℕ :=
  (List.range lst.length).foldl
    (hpPerBase false (buildVlinksD (derefHeap heap lst))) (heap, lst)

/-! ## Symbols and expressions (triangulation.pyx:18-143)

Python exceptions raised by the solver pipeline are modelled by a structured
error type carrying the data of the corresponding message strings. -/

/-- The errors raised (as `ValueError`/`KeyError`/`IndexError`/`TypeError`)
by the pipeline. -/
inductive PErr : Type
  | wrongInput (a b : ℤ)
  | wrongDriver
  | pointNaN (i : ℕ)
  | sketchFail
  | keyErr
  | typeErr
  | indexErr
deriving DecidableEq, Repr

/-- The message strings of the `ValueError`s of `expr_solving`
(tinycadlib.pyx:474-476,495,531,543). -/
def perrMsg : PErr → String
  | .wrongInput a b =>
      "wrong number of input parameters: " ++ toString a ++ " / " ++ toString b
  | .wrongDriver => "wrong driver definition."
  | .pointNaN i => "result contains failure: Point" ++ toString i
  | .sketchFail => "result contains failure from sketch solve"
  | .keyErr => "KeyError"
  | .typeErr => "TypeError"
  | .indexErr => "IndexError"

/-- The symbol labels `P_LABEL`, `L_LABEL`, `A_LABEL`, `S_LABEL`
(triangulation.pxd). -/
inductive SymTag : Type
  | pL
  | lL
  | aL
  | sL
deriving DecidableEq, Repr

/-- The `sym` pair (label, index).  The index is an `int` in the source. -/
structure Sym : Type where
  fst : SymTag
  snd : ℤ
deriving DecidableEq, Repr

/-- `symbol_str` (triangulation.pyx:18-29): `P{n}`, `L{n}`, `a{n}`, `S{n}`. -/
def symbol_str (p : Sym) : String :=
  match p.fst with
  | .pL => "P" ++ toString p.snd
  | .lL => "L" ++ toString p.snd
  | .aL => "a" ++ toString p.snd
  | .sL => "S" ++ toString p.snd

/-- The expression function kinds. -/
inductive ExprFunc : Type
  | PLA
  | PLAP
  | PLLP
  | PLPP
  | PXY
deriving DecidableEq, Repr

/-- The `Expr` C struct: function kind, coordinate operands `c1..c4`, scalar
operands `v1`, `v2`, parity flag `op`.  Fields not set by the emitting
`EStack.add_*` method keep a default value (they are never read). -/
structure Expr : Type where
  func : ExprFunc
  c1 : Sym := ⟨.pL, 0⟩
  c2 : Sym := ⟨.pL, 0⟩
  c3 : Sym := ⟨.pL, 0⟩
  c4 : Sym := ⟨.pL, 0⟩
  v1 : Sym := ⟨.pL, 0⟩
  v2 : Sym := ⟨.pL, 0⟩
  op : Bool := false
deriving DecidableEq, Repr

/-- `EStack.add_pla` (triangulation.pyx:38-46). -/
def addPla (st : List Expr) (c1 v1 v2 target : Sym) : List Expr :=
  st ++ [{ func := .PLA, c1 := c1, v1 := v1, v2 := v2, c2 := target, op := false }]

/-- `EStack.add_pllp` (triangulation.pyx:59-68). -/
def addPllp (st : List Expr) (c1 v1 v2 c2 t : Sym) : List Expr :=
  st ++ [{ func := .PLLP, c1 := c1, v1 := v1, v2 := v2, c2 := c2, c3 := t,
           op := false }]

/-- `EStack.add_plpp` (triangulation.pyx:70-79). -/
def addPlpp (st : List Expr) (c1 v1 c2 c3 t : Sym) (op : Bool) : List Expr :=
  st ++ [{ func := .PLPP, c1 := c1, v1 := v1, c2 := c2, c3 := c3, c4 := t,
           op := op }]

/-- `EStack.add_pxy` (triangulation.pyx:81-89). -/
def addPxy (st : List Expr) (c1 v1 v2 t : Sym) : List Expr :=
  st ++ [{ func := .PXY, c1 := c1, v1 := v1, v2 := v2, c2 := t, op := false }]

/-! ## The synthesizer `t_config` (triangulation.pyx:239-471)

The status dictionary has `int` keys (the caller may pass arbitrary extra
keys) and `bint` values; we model it as an insertion-ordered association
list over `ℤ`.  The loop variable `node` is only ever assigned `0` or
incremented, so it is modelled as `ℕ`. -/

/-- Python dict assignment `d[k] = v` (update in place or append). -/
def dSet (d : List (ℤ × Bool)) (k : ℤ) (v : Bool) : List (ℤ × Bool) :=
  dictUpd d k (fun _ => v) v

/-- `_is_all_lock` (triangulation.pyx:145-151). -/
def isAllLock (status : List (ℤ × Bool)) : Bool := status.all (fun kv => kv.2)

/-- `_clockwise` (triangulation.pyx:154-159): `val == 0 or val > 0` for the
signed-area expression. -/
noncomputable def clockwise (c1 c2 c3 : Pt) : Bool :=
  if (c2.2 - c1.2) * (c3.1 - c2.1) - (c2.1 - c1.1) * (c3.2 - c2.2) = 0 ∨
      (c2.2 - c1.2) * (c3.1 - c2.1) - (c2.1 - c1.1) * (c3.2 - c2.2) > 0
  then true else false

/-- Read `status[f]` (raises `KeyError` when `f` is not a key). -/
def statusAt (status : List (ℤ × Bool)) (f : ℤ) : Except PErr Bool :=
  match dictGet status f with
  | some b => .ok b
  | none => .error .keyErr

/-- The inner loop of `_get_reliable_friend` (triangulation.pyx:177-183)
over the joints of one link, threading the accumulators `fa`, `fb`
(initially `-1`); `Sum.inl` is the early `return True, fa, fb`. -/
def grfNodes (node : ℕ) (status : List (ℤ × Bool)) :
    List ℕ → ℤ → ℤ → Except PErr ((ℤ × ℤ) ⊕ (ℤ × ℤ))
  | [], fa, fb => .ok (.inr (fa, fb))
  | f :: rest, fa, fb =>
      match statusAt status f with
      | .error e => .error e
      | .ok sf =>
        if sf = true ∧ (f : ℤ) ≠ (node : ℤ) then
          if fa = -1 then grfNodes node status rest f fb
          else .ok (.inl (fa, f))
        else grfNodes node status rest fa fb

/-- The link loop of `_get_reliable_friend` (triangulation.pyx:174-184):
links whose joint set has fewer than two members are skipped. -/
def grfLinks (node : ℕ) (status : List (ℤ × Bool))
    (vl : List (String × List ℕ)) :
    List String → ℤ → ℤ → Except PErr (Bool × ℤ × ℤ)
  | [], fa, fb => .ok (false, fa, fb)
  | link :: rest, fa, fb =>
      match dictGet vl link with
      | none => .error .keyErr
      | some fl =>
        if fl.length < 2 then grfLinks node status vl rest fa fb
        else
          match grfNodes node status fl fa fb with
          | .error e => .error e
          | .ok (.inl (fa, fb)) => .ok (true, fa, fb)
          | .ok (.inr (fa, fb)) => grfLinks node status vl rest fa fb

/-- `_get_reliable_friend` (triangulation.pyx:162-184): two already-solved
friends on the node's links. -/
def getReliableFriend (node : ℕ) (vpoints : List VPoint)
    (vl : List (String × List ℕ)) (status : List (ℤ × Bool)) :
    Except PErr (Bool × ℤ × ℤ) :=
  match vpoints.get? node with
  | none => .error .indexErr
  | some vp => grfLinks node status vl vp.links (-1) (-1)

/-- The joint loop of `_get_not_base_friend` (triangulation.pyx:201-204). -/
def gnbfNodes (status : List (ℤ × Bool)) :
    List ℕ → Except PErr (Bool × ℤ)
  | [] => .ok (false, -1)
  | f :: rest =>
      match statusAt status f with
      | .error e => .error e
      | .ok sf => if sf = true then .ok (true, (f : ℤ)) else gnbfNodes status rest

/-- `_get_not_base_friend` (triangulation.pyx:187-204): one solved friend on
the node's second link; fails fast for pin-grounded / ungrounded /
offset-carrying joints and joints with fewer than two links. -/
def getNotBaseFriend (node : ℕ) (vpoints : List VPoint)
    (vl : List (String × List ℕ)) (status : List (ℤ × Bool)) :
    Except PErr (Bool × ℤ) :=
  match vpoints.get? node with
  | none => .error .indexErr
  | some vp =>
    if vp.pin_grounded = true ∨ vp.grounded = false ∨ vp.has_offset = true ∨
        vp.links.length < 2 then .ok (false, -1)
    else
      match vp.links.get? 1 with
      | none => .error .indexErr
      | some l1 =>
        match dictGet vl l1 with
        | none => .error .keyErr
        | some fl => gnbfNodes status fl

/-- `_get_base_friend` (triangulation.pyx:207-225): the first two joints of
the node's first link (no solved test). -/
def getBaseFriend (node : ℕ) (vpoints : List VPoint)
    (vl : List (String × List ℕ)) :
    Except PErr (Bool × ℤ × ℤ) :=
  match vpoints.get? node with
  | none => .error .indexErr
  | some vp =>
    if vp.links.length < 1 then .ok (false, -1, -1)
    else
      match vp.links.get? 0 with
      | none => .error .indexErr
      | some l0 =>
        match dictGet vl l0 with
        | none => .error .keyErr
        | some fl =>
          match fl with
          | [] => .ok (false, -1, -1)
          | [f1] => .ok (false, (f1 : ℤ), -1)
          | f1 :: f2 :: _ => .ok (true, (f1 : ℤ), (f2 : ℤ))

/-- `_get_input_base` (triangulation.pyx:228-234): the base of the first
input pair driving `node`, `-1` when none does. -/
def getInputBase (node : ℕ) (inputs : List (ℕ × ℕ)) : ℤ :=
  match inputs.find? (fun p => p.2 = node) with
  | some p => (p.1 : ℤ)
  | none => -1

/-- The immutable context of `t_config`'s main loop. -/
structure TCtx : Type where
  vpoints : List VPoint
  vlinks : List (String × List ℕ)
  pos : List Pt
  inputs : List (ℕ × ℕ)
  inputTargets : List ℕ
  around : ℕ

/-- The mutable state of `t_config`'s main loop. -/
structure TState : Type where
  status : List (ℤ × Bool)
  node : ℕ
  skip : ℕ
  exprs : List Expr
  lsym : ℤ
  asym : ℤ
deriving DecidableEq, Repr

/-- Result of one main-loop iteration: continue with a new state, leave the
loop with the expression stack, or propagate a Python exception. -/
inductive StepRes : Type
  | cont (s : TState)
  | done (e : List Expr)
  | fail (e : PErr)
deriving DecidableEq, Repr

/-- Read `pos[i]` (an out-of-range read would be C undefined behaviour; it
cannot occur on executed paths, and is modelled as `IndexError`). -/
def posAt (ctx : TCtx) (i : ℤ) : Except PErr Pt :=
  match ctx.pos.get? i.toNat with
  | some p => .ok p
  | none => .error .indexErr

/-- The P-branch propagation loop (triangulation.pyx:400-412): for every
secondary link of the prismatic joint, place every still-unsolved friend by
a further PXY step. -/
def pPropagateNodes (node : ℕ) :
    List ℕ → List (ℤ × Bool) → List Expr → ℤ →
      Except PErr (List (ℤ × Bool) × List Expr × ℤ)
  | [], status, exprs, lsym => .ok (status, exprs, lsym)
  | fb :: rest, status, exprs, lsym =>
      match statusAt status fb with
      | .error e => .error e
      | .ok sfb =>
        if sfb = true then pPropagateNodes node rest status exprs lsym
        else
          pPropagateNodes node rest (dSet status (fb : ℤ) true)
            (addPxy exprs ⟨.pL, (node : ℤ)⟩ ⟨.lL, lsym⟩ ⟨.lL, lsym + 1⟩
              ⟨.pL, (fb : ℤ)⟩)
            (lsym + 2)

/-- The link loop of the P-branch propagation (triangulation.pyx:401). -/
def pPropagateLinks (node : ℕ) (vl : List (String × List ℕ)) :
    List String → List (ℤ × Bool) → List Expr → ℤ →
      Except PErr (List (ℤ × Bool) × List Expr × ℤ)
  | [], status, exprs, lsym => .ok (status, exprs, lsym)
  | link :: rest, status, exprs, lsym =>
      match dictGet vl link with
      | none => .error .keyErr
      | some fl =>
          match pPropagateNodes node fl status exprs lsym with
          | .error e => .error e
          | .ok (status, exprs, lsym) =>
              pPropagateLinks node vl rest status exprs lsym

/-- The revolute-joint branch of the main loop (triangulation.pyx:351-385). -/
noncomputable def stepR (ctx : TCtx) (s : TState) : StepRes :=
  if s.node ∈ ctx.inputTargets then
    match dictGet s.status (getInputBase s.node ctx.inputs) with
    | none => .fail .keyErr
    | some true =>
      .cont { s with
        exprs := addPla s.exprs ⟨.pL, getInputBase s.node ctx.inputs⟩
          ⟨.lL, s.lsym⟩ ⟨.aL, s.asym⟩ ⟨.pL, (s.node : ℤ)⟩,
        status := dSet s.status s.node true,
        lsym := s.lsym + 1, asym := s.asym + 1, node := s.node + 1 }
    | some false => .cont { s with skip := s.skip + 1, node := s.node + 1 }
  else
    match getReliableFriend s.node ctx.vpoints ctx.vlinks s.status with
    | .error e => .fail e
    | .ok (false, _, _) => .cont { s with skip := s.skip + 1, node := s.node + 1 }
    | .ok (true, fa, fb) =>
      match posAt ctx fa, posAt ctx (s.node : ℤ), posAt ctx fb with
      | .ok pfa, .ok pn, .ok pfb =>
        let fab := if clockwise pfa pn pfb = true then (fa, fb) else (fb, fa)
        .cont { s with
          exprs := addPllp s.exprs ⟨.pL, fab.1⟩ ⟨.lL, s.lsym⟩
            ⟨.lL, s.lsym + 1⟩ ⟨.pL, fab.2⟩ ⟨.pL, (s.node : ℤ)⟩,
          status := dSet s.status s.node true,
          lsym := s.lsym + 2, skip := 0, node := s.node + 1 }
      | _, _, _ => .fail .indexErr

/-- The prismatic-joint branch of the main loop (triangulation.pyx:386-413). -/
def stepP (ctx : TCtx) (s : TState) (vp : VPoint) : StepRes :=
  match getNotBaseFriend s.node ctx.vpoints ctx.vlinks s.status with
  | .error e => .fail e
  | .ok (false, _) => .cont { s with skip := s.skip + 1, node := s.node + 1 }
  | .ok (true, fa) =>
    match pPropagateLinks s.node ctx.vlinks (vp.links.drop 1)
        (dSet s.status s.node true)
        (addPxy s.exprs ⟨.pL, fa⟩ ⟨.lL, s.lsym⟩ ⟨.lL, s.lsym + 1⟩
          ⟨.pL, (s.node : ℤ)⟩)
        (s.lsym + 2) with
    | .error e => .fail e
    | .ok (status, exprs, lsym) =>
      .cont { s with
        status := status
        exprs := exprs
        lsym := lsym
        skip := 0
        node := s.node + 1 }

/-- The RP-joint branch of the main loop (triangulation.pyx:414-469). -/
noncomputable def stepRP (ctx : TCtx) (s : TState) (vp : VPoint) : StepRes :=
  match posAt ctx (s.node : ℤ) with
  | .error e => .fail e
  | .ok pn =>
    let tmp : Pt := (pn.1 + Real.cos (vp.angle / 180 * Real.pi),
                     pn.2 + Real.sin (vp.angle / 180 * Real.pi))
    match getNotBaseFriend s.node ctx.vpoints ctx.vlinks s.status with
    | .error e => .fail e
    | .ok (ok1, fa) =>
      match getBaseFriend s.node ctx.vpoints ctx.vlinks with
      | .error e => .fail e
      | .ok (ok2, fb0, fd0) =>
        if ok1 = false ∨ ok2 = false then
          .cont { s with skip := s.skip + 1, node := s.node + 1 }
        else
          match posAt ctx fb0, posAt ctx fd0, posAt ctx fa with
          | .ok pfb0, .ok pfd0, .ok pfa =>
            let fbd := if vp.grounded = false then
                (if clockwise pfb0 tmp pfd0 = true then (fb0, fd0) else (fd0, fb0))
              else (fb0, fd0)
            let exprs1 := if vp.grounded = false then
                addPllp s.exprs ⟨.pL, fbd.1⟩ ⟨.lL, s.lsym⟩ ⟨.lL, s.lsym + 1⟩
                  ⟨.pL, fbd.2⟩ ⟨.pL, (s.node : ℤ)⟩
              else s.exprs
            let lsym1 := if vp.grounded = false then s.lsym + 2 else s.lsym
            match posAt ctx fbd.1 with
            | .error e => .fail e
            | .ok pfb1 =>
              let fbc := if clockwise pfb1 tmp pn = true then (fbd.1, (s.node : ℤ))
                else ((s.node : ℤ), fbd.1)
              let exprs2 := addPllp exprs1 ⟨.pL, fbc.1⟩ ⟨.lL, lsym1⟩
                ⟨.lL, lsym1 + 1⟩ ⟨.pL, fbc.2⟩ ⟨.sL, (s.node : ℤ)⟩
              let op : Bool := ((if pfa.1 - pn.1 > 0 then true else false)
                != (if vp.angle > 90 then true else false))
              let exprs3 := addPlpp exprs2 ⟨.pL, fa⟩ ⟨.lL, lsym1 + 2⟩
                ⟨.pL, (s.node : ℤ)⟩ ⟨.sL, (s.node : ℤ)⟩ ⟨.pL, (s.node : ℤ)⟩ op
              .cont { s with
                exprs := exprs3
                status := dSet s.status s.node true
                lsym := lsym1 + 3
                skip := 0
                node := s.node + 1 }
          | _, _, _ => .fail .indexErr

/-- One iteration of `t_config`'s main worklist loop
(triangulation.pyx:339-470). -/
noncomputable def stepT (ctx : TCtx) (s : TState) : StepRes :=
  if isAllLock s.status = true then .done s.exprs
  else if dictGet s.status (s.node : ℤ) = none then .cont { s with node := 0 }
  else if ctx.around ≤ s.skip then .done s.exprs
  else if dictGet s.status (s.node : ℤ) = some true then
    .cont { s with node := s.node + 1, skip := s.skip + 1 }
  else
    match ctx.vpoints.get? s.node with
    | none => .fail .indexErr
    | some vp =>
      match vp.type with
      | VJoint.R => stepR ctx s
      | VJoint.P => stepP ctx s vp
      | VJoint.RP => stepRP ctx s vp

/-- Run the main loop with fuel; `none` means the fuel ran out. -/
noncomputable def runT (ctx : TCtx) : ℕ → TState → Option (Except PErr (List Expr))
  | 0, _ => none
  | n + 1, s =>
    match stepT ctx s with
    | .done e => some (.ok e)
    | .fail e => some (.error e)
    | .cont s2 => runT ctx n s2

/-- Number of `False` entries of the status dictionary. -/
def countFalse (st : List (ℤ × Bool)) : ℕ :=
  (st.filter (fun kv => !kv.2)).length

/-- The termination measure of the main loop: lexicographic in (number of
unsolved joints, remaining skip budget, whether the loop index is a status
key), flattened into one natural number. -/
def tMeasure (ctx : TCtx) (s : TState) : ℕ :=
  (countFalse s.status * (ctx.around + 1) + (ctx.around - s.skip)) * 2 +
    (if dictGet s.status (s.node : ℤ) = none then 1 else 0)

/-- The status-initialization loop of `t_config`
(triangulation.pyx:266-282), which also builds `vlinks` (the `vlinks` part
is `buildVlinksT`): every joint starts unsolved, then link-less joints and
grounded revolute joints are marked solved. -/
def initStatusGo : List (ℤ × Bool) → ℕ → List VPoint → List (ℤ × Bool)
  | st, _, [] => st
  | st, node, vp :: rest =>
      let st1 := dSet st (node : ℤ) false
      let st2 :=
        if vp.links = [] then dSet st1 (node : ℤ) true
        else vp.links.foldl
          (fun st link =>
            if link = FRAME ∧ vp.type = VJoint.R then dSet st (node : ℤ) true
            else st) st1
      initStatusGo st2 (node + 1) rest

/-- The input-pair preprocessing loop (triangulation.pyx:318-327): for every
input pair whose base is already solved, emit a PLA immediately and mark the
driven joint solved. -/
def inputPlaGo :
    List (ℕ × ℕ) → List (ℤ × Bool) → List Expr → ℤ → ℤ →
      Except PErr (List (ℤ × Bool) × List Expr × ℤ × ℤ)
  | [], status, exprs, lsym, asym => .ok (status, exprs, lsym, asym)
  | (base, node) :: rest, status, exprs, lsym, asym =>
      match statusAt status (base : ℤ) with
      | .error e => .error e
      | .ok sb =>
        if sb = true then
          inputPlaGo rest (dSet status (node : ℤ) true)
            (addPla exprs ⟨.pL, (base : ℤ)⟩ ⟨.lL, lsym⟩ ⟨.aL, asym⟩
              ⟨.pL, (node : ℤ)⟩)
            (lsym + 1) (asym + 1)
        else inputPlaGo rest status exprs lsym asym

/-- The context and start state of the main loop, after all preprocessing
(triangulation.pyx:263-337). -/
noncomputable def tConfigStart (vpoints_ : List VPoint)
    (inputs : List (ℕ × ℕ)) (status0 : List (ℤ × Bool)) :
    Except PErr (TCtx × TState) :=
  let vpoints := vpoints_
  let status1 := initStatusGo status0 0 vpoints
  let vlinks := buildVlinksT vpoints
  let vpointsN := tcNormalize vpoints
  let pos := vpointsN.map (fun vp => if vp.type = VJoint.R then vp.cA else vp.cB)
  match inputPlaGo inputs status1 [] 0 0 with
  | .error e => .error e
  | .ok (status2, exprs0, lsym0, asym0) =>
  let ctx : TCtx := { vpoints := vpointsN
                      vlinks := vlinks
                      pos := pos
                      inputs := inputs
                      inputTargets := inputs.map (fun p => p.2)
                      around := status2.length }
  let s0 : TState := { status := status2
                       node := 0
                       skip := 0
                       exprs := exprs0
                       lsym := lsym0
                       asym := asym0 }
  .ok (ctx, s0)

/-- `t_config` (triangulation.pyx:239-471), with the main loop run on the
fuel given by the termination measure; `none` would mean the fuel ran out
(the termination theorem shows it never does). -/
noncomputable def t_config (vpoints_ : List VPoint) (inputs : List (ℕ × ℕ))
    (status0 : List (ℤ × Bool)) : Option (Except PErr (List Expr)) :=
  match vpoints_ with
  | [] => some (.ok [])
  | _ =>
    match inputs with
    | [] => some (.ok [])
    | _ =>
      match tConfigStart vpoints_ inputs status0 with
      | .error e => some (.error e)
      | .ok (ctx, s0) => runT ctx (tMeasure ctx s0 + 1) s0

/-- The main-loop state is at an input-target revolute joint: the branch of
triangulation.pyx:355-366 (the only solving branch that does not touch
`skip_times`). -/
def isInputPlaState (ctx : TCtx) (s : TState) : Prop :=
  ∃ vp, ctx.vpoints.get? s.node = some vp ∧ vp.type = VJoint.R ∧
    s.node ∈ ctx.inputTargets

/-- A five-joint mechanism whose input pair `(2, 4)` has an ungrounded base
joint 2: in the main loop the base becomes solved by PLLP (resetting
`skip_times`), the grounded joint 3 is then skipped (`skip_times = 1`), and
the input target 4 is then solved by the PLA branch — which does not reset
`skip_times`. -/
def exC6 : List VPoint :=
  [ ⟨["ground", "L1"], VJoint.R, 0, (0, 0), (0, 0), false, false⟩,
    ⟨["ground", "L2"], VJoint.R, 0, (10, 0), (10, 0), false, false⟩,
    ⟨["L1", "L2"], VJoint.R, 0, (5, 5), (5, 5), false, false⟩,
    ⟨["ground", "L3"], VJoint.R, 0, (20, 0), (20, 0), false, false⟩,
    ⟨["L4"], VJoint.R, 0, (6, 6), (6, 6), false, false⟩ ]

/-- The main-loop context of `t_config exC6 [(2, 4)] []`. -/
def ctxC6 : TCtx :=
  { vpoints := tcNormalize exC6
    vlinks := buildVlinksT exC6
    pos := (tcNormalize exC6).map
      (fun vp => if vp.type = VJoint.R then vp.cA else vp.cB)
    inputs := [(2, 4)]
    inputTargets := [4]
    around := 5 }

/-- The loop state just before the PLA branch fires for joint 4, with
`skip_times = 1` accumulated from skipping the solved joint 3. -/
def sC6 : TState :=
  { status := [(0, true), (1, true), (2, true), (3, true), (4, false)]
    node := 4
    skip := 1
    exprs := addPllp [] ⟨.pL, 0⟩ ⟨.lL, 0⟩ ⟨.lL, 1⟩ ⟨.pL, 1⟩ ⟨.pL, 2⟩
    lsym := 2
    asym := 0 }

/-- The successor state of `sC6`: joint 4 solved by PLA, `skip_times`
still 1. -/
def sC6' : TState :=
  { status := [(0, true), (1, true), (2, true), (3, true), (4, true)]
    node := 5
    skip := 1
    exprs := addPla (addPllp [] ⟨.pL, 0⟩ ⟨.lL, 0⟩ ⟨.lL, 1⟩ ⟨.pL, 1⟩ ⟨.pL, 2⟩)
      ⟨.pL, 2⟩ ⟨.lL, 2⟩ ⟨.aL, 0⟩ ⟨.pL, 4⟩
    lsym := 3
    asym := 1 }

/-! ## The expression interpreter (tinycadlib.pyx:156-560)

The `mapping` dictionary of `data_collecting`/`expr_solving` mixes integer
keys (joint index → symbol name), tuple keys (joint pair → link length) and
string keys (symbol name → position); its values are symbol strings, floats
or coordinate pairs.  We model the keys by `MKey` and the values by `Val`;
the data dictionary maps `Val` keys (in practice symbol strings, but the
grounded-joint loop at tinycadlib.pyx:443-445 uses `mapping[i]` itself as
the key) to `Val` values, where `vnanpt` is a coordinate pair whose
components are NaN.  Non-string values are not treated as aliases of
numeric keys (Python's `1 == 1.0` key unification is outside the model). -/

/-- Keys of the `mapping` dictionary: joint index, joint pair, symbol
string. -/
inductive MKey : Type
  | idx (n : ℕ)
  | pairk (a b : ℕ)
  | strk (s : String)
deriving DecidableEq, Repr

/-- Values of the `mapping` and data dictionaries. -/
inductive Val : Type
  | vsym (s : String)
  | vnum (r : ℝ)
  | vpt (p : Pt)
  | vnanpt

/-- Equality test on `Val` (real-number cases decided classically; the
symbol-string case is computable). -/
noncomputable def valBeq : Val → Val → Bool
  | .vsym a, .vsym b => a == b
  | .vnum a, .vnum b => if a = b then true else false
  | .vpt p, .vpt q => if p = q then true else false
  | .vnanpt, .vnanpt => true
  | _, _ => false

/-- Data-dictionary lookup (keys compared with `valBeq`). -/
noncomputable def ddGet : List (Val × Val) → Val → Option Val
  | [], _ => none
  | (k, v) :: rest, key => if valBeq k key then some v else ddGet rest key

/-- Data-dictionary assignment (update in place or append). -/
noncomputable def ddSet : List (Val × Val) → Val → Val → List (Val × Val)
  | [], k, v => [(k, v)]
  | (k', v') :: rest, k, v =>
    if valBeq k' k then (k', v) :: rest else (k', v') :: ddSet rest k v

/-- `mapping_r` lookup. -/
noncomputable def mrGet : List (Val × ℕ) → Val → Option ℕ
  | [], _ => none
  | (k, n) :: rest, key => if valBeq k key then some n else mrGet rest key

/-- `mapping_r` assignment. -/
noncomputable def mrSet : List (Val × ℕ) → Val → ℕ → List (Val × ℕ)
  | [], k, n => [(k, n)]
  | (k', n') :: rest, k, n =>
    if valBeq k' k then (k', n) :: rest else (k', n') :: mrSet rest k n

/-- `frozenset({a, b})`: an unordered pair, normalized. -/
def pairKey (a b : ℕ) : ℕ × ℕ := (min a b, max a b)

/-- `radians` (tinycadlib.pyx:37-40): `degree / 180 * π`. -/
noncomputable def radiansR (degree : ℝ) : ℝ := degree / 180 * Real.pi

/-- Default joint object (for the modelled C fall-through of
`base_friend`). -/
instance : Inhabited VPoint :=
  ⟨{ links := [], type := VJoint.R, angle := 0, cA := (0, 0), cB := (0, 0),
     pin_grounded := false, has_offset := false }⟩

/-- `base_friend` (tinycadlib.pyx:263-271): index of the first joint
sharing `vpoints[node]`'s first link; the C function falls off the end
(returning 0) when `vpoints[node]` has no links. -/
def base_friend (node : ℕ) (vpoints : List VPoint) : ℕ :=
  match vpoints.get? node with
  | none => 0
  | some vp =>
    match vp.links.head? with
    | none => 0
    | some l0 => (vpoints.findIdx? (fun v => l0 ∈ v.links)).getD 0

/-- Modelled from the spec (§6): the mechanism-graph collaborator exposes
"a slope-angle function between two joints for a given coordinate index
pair"; the joint class source is not part of this repository and the spec
gives no formula, so we model the plane slope angle (in degrees) from this
joint's coordinate `n1` to the other joint's coordinate `n2`. -/
noncomputable def VPoint.slope_angle (self other : VPoint) (n1 n2 : ℕ) : ℝ :=
  atan2 ((if n1 = 0 then self.cA.2 else self.cB.2) -
         (if n2 = 0 then other.cA.2 else other.cB.2))
        ((if n1 = 0 then self.cA.1 else self.cB.1) -
         (if n2 = 0 then other.cA.1 else other.cB.1)) * 180 / Real.pi

/-- The reverse-mapping/length/data-dictionary seeding loop of
`data_collecting` (tinycadlib.pyx:337-348): integer keys build `mapping_r`
(and pre-resolve symbol values that are themselves mapping keys), tuple
keys build the specified-length dictionary. -/
noncomputable def dcSeedGo (mapping : List (MKey × Val)) :
    List (MKey × Val) → List (Val × ℕ) → List ((ℕ × ℕ) × Val) →
      List (Val × Val) →
      List (Val × ℕ) × List ((ℕ × ℕ) × Val) × List (Val × Val)
  | [], mr, len, dd => (mr, len, dd)
  | (k, v) :: rest, mr, len, dd =>
    match k with
    | .idx n =>
      let mr2 := mrSet mr v n
      let dd2 :=
        match v with
        | .vsym s =>
          match dictGet mapping (MKey.strk s) with
          | some pv => ddSet dd v pv
          | none => dd
        | _ => dd
      dcSeedGo mapping rest mr2 len dd2
    | .pairk a b =>
        dcSeedGo mapping rest mr (dictUpd len (pairKey a b) (fun _ => v) v) dd
    | .strk _ => dcSeedGo mapping rest mr len dd

/-- The position list of `data_collecting` (tinycadlib.pyx:350-355):
`c[0]` for revolute joints, `c[1]` for sliders. -/
def buildPos (vps : List VPoint) : List Pt :=
  vps.map (fun vp => if vp.type = VJoint.R then vp.cA else vp.cB)

/-- The slider-slot virtual-coordinate loop (tinycadlib.pyx:357-371): for
every RP joint append the virtual point `c[1] + (cos θ, sin θ)` to the
position list and register the symbol `S{i}`. -/
noncomputable def dcSliders (all : List VPoint) :
    ℕ → List VPoint → List Pt → List (Val × ℕ) → List Pt × List (Val × ℕ)
  | _, [], pos, mr => (pos, mr)
  | i, vp :: rest, pos, mr =>
    if vp.type = VJoint.RP then
      let bf := base_friend i all
      let bfv := (all.get? bf).getD default
      let angle := radiansR (vp.angle - VPoint.slope_angle vp bfv 1 0 +
        VPoint.slope_angle vp bfv 0 0)
      let pos2 := pos ++ [(vp.cB.1 + Real.cos angle, vp.cB.2 + Real.sin angle)]
      dcSliders all (i + 1) rest pos2
        (mrSet mr (.vsym ("S" ++ toString i)) (pos2.length - 1))
    else dcSliders all (i + 1) rest pos mr

/-- Read `pos[n]` (`IndexError` when out of range). -/
def posGetE (pos : List Pt) (n : ℕ) : Except PErr Pt :=
  match pos.get? n with
  | some p => .ok p
  | none => .error .indexErr

/-- Read `mapping_r[s]` (`KeyError` when absent). -/
noncomputable def mrGetE (mr : List (Val × ℕ)) (s : String) : Except PErr ℕ :=
  match mrGet mr (.vsym s) with
  | some n => .ok n
  | none => .error .keyErr

/-- The per-link value: the specified length when the pair is in the length
dictionary, otherwise the distance computed from the current position list
(tinycadlib.pyx:391-395 and analogues). -/
noncomputable def lengthOr (len : List ((ℕ × ℕ) × Val)) (pos : List Pt)
    (a b : ℕ) : Except PErr Val :=
  match dictGet len (pairKey a b) with
  | some v => .ok v
  | none =>
    match posGetE pos a with
    | .error e => .error e
    | .ok pa =>
      match posGetE pos b with
      | .error e => .error e
      | .ok pb => .ok (.vnum (distPt pa pb))

/-- Seed a point symbol into the data dictionary when absent
(tinycadlib.pyx:382-383 and analogues). -/
noncomputable def seedPoint (dd : List (Val × Val)) (mr : List (Val × ℕ))
    (pos : List Pt) (s : String) : Except PErr (List (Val × Val)) :=
  if (ddGet dd (.vsym s)).isSome then .ok dd
  else
    match mrGetE mr s with
    | .error e => .error e
    | .ok n =>
      match posGetE pos n with
      | .error e => .error e
      | .ok p => .ok (ddSet dd (.vsym s) (.vpt p))

/-- The main data-collection loop of `data_collecting`
(tinycadlib.pyx:373-440): resolve the operands of every expression into the
data dictionary and count one consumed DOF per PLA/PLAP expression. -/
noncomputable def dcExprGo (mapping : List (MKey × Val))
    (mr : List (Val × ℕ)) (len : List ((ℕ × ℕ) × Val)) (pos : List Pt) :
    List Expr → List (Val × Val) → ℕ → Except PErr (List (Val × Val) × ℕ)
  | [], dd, dof => .ok (dd, dof)
  | e :: rest, dd, dof =>
    match mrGetE mr (symbol_str e.c1) with
    | .error er => .error er
    | .ok node =>
      match seedPoint dd mr pos (symbol_str e.c1) with
      | .error er => .error er
      | .ok dd =>
        match e.func with
        | .PLA =>
          match mrGetE mr (symbol_str e.c2) with
          | .error er => .error er
          | .ok target =>
            match lengthOr len pos node target with
            | .error er => .error er
            | .ok v1val =>
                dcExprGo mapping mr len pos rest
                  (ddSet dd (.vsym (symbol_str e.v1)) v1val) (dof + 1)
        | .PLAP =>
          match mrGetE mr (symbol_str e.c3) with
          | .error er => .error er
          | .ok target =>
            match lengthOr len pos node target with
            | .error er => .error er
            | .ok v1val =>
              match seedPoint (ddSet dd (.vsym (symbol_str e.v1)) v1val) mr pos
                  (symbol_str e.c2) with
              | .error er => .error er
              | .ok dd => dcExprGo mapping mr len pos rest dd (dof + 1)
        | .PLLP =>
          match mrGetE mr (symbol_str e.c3) with
          | .error er => .error er
          | .ok target =>
            match lengthOr len pos node target with
            | .error er => .error er
            | .ok v1val =>
              match mrGetE mr (symbol_str e.c2) with
              | .error er => .error er
              | .ok mc2 =>
                match lengthOr len pos mc2 target with
                | .error er => .error er
                | .ok v2val =>
                  match seedPoint
                      (ddSet (ddSet dd (.vsym (symbol_str e.v1)) v1val)
                        (.vsym (symbol_str e.v2)) v2val) mr pos
                      (symbol_str e.c2) with
                  | .error er => .error er
                  | .ok dd => dcExprGo mapping mr len pos rest dd dof
        | .PLPP =>
          match mrGetE mr (symbol_str e.c4) with
          | .error er => .error er
          | .ok target =>
            match lengthOr len pos node target with
            | .error er => .error er
            | .ok v1val =>
              match seedPoint (ddSet dd (.vsym (symbol_str e.v1)) v1val) mr pos
                  (symbol_str e.c2) with
              | .error er => .error er
              | .ok dd => dcExprGo mapping mr len pos rest dd dof
        | .PXY =>
          match mrGetE mr (symbol_str e.c2) with
          | .error er => .error er
          | .ok target =>
            match
              ((match dictGet mapping (MKey.strk (symbol_str e.v1)) with
               | some v => .ok v
               | none =>
                 match posGetE pos target with
                 | .error er => .error er
                 | .ok pt =>
                   match posGetE pos node with
                   | .error er => .error er
                   | .ok pn => .ok (Val.vnum (pt.1 - pn.1))) :
                Except PErr Val) with
            | .error er => .error er
            | .ok xval =>
              match
                ((match dictGet mapping (MKey.strk (symbol_str e.v2)) with
                 | some v => .ok v
                 | none =>
                   match posGetE pos target with
                   | .error er => .error er
                   | .ok pt =>
                     match posGetE pos node with
                     | .error er => .error er
                     | .ok pn => .ok (Val.vnum (pt.2 - pn.2))) :
                  Except PErr Val) with
              | .error er => .error er
              | .ok yval =>
                  dcExprGo mapping mr len pos rest
                    (ddSet (ddSet dd (.vsym (symbol_str e.v1)) xval)
                      (.vsym (symbol_str e.v2)) yval) dof

/-- The grounded-revolute seeding loop of `data_collecting`
(tinycadlib.pyx:442-445): `data_dict[mapping[i]] = vpoint.c[0]`. -/
noncomputable def dcGroundedGo (mapping : List (MKey × Val)) :
    ℕ → List VPoint → List (Val × Val) → Except PErr (List (Val × Val))
  | _, [], dd => .ok dd
  | i, vp :: rest, dd =>
    if vp.grounded = true ∧ vp.type = VJoint.R then
      match dictGet mapping (MKey.idx i) with
      | none => .error .keyErr
      | some mv => dcGroundedGo mapping (i + 1) rest (ddSet dd mv (.vpt vp.cA))
    else dcGroundedGo mapping (i + 1) rest dd

/-- `data_collecting` (tinycadlib.pyx:278-447). -/
noncomputable def data_collecting (exprs : List Expr)
    (mapping : List (MKey × Val)) (vpoints_ : List VPoint) :
    Except PErr (List (Val × Val) × ℕ) :=
  let vpoints := dcNormalize vpoints_
  let seeded := dcSeedGo mapping mapping [] [] []
  let pos0 := buildPos vpoints
  let slid := dcSliders vpoints 0 vpoints pos0 seeded.1
  match dcExprGo mapping slid.2 seeded.2.1 slid.1 exprs seeded.2.2 0 with
  | .error e => .error e
  | .ok (dd1, dof) =>
    match dcGroundedGo mapping 0 vpoints dd1 with
    | .error e => .error e
    | .ok dd2 => .ok (dd2, dof)

/-- Read a coordinate from the data dictionary (tinycadlib.pyx:179 and
analogues): missing key is a `KeyError`, a NaN pair reads as the failure
coordinate, a non-pair value is a `TypeError`. -/
noncomputable def ddGetPt (dd : List (Val × Val)) (s : String) :
    Except PErr (Option Pt) :=
  match ddGet dd (.vsym s) with
  | none => .error .keyErr
  | some (.vpt p) => .ok (some p)
  | some .vnanpt => .ok none
  | some _ => .error .typeErr

/-- Read a scalar from the data dictionary: missing key is a `KeyError`, a
non-scalar value is a `TypeError`. -/
noncomputable def ddGetNum (dd : List (Val × Val)) (s : String) :
    Except PErr ℝ :=
  match ddGet dd (.vsym s) with
  | none => .error .keyErr
  | some (.vnum r) => .ok r
  | some _ => .error .typeErr

/-- Store a computed coordinate as a dictionary value. -/
def ptVal : Option Pt → Val
  | some p => .vpt p
  | none => .vnanpt

/-- Evaluate one expression of the stack (the body of `expr_parse`'s
loop, tinycadlib.pyx:175-230): returns the target symbol and the computed
coordinate (`none` models the NaN pair, which also propagates from NaN
operands). -/
noncomputable def evalExpr (e : Expr) (dd : List (Val × Val)) :
    Except PErr (Sym × Option Pt) :=
  match e.func with
  | .PLA =>
    match ddGetPt dd (symbol_str e.c1) with
    | .error er => .error er
    | .ok c1pt =>
      match ddGetNum dd (symbol_str e.v1) with
      | .error er => .error er
      | .ok d0 =>
        match ddGetNum dd (symbol_str e.v2) with
        | .error er => .error er
        | .ok a0 =>
            .ok (e.c2, c1pt.map (fun c1 => plap c1 d0 a0 none false))
  | .PLAP =>
    match ddGetPt dd (symbol_str e.c1) with
    | .error er => .error er
    | .ok c1pt =>
      match ddGetPt dd (symbol_str e.c2) with
      | .error er => .error er
      | .ok c2pt =>
        match ddGetNum dd (symbol_str e.v1) with
        | .error er => .error er
        | .ok d0 =>
          match ddGetNum dd (symbol_str e.v2) with
          | .error er => .error er
          | .ok a0 =>
            match c1pt, c2pt with
            | some c1, some c2 => .ok (e.c3, some (plap c1 d0 a0 (some c2) e.op))
            | _, _ => .ok (e.c3, none)
  | .PLLP =>
    match ddGetPt dd (symbol_str e.c1) with
    | .error er => .error er
    | .ok c1pt =>
      match ddGetPt dd (symbol_str e.c2) with
      | .error er => .error er
      | .ok c2pt =>
        match ddGetNum dd (symbol_str e.v1) with
        | .error er => .error er
        | .ok d0 =>
          match ddGetNum dd (symbol_str e.v2) with
          | .error er => .error er
          | .ok d1 =>
            match c1pt, c2pt with
            | some c1, some c2 => .ok (e.c3, pllp c1 d0 d1 c2 e.op)
            | _, _ => .ok (e.c3, none)
  | .PLPP =>
    match ddGetPt dd (symbol_str e.c1) with
    | .error er => .error er
    | .ok c1pt =>
      match ddGetPt dd (symbol_str e.c2) with
      | .error er => .error er
      | .ok c2pt =>
        match ddGetPt dd (symbol_str e.c3) with
        | .error er => .error er
        | .ok c3pt =>
          match ddGetNum dd (symbol_str e.v1) with
          | .error er => .error er
          | .ok d0 =>
            match c1pt, c2pt, c3pt with
            | some c1, some c2, some c3 =>
                .ok (e.c4, plpp c1 d0 c2 c3 e.op)
            | _, _, _ => .ok (e.c4, none)
  | .PXY =>
    match ddGetPt dd (symbol_str e.c1) with
    | .error er => .error er
    | .ok c1pt =>
      match ddGetNum dd (symbol_str e.v1) with
      | .error er => .error er
      | .ok x =>
        match ddGetNum dd (symbol_str e.v2) with
        | .error er => .error er
        | .ok y => .ok (e.c2, c1pt.map (fun c1 => pxy c1 x y))

/-- `expr_parse` (tinycadlib.pyx:166-230): replay the expression stack in
order, writing each computed coordinate back into the data dictionary under
the target symbol. -/
noncomputable def expr_parse :
    List Expr → List (Val × Val) → Except PErr (List (Val × Val))
  | [], dd => .ok dd
  | e :: rest, dd =>
    match evalExpr e dd with
    | .error er => .error er
    | .ok (target, res) =>
        expr_parse rest (ddSet dd (.vsym (symbol_str target)) (ptVal res))

/-- Read `vpoints[n]` (`IndexError` when out of range). -/
def vpGetE (vps : List VPoint) (n : ℕ) : Except PErr VPoint :=
  match vps.get? n with
  | some vp => .ok vp
  | none => .error .indexErr

/-- The driver-legality check of `expr_solving` (tinycadlib.pyx:482-495):
for every PLA/PLAP expression, fail with "wrong driver definition." when
both the base and the target joints are grounded (`and` short-circuits, so
the target is only inspected when the base is grounded). -/
noncomputable def driverCheck (mr : List (Val × ℕ)) (vpoints : List VPoint) :
    List Expr → Except PErr Unit
  | [] => .ok ()
  | e :: rest =>
    match e.func with
    | .PLA =>
      match mrGetE mr (symbol_str e.c2) with
      | .error er => .error er
      | .ok target =>
        match mrGetE mr (symbol_str e.c1) with
        | .error er => .error er
        | .ok b =>
          match vpGetE vpoints b with
          | .error er => .error er
          | .ok vb =>
            if vb.grounded = false then driverCheck mr vpoints rest
            else
              match vpGetE vpoints target with
              | .error er => .error er
              | .ok vt =>
                if vt.grounded = true then .error .wrongDriver
                else driverCheck mr vpoints rest
    | .PLAP =>
      match mrGetE mr (symbol_str e.c3) with
      | .error er => .error er
      | .ok target =>
        match mrGetE mr (symbol_str e.c1) with
        | .error er => .error er
        | .ok b =>
          match vpGetE vpoints b with
          | .error er => .error er
          | .ok vb =>
            if vb.grounded = false then driverCheck mr vpoints rest
            else
              match vpGetE vpoints target with
              | .error er => .error er
              | .ok vt =>
                if vt.grounded = true then .error .wrongDriver
                else driverCheck mr vpoints rest
    | _ => driverCheck mr vpoints rest

/-- The angle-injection loop of `expr_solving` (tinycadlib.pyx:497-501):
`data_dict[f'a{i}'] = radians(a)`. -/
noncomputable def anglesInject :
    List ℝ → ℕ → List (Val × Val) → List (Val × Val)
  | [], _, dd => dd
  | a :: rest, i, dd =>
      anglesInject rest (i + 1)
        (ddSet dd (.vsym ("a" ++ toString i)) (.vnum (radiansR a)))

/-- The reverse mapping of `expr_solving` (tinycadlib.pyx:479-480):
`{v: k for k, v in mapping.items() if type(k) == int}`. -/
noncomputable def mappingR2 (mapping : List (MKey × Val)) : List (Val × ℕ) :=
  mapping.foldl
    (fun mr kv =>
      match kv.1 with
      | .idx n => mrSet mr kv.2 n
      | _ => mr) []

/-- The data-dictionary stages of `expr_solving` (tinycadlib.pyx:463-505):
data collection, input-count validation, driver validation, angle
injection and closed-form evaluation. -/
noncomputable def exprSolveDict (exprs : List Expr)
    (mapping : List (MKey × Val)) (vpoints : List VPoint) (angles : List ℝ) :
    Except PErr (List (Val × Val)) :=
  match data_collecting exprs mapping vpoints with
  | .error e => .error e
  | .ok (dd, dof_input) =>
    if (dof_input : ℤ) > vpoint_dof vpoints then
      .error (.wrongInput (dof_input : ℤ) (vpoint_dof vpoints))
    else
      match driverCheck (mappingR2 mapping) vpoints exprs with
      | .error e => .error e
      | .ok _ =>
        match exprs with
        | [] => .ok (anglesInject angles 0 dd)
        | _ => expr_parse exprs (anglesInject angles 0 dd)

/-- One output entry of `expr_solving`: a single coordinate for a revolute
joint, a pair of coordinates for a slider joint. -/
inductive OutEntry : Type
  | single (p : Pt)
  | double (a b : Pt)

/-- The known-point collection loop of `expr_solving`
(tinycadlib.pyx:507-516): build `p_data_dict` from the joints whose symbol
is in the data dictionary and record whether any joint is unsolved. -/
noncomputable def collectPdd (mapping : List (MKey × Val))
    (dd : List (Val × Val)) :
    ℕ → List VPoint → List (MKey × Val) → Bool →
      Except PErr (List (MKey × Val) × Bool)
  | _, [], pdd, hns => .ok (pdd, hns)
  | i, _ :: rest, pdd, hns =>
    match dictGet mapping (MKey.idx i) with
    | none => .error .keyErr
    | some mv =>
      match ddGet dd mv with
      | some dv =>
          collectPdd mapping dd (i + 1) rest
            (dictUpd pdd (MKey.idx i) (fun _ => dv) dv) hns
      | none => collectPdd mapping dd (i + 1) rest pdd true

/-- The fallback-solver stage of `expr_solving` (tinycadlib.pyx:518-531):
when some joint is unsolved, append the specified link lengths to
`p_data_dict` and call the external solver (a `ValueError` from it becomes
"result contains failure from sketch solve"); otherwise `solved_bfgs`
stays `None`. -/
noncomputable def sbStage
    (bfgs : List VPoint → List (MKey × Val) → Except Unit (List OutEntry))
    (vpoints : List VPoint) (mapping : List (MKey × Val))
    (pdd : List (MKey × Val)) (hns : Bool) :
    Except PErr (Option (List OutEntry)) :=
  if hns then
    match bfgs vpoints
        (mapping.foldl
          (fun d kv =>
            match kv.1 with
            | .pairk _ _ => dictUpd d kv.1 (fun _ => kv.2) kv.2
            | _ => d) pdd) with
    | .ok bl => .ok (some bl)
    | .error _ => .error .sketchFail
  else .ok none

/-- One entry of the final assembly loop of `expr_solving`
(tinycadlib.pyx:536-560): a closed-form result whose x-component is NaN
raises "result contains failure: Point{i}"; otherwise the closed-form
result, else the fallback-solver result, else the joint's original
position. -/
noncomputable def finalEntry (dd : List (Val × Val))
    (mapping : List (MKey × Val)) (vp : VPoint) (i : ℕ)
    (sb : Option (List OutEntry)) : Except PErr OutEntry :=
  match dictGet mapping (MKey.idx i) with
  | none => .error .keyErr
  | some mv =>
    match ddGet dd mv with
    | some dv =>
      match dv with
      | .vnanpt => .error (.pointNaN i)
      | .vpt p =>
          .ok (if vp.type = VJoint.R then .single p else .double vp.cA p)
      | _ => .error .typeErr
    | none =>
      match sb with
      | some bl =>
        match bl.get? i with
        | some entry => .ok entry
        | none => .error .indexErr
      | none =>
          .ok (if vp.type = VJoint.R then .single vp.cA
               else .double vp.cA vp.cB)

/-- The final assembly loop of `expr_solving` (tinycadlib.pyx:536-560). -/
noncomputable def finalLoop (dd : List (Val × Val))
    (mapping : List (MKey × Val)) (sb : Option (List OutEntry)) :
    ℕ → List VPoint → Except PErr (List OutEntry)
  | _, [] => .ok []
  | i, vp :: rest =>
    match finalEntry dd mapping vp i sb with
    | .error e => .error e
    | .ok entry =>
      match finalLoop dd mapping sb (i + 1) rest with
      | .error e => .error e
      | .ok l => .ok (entry :: l)

/-- `expr_solving` (tinycadlib.pyx:450-560), with the external numeric
solver `vpoint_solving` passed as an oracle (it is an out-of-scope
collaborator, spec §6). -/
noncomputable def expr_solving
    (bfgs : List VPoint → List (MKey × Val) → Except Unit (List OutEntry))
    (exprs : List Expr) (mapping : List (MKey × Val))
    (vpoints : List VPoint) (angles : List ℝ) :
    Except PErr (List OutEntry) :=
  match exprSolveDict exprs mapping vpoints angles with
  | .error e => .error e
  | .ok dd =>
    match collectPdd mapping dd 0 vpoints [] false with
    | .error e => .error e
    | .ok (pdd, hns) =>
      match sbStage bfgs vpoints mapping pdd hns with
      | .error e => .error e
      | .ok sb => finalLoop dd mapping sb 0 vpoints

/-- The joint with index `i` resolved to the NaN failure pair in the data
dictionary. -/
noncomputable def nanAt (dd : List (Val × Val)) (mapping : List (MKey × Val))
    (i : ℕ) : Prop :=
  ∃ v, dictGet mapping (MKey.idx i) = some v ∧ ddGet dd v = some Val.vnanpt

/-- Count of PLA/PLAP expressions of a stack (the consumed-DOF count of the
spec). -/
def countInput (exprs : List Expr) : ℕ :=
  (exprs.filter (fun e => e.func = ExprFunc.PLA ∨ e.func = ExprFunc.PLAP)).length

/-- A concrete grounded revolute joint for evaluation. -/
def vpC1 : VPoint :=
  { links := ["ground", "L1"]
    type := VJoint.R
    angle := 0
    cA := (0, 0)
    cB := (0, 0)
    pin_grounded := false
    has_offset := false }

/-! ## Graph cycle basis and outer loop (graph_layout.pyx:94-163)

The `Graph` collaborator comes from the `graph` module, which is not part
of this source tree; it is modelled from the spec as a node list plus an
adjacency map.  Python's arbitrary `set` iteration order (`g_nodes.pop()`)
is modelled as insertion order, and the fuel of each worklist loop covers
one step per node (every pop of the spanning-tree walk consumes a node
freshly added to `used`). -/

/-- Modelled from the spec: a graph is its node list and its adjacency
dict `graph.adj` (node → neighbour list). -/
structure LGraph : Type where
  nodes : List ℕ
  adj : ℕ → List ℕ

/-- The mutable state of `cycle_basis`'s spanning-tree walk
(graph_layout.pyx:128-156). -/
structure CBState : Type where
  stack : List ℕ
  pred : List (ℕ × ℕ)
  used : List (ℕ × List ℕ)
  cycles : List (List ℕ)

/-- The cycle-reconstruction walk of `cycle_basis`
(graph_layout.pyx:148-153): `while p not in pn: cycle.add(p); p = pred[p]`
followed by the final `cycle.add(p)`. -/
def predWalk (pred : List (ℕ × ℕ)) (pn : List ℕ) :
    ℕ → ℕ → List ℕ → List ℕ
  | 0, _, cycle => cycle
  | fuel + 1, p, cycle =>
    if p ∈ pn then osAdd cycle p
    else predWalk pred pn fuel ((dictGet pred p).getD p) (osAdd cycle p)

/-- One neighbour visit of the spanning-tree walk
(graph_layout.pyx:141-156): discover a new node, record a self loop, or
close a cycle; `zused` is the set captured as `used[z]` before the loop
(never mutated while `z`'s neighbours are scanned). -/
def visitNbr (pf : ℕ) (z : ℕ) (zused : List ℕ) (st : CBState) (nbr : ℕ) :
    CBState :=
  match dictGet st.used nbr with
  | none =>
      { st with
        pred := dictUpd st.pred nbr (fun _ => z) z
        stack := nbr :: st.stack
        used := dictUpd st.used nbr (fun _ => [z]) [z] }
  | some pn =>
      if nbr = z then { st with cycles := st.cycles ++ [[z]] }
      else if nbr ∈ zused then st
      else
        { st with
          cycles := st.cycles ++
            [predWalk st.pred pn pf ((dictGet st.pred z).getD z)
              (osFromIterable [nbr, z])]
          used := dictUpd st.used nbr (fun s => osAdd s z) [z] }

/-- Scan the adjacency list of the popped node `z`
(graph_layout.pyx:139-156). -/
def dfsStep (g : LGraph) (pf : ℕ) (z : ℕ) (st : CBState) : CBState :=
  (g.adj z).foldl (visitNbr pf z ((dictGet st.used z).getD [])) st

/-- The spanning-tree worklist of `cycle_basis`
(graph_layout.pyx:135-156). -/
def dfsRun (g : LGraph) (pf : ℕ) : ℕ → CBState → CBState
  | 0, st => st
  | fuel + 1, st =>
    match st.stack with
    | [] => st
    | z :: rest => dfsRun g pf fuel (dfsStep g pf z { st with stack := rest })

/-- The connected-component loop of `cycle_basis`
(graph_layout.pyx:125-162): pop a root, walk its spanning tree, then drop
every reached node from `g_nodes`. -/
def cbOuter (g : LGraph) (pf df : ℕ) :
    ℕ → List ℕ → List (List ℕ) → List (List ℕ)
  | 0, _, cycles => cycles
  | fuel + 1, gnodes, cycles =>
    match gnodes with
    | [] => cycles
    | root :: rest =>
      let st := dfsRun g pf df
        { stack := [root]
          pred := [(root, root)]
          used := [(root, [])]
          cycles := cycles }
      cbOuter g pf df fuel
        (rest.filter (fun x => (dictGet st.pred x).isNone)) st.cycles

/-- `cycle_basis` (graph_layout.pyx:118-163). -/
def cycle_basis (g : LGraph) : List (List ℕ) :=
  cbOuter g (g.nodes.length + 1) (g.nodes.length + 1) (g.nodes.length + 1)
    (osFromIterable g.nodes) []

/-- `_isorderedsubset` (graph_layout.pyx:195-201): not longer, and equal
elementwise under `zip` (a prefix test). -/
def isorderedsubset (s1 s2 : List ℕ) : Bool :=
  if s1.length ≤ s2.length then
    (List.zip s1 s2).all (fun pq => pq.1 == pq.2)
  else false

/-- The merge-partner scan of `outer_loop` (graph_layout.pyx:99-109): the
first cycle sharing at least two nodes with `c1`, together with the list
left after `cycles.remove(c2)`. -/
def findC2 (c1 : List ℕ) : List (List ℕ) → Option (List ℕ × List (List ℕ))
  | [] => none
  | c2 :: rest =>
    if 2 ≤ (osInter c1 c2).length then some (c2, rest)
    else
      match findC2 c1 rest with
      | some (c, l) => some (c, c2 :: l)
      | none => none

/-- The merge loop of `outer_loop` (graph_layout.pyx:97-113): pop the last
cycle, find a partner sharing an edge, align directions, and merge with
`|`; no partner raises `ValueError("Invalid graph")`. -/
def olGo : ℕ → List (List ℕ) → Except String (List ℕ)
  | 0, _ => .error "fuel exhausted"
  | fuel + 1, cycles =>
    if cycles.length ≤ 1 then
      match cycles.getLast? with
      | some c => .ok c
      | none => .error "pop from empty list"
    else
      match cycles.getLast? with
      | none => .error "pop from empty list"
      | some c1 =>
        match findC2 c1 cycles.dropLast with
        | none => .error "Invalid graph"
        | some (c2, rest) =>
          olGo fuel (rest ++
            [osUnion c1
              (if isorderedsubset (osInter c1 c2) c1 =
                  isorderedsubset (osInter c1 c2) c2
                then c2.reverse else c2)])

/-- `outer_loop` (graph_layout.pyx:94-115); each merge shrinks the cycle
list by one. -/
def outer_loop (g : LGraph) : Except String (List ℕ) :=
  olGo ((cycle_basis g).length + 1) (cycle_basis g)

/-- The simple polygon (cycle) graph on `n` nodes, successor neighbour
first. -/
def polygonG (n : ℕ) : LGraph :=
  { nodes := List.range n
    adj := fun i => [(i + 1) % n, (i + n - 1) % n] }

/-- Two triangles (0,1,2) and (1,2,3) sharing exactly the edge 1-2. -/
def twoTriG : LGraph :=
  { nodes := [0, 1, 2, 3]
    adj := fun i =>
      if i = 0 then [1, 2]
      else if i = 1 then [0, 2, 3]
      else if i = 2 then [0, 1, 3]
      else if i = 3 then [1, 2]
      else [] }

/-- The spanning-tree parent chain built by the descending polygon walk:
entries `(j, j+1)` for `j` from `k+m-1` down to `k`. -/
def descPairs (k : ℕ) : ℕ → List (ℕ × ℕ)
  | 0 => []
  | m + 1 => descPairs (k + 1) m ++ [(k, k + 1)]

/-- The corresponding `used` entries: `used[j] = {j+1}`. -/
def descUsed (k : ℕ) : ℕ → List (ℕ × List ℕ)
  | 0 => []
  | m + 1 => descUsed (k + 1) m ++ [(k, [k + 1])]

/-- The parent map of the polygon walk just before node `k` is popped. -/
def polyPred (n k : ℕ) : List (ℕ × ℕ) :=
  [(0, 0), (1, 0), (n - 1, 0)] ++ descPairs k (n - 1 - k)

/-- The `used` map of the polygon walk just before node `k` is popped. -/
def polyUsed (n k : ℕ) : List (ℕ × List ℕ) :=
  [(0, []), (1, [0]), (n - 1, [0])] ++ descUsed k (n - 1 - k)

/-- The walk state of `cycle_basis` on the `n`-polygon just before node
`k` is popped (`k` from `n-1` down to `2`): the walk went `0`, `n-1`,
`n-2`, …, `k+1`, discovering each predecessor. -/
def phaseSt (n k : ℕ) : CBState :=
  { stack := [k, 1]
    pred := polyPred n k
    used := polyUsed n k
    cycles := [] }

/-- The same state with `k` popped off the stack. -/
def phasePop (n k : ℕ) : CBState :=
  { stack := [1]
    pred := polyPred n k
    used := polyUsed n k
    cycles := [] }

/-- The walk state created for root `0` (graph_layout.pyx:131-134). -/
def initSt : CBState :=
  { stack := [0], pred := [(0, 0)], used := [(0, [])], cycles := [] }

/-- The same state with the root popped. -/
def initPop : CBState :=
  { stack := [], pred := [(0, 0)], used := [(0, [])], cycles := [] }

/-- The walk state after the cycle of the polygon is recorded (node 2
processed). -/
def cycSt (n : ℕ) : CBState :=
  { stack := [1]
    pred := polyPred n 2
    used := [(0, []), (1, [0, 2]), (n - 1, [0])] ++ descUsed 2 (n - 1 - 2)
    cycles := [List.range' 1 (n - 1) ++ [0]] }

/-! ### Input-count validation (C3) -/

/-- Errors other than the input-count `ValueError`. -/
def nonInputErr : PErr → Bool
  | .wrongInput _ _ => false
  | _ => true

/-- A floating prismatic joint on two non-ground links (its two link
memberships make it contribute one mobile joint constraint each). -/
def vpC3 : VPoint :=
  { links := ["L1", "L2"]
    type := VJoint.P
    angle := 0
    cA := (0, 0)
    cB := (0, 0)
    pin_grounded := false
    has_offset := false }

/-- Four coincident prismatic joints on the same two links: an
over-constrained mechanism with negative Gruebler DOF. -/
def vpsC3 : List VPoint := [vpC3, vpC3, vpC3, vpC3]

/-! ## Theorems -/

lemma vpoint_dof_go_spec (vps : List VPoint) :
    ∀ (S : Finset String) (j1 j2 : ℤ),
      vpoint_dof_go vps S j1 j2 =
        3 * (((S ∪ ((dofJoints vps).map linkSetOf).foldr (· ∪ ·) ∅).card : ℤ) - 1)
          - 2 * (j1 + ((dofJoints vps).map claimJ1).sum)
          - (j2 + ((dofJoints vps).map claimJ2).sum) := by
  induction vps with
  | nil =>
      intro S j1 j2
      simp [vpoint_dof_go, dofJoints]
  | cons v rest ih =>
      intro S j1 j2
      by_cases hlen : v.links.length ≤ 1
      · have hfilter : dofJoints (v :: rest) = dofJoints rest := by
          simp [dofJoints, List.filter_cons]
          omega
        rw [show vpoint_dof_go (v :: rest) S j1 j2 = vpoint_dof_go rest S j1 j2 by
          simp [vpoint_dof_go, hlen]]
        rw [ih S j1 j2, hfilter]
      · have hfilter : dofJoints (v :: rest) = v :: dofJoints rest := by
          simp [dofJoints, List.filter_cons]
          omega
        have hstep : vpoint_dof_go (v :: rest) S j1 j2 =
            match v.type with
            | VJoint.R =>
                vpoint_dof_go rest (S ∪ linkSetOf v)
                  (j1 + ((v.links.length : ℤ) - 1)) j2
            | VJoint.P =>
                vpoint_dof_go rest (S ∪ linkSetOf v)
                  (j1 + (if 2 < v.links.length then (v.links.length : ℤ) - 2 else 0) + 1) j2
            | VJoint.RP =>
                vpoint_dof_go rest (S ∪ linkSetOf v)
                  (j1 + (if 2 < v.links.length then (v.links.length : ℤ) - 2 else 0))
                  (j2 + 1) := by
          simp [vpoint_dof_go, hlen]
        rw [hstep, hfilter]
        cases htype : v.type
        · rw [ih (S ∪ linkSetOf v) (j1 + ((v.links.length : ℤ) - 1)) j2]
          simp [claimJ1, claimJ2, htype, Finset.union_assoc]
          ring
        · rw [ih (S ∪ linkSetOf v)
            (j1 + (if 2 < v.links.length then (v.links.length : ℤ) - 2 else 0) + 1) j2]
          simp [claimJ1, claimJ2, htype, Finset.union_assoc]
          ring
        · rw [ih (S ∪ linkSetOf v)
            (j1 + (if 2 < v.links.length then (v.links.length : ℤ) - 2 else 0)) (j2 + 1)]
          simp [claimJ1, claimJ2, htype, Finset.union_assoc]
          ring

lemma distPt_sq (a b : Pt) :
    distPt a b ^ 2 = (b.1 - a.1) ^ 2 + (b.2 - a.2) ^ 2 :=
  Real.sq_sqrt (by positivity)

lemma distPt_nonneg (a b : Pt) : 0 ≤ distPt a b := Real.sqrt_nonneg _

lemma circle_point_dist (a b : Pt) (r : ℝ) (hr : 0 ≤ r)
    (h : (b.1 - a.1) ^ 2 + (b.2 - a.2) ^ 2 = r ^ 2) : distPt a b = r := by
  rw [distPt, h, Real.sqrt_sq hr]

lemma pllp_core (dx dy d a h d0 d1 s : ℝ) (hdne : d ≠ 0) (hs : s ^ 2 = 1)
    (hsum : dx ^ 2 + dy ^ 2 = d ^ 2)
    (hhsq : h ^ 2 = d0 * d0 - a * a)
    (ha2 : a * (2 * d) = d0 * d0 - d1 * d1 + d * d) :
    (a * dx / d + s * (h * dy / d)) ^ 2 + (a * dy / d - s * (h * dx / d)) ^ 2
        = d0 ^ 2 ∧
    (a * dx / d + s * (h * dy / d) - dx) ^ 2
        + (a * dy / d - s * (h * dx / d) - dy) ^ 2 = d1 ^ 2 := by
  have hd2 : d ^ 2 / d ^ 2 = (1 : ℝ) := div_self (pow_ne_zero 2 hdne)
  have hd1' : d ^ 2 / d = d := by
    rw [sq, mul_div_assoc, div_self hdne, mul_one]
  constructor
  · have expand1 : (a * dx / d + s * (h * dy / d)) ^ 2
        + (a * dy / d - s * (h * dx / d)) ^ 2
        = (a ^ 2 + s ^ 2 * h ^ 2) * ((dx ^ 2 + dy ^ 2) / d ^ 2) := by
      ring
    rw [expand1, hs, hsum, hd2, mul_one]
    linear_combination hhsq
  · have expand2 : (a * dx / d + s * (h * dy / d) - dx) ^ 2
        + (a * dy / d - s * (h * dx / d) - dy) ^ 2
        = (a ^ 2 + s ^ 2 * h ^ 2) * ((dx ^ 2 + dy ^ 2) / d ^ 2)
          - 2 * a * ((dx ^ 2 + dy ^ 2) / d) + (dx ^ 2 + dy ^ 2) := by
      ring
    rw [expand2, hs, hsum, hd2, hd1', mul_one]
    linear_combination hhsq - ha2

lemma pllpPoint_dist (c1 : Pt) (d0 d1 : ℝ) (c2 : Pt) (inv : Bool)
    (h1 : ¬ distPt c1 c2 > d0 + d1)
    (h2 : ¬ distPt c1 c2 < |d0 - d1|)
    (h3 : ¬ (distPt c1 c2 = 0 ∧ d0 = d1)) :
    distPt c1 (pllpPoint c1 d0 d1 c2 inv) = d0 ∧
    distPt c2 (pllpPoint c1 d0 d1 c2 inv) = d1 := by
  have hle : distPt c1 c2 ≤ d0 + d1 := not_lt.mp h1
  have habs : |d0 - d1| ≤ distPt c1 c2 := not_lt.mp h2
  obtain ⟨habs1, habs2⟩ := abs_sub_le_iff.mp habs
  have hd0 : 0 ≤ d0 := by linarith
  have hd1 : 0 ≤ d1 := by linarith
  have hdnn : 0 ≤ distPt c1 c2 := distPt_nonneg _ _
  have hdne : distPt c1 c2 ≠ 0 := by
    intro h0
    refine h3 ⟨h0, ?_⟩
    have hz : |d0 - d1| = 0 :=
      le_antisymm (h0 ▸ habs) (abs_nonneg _)
    have := abs_eq_zero.mp hz
    linarith
  have hdpos : 0 < distPt c1 c2 := lt_of_le_of_ne hdnn (Ne.symm hdne)
  have hsum : (c2.1 - c1.1) ^ 2 + (c2.2 - c1.2) ^ 2 = distPt c1 c2 ^ 2 :=
    (distPt_sq c1 c2).symm
  have ha2 : pllpA c1 d0 d1 c2 * (2 * distPt c1 c2)
      = d0 * d0 - d1 * d1 + distPt c1 c2 * distPt c1 c2 := by
    rw [pllpA]
    field_simp
  have hkey : 0 ≤ d0 * d0 - pllpA c1 d0 d1 c2 * pllpA c1 d0 d1 c2 := by
    have hexp : (2 * distPt c1 c2) ^ 2
          * (d0 * d0 - pllpA c1 d0 d1 c2 * pllpA c1 d0 d1 c2) =
        ((d0 + d1) ^ 2 - distPt c1 c2 ^ 2)
          * (distPt c1 c2 ^ 2 - (d0 - d1) ^ 2) := by
      have hrearr : (2 * distPt c1 c2) ^ 2
            * (d0 * d0 - pllpA c1 d0 d1 c2 * pllpA c1 d0 d1 c2) =
          (2 * distPt c1 c2) ^ 2 * (d0 * d0)
            - (pllpA c1 d0 d1 c2 * (2 * distPt c1 c2))
              * (pllpA c1 d0 d1 c2 * (2 * distPt c1 c2)) := by
        ring
      rw [hrearr, ha2]
      ring
    have f1 : 0 ≤ (d0 + d1) ^ 2 - distPt c1 c2 ^ 2 := by nlinarith
    have f2 : 0 ≤ distPt c1 c2 ^ 2 - (d0 - d1) ^ 2 := by nlinarith
    have hprod : 0 ≤ (2 * distPt c1 c2) ^ 2
        * (d0 * d0 - pllpA c1 d0 d1 c2 * pllpA c1 d0 d1 c2) :=
      hexp ▸ mul_nonneg f1 f2
    by_contra hneg
    push_neg at hneg
    have hlt : (2 * distPt c1 c2) ^ 2
        * (d0 * d0 - pllpA c1 d0 d1 c2 * pllpA c1 d0 d1 c2) < 0 :=
      mul_neg_of_pos_of_neg (by positivity) hneg
    linarith
  have hhsq : pllpH c1 d0 d1 c2 ^ 2
      = d0 * d0 - pllpA c1 d0 d1 c2 * pllpA c1 d0 d1 c2 := by
    rw [pllpH]
    exact Real.sq_sqrt hkey
  rcases Bool.dichotomy inv with hb | hb <;> subst hb <;>
    simp only [pllpPoint, ite_true, ite_false, Bool.false_eq_true] <;>
    refine ⟨circle_point_dist _ _ _ hd0 ?_, circle_point_dist _ _ _ hd1 ?_⟩
  · linear_combination (pllp_core (c2.1 - c1.1) (c2.2 - c1.2) (distPt c1 c2)
      (pllpA c1 d0 d1 c2) (pllpH c1 d0 d1 c2) d0 d1 (-1) hdne (by norm_num)
      hsum hhsq ha2).1
  · linear_combination (pllp_core (c2.1 - c1.1) (c2.2 - c1.2) (distPt c1 c2)
      (pllpA c1 d0 d1 c2) (pllpH c1 d0 d1 c2) d0 d1 (-1) hdne (by norm_num)
      hsum hhsq ha2).2
  · linear_combination (pllp_core (c2.1 - c1.1) (c2.2 - c1.2) (distPt c1 c2)
      (pllpA c1 d0 d1 c2) (pllpH c1 d0 d1 c2) d0 d1 1 hdne (by norm_num)
      hsum hhsq ha2).1
  · linear_combination (pllp_core (c2.1 - c1.1) (c2.2 - c1.2) (distPt c1 c2)
      (pllpA c1 d0 d1 c2) (pllpH c1 d0 d1 c2) d0 d1 1 hdne (by norm_num)
      hsum hhsq ha2).2

/-- **C2.** For all centers `c1`, `c2` and radii `d0`, `d1`, `pllp` returns
the failure value (the NaN pair) exactly when the circles are separate
(`d > d0 + d1`), nested (`d < |d0 − d1|`), or coincident with equal radii
(`d = 0` and `d0 = d1`); in every other case it returns one of the two
intersection points (selected by `inverse`), and the returned point lies at
distance `d0` from `c1` and `d1` from `c2`. -/
theorem pllp_characterization (c1 : Pt) (d0 d1 : ℝ) (c2 : Pt) (inv : Bool) :
    (pllp c1 d0 d1 c2 inv = none ↔
      (d0 + d1 < distPt c1 c2 ∨ distPt c1 c2 < |d0 - d1| ∨
        (distPt c1 c2 = 0 ∧ d0 = d1))) ∧
    (∀ p : Pt, pllp c1 d0 d1 c2 inv = some p →
      distPt c1 p = d0 ∧ distPt c2 p = d1) := by
  constructor
  · rw [pllp]
    split_ifs with h1 h2 h3
    · exact iff_of_true rfl (Or.inl h1)
    · exact iff_of_true rfl (Or.inr (Or.inl h2))
    · exact iff_of_true rfl (Or.inr (Or.inr h3))
    · exact iff_of_false (by simp)
        (fun hc => hc.elim h1 (fun hc => hc.elim h2 h3))
  · intro p hp
    rw [pllp] at hp
    split_ifs at hp with h1 h2 h3
    have hp' : pllpPoint c1 d0 d1 c2 inv = p := Option.some.inj hp
    rw [← hp']
    exact pllpPoint_dist c1 d0 d1 c2 inv h1 h2 h3

lemma pllp_concrete_eval :
    pllp (0, 0) 5 5 (6, 0) false = some (3, 4) := by
  have hd : distPt ((0 : ℝ), (0 : ℝ)) (6, 0) = 6 := by
    apply circle_point_dist _ _ _ (by norm_num)
    norm_num
  have hA : pllpA (0, 0) 5 5 (6, 0) = 3 := by
    rw [pllpA, hd]
    norm_num
  have hH : pllpH (0, 0) 5 5 (6, 0) = 4 := by
    rw [pllpH, hA, show (5 : ℝ) * 5 - 3 * 3 = 4 ^ 2 by norm_num,
      Real.sqrt_sq (by norm_num)]
  rw [pllp, hd]
  rw [if_neg (by norm_num), if_neg (by norm_num), if_neg (by norm_num)]
  rw [pllpPoint]
  rw [if_neg (by simp), hA, hH, hd]
  norm_num

/-- Witness for C2 at a concrete input: the circles of radius 5 around
`(0,0)` and `(6,0)` meet at `(3,4)`, which lies at distance 5 from both
centers. -/
theorem pllp_characterization_witness :
    distPt (0, 0) ((3 : ℝ), (4 : ℝ)) = 5 ∧ distPt (6, 0) ((3 : ℝ), (4 : ℝ)) = 5 :=
  (pllp_characterization (0, 0) 5 5 (6, 0) false).2 (3, 4) pllp_concrete_eval

lemma foldl_osAdd_nodup {α : Type} [DecidableEq α] (B : List α) :
    ∀ acc : List α, B.Nodup →
      B.foldl osAdd acc = acc ++ B.filter (fun b => b ∉ acc) := by
  induction B with
  | nil => intro acc _; simp
  | cons b B ih =>
      intro acc hnd
      rw [List.nodup_cons] at hnd
      obtain ⟨hb, hnd⟩ := hnd
      by_cases hmem : b ∈ acc
      · rw [List.foldl_cons, show osAdd acc b = acc by simp [osAdd, hmem],
          ih acc hnd]
        simp [List.filter_cons, hmem]
      · rw [List.foldl_cons, show osAdd acc b = acc ++ [b] by simp [osAdd, hmem],
          ih (acc ++ [b]) hnd]
        have hfe : B.filter (fun x => x ∉ acc ++ [b]) =
            B.filter (fun x => x ∉ acc) := by
          apply List.filter_congr
          intro x hx
          have hxb : x ≠ b := fun h => hb (h ▸ hx)
          simp [hxb]
        rw [hfe]
        simp [List.filter_cons, hmem]

lemma osFromIterable_of_nodup {α : Type} [DecidableEq α] (A : List α)
    (hA : A.Nodup) : osFromIterable A = A := by
  rw [osFromIterable, foldl_osAdd_nodup A [] hA]
  simp

/-- **C9.** For all ordered sets `A` and `B` (duplicate-free lists), `A | B`
enumerates `A`'s elements in `A`'s insertion order followed by the elements
of `B` not in `A` in `B`'s insertion order, and `A - B` enumerates exactly
the elements of `A` not in `B`, in `A`'s insertion order. -/
theorem osUnion_osSub_order {α : Type} [DecidableEq α] (A B : List α)
    (hA : A.Nodup) (hB : B.Nodup) :
    osUnion A B = A ++ B.filter (fun b => b ∉ A) ∧
    osSub A B = A.filter (fun a => a ∉ B) := by
  constructor
  · rw [osUnion, osFromIterable, List.foldl_append,
      show A.foldl osAdd [] = A from by
        have := osFromIterable_of_nodup A hA
        rwa [osFromIterable] at this,
      foldl_osAdd_nodup B A hB]
  · rw [osSub, osFromIterable_of_nodup _ (hA.filter _)]

/-- Witness for C9 at a concrete input. -/
theorem osUnion_osSub_order_witness :
    osUnion [1, 2, 3] [2, 4] = [1, 2, 3, 4] ∧
    osSub [1, 2, 3] [2, 4] = [1, 3] := by
  obtain ⟨h1, h2⟩ := osUnion_osSub_order [1, 2, 3] [2, 4]
    (by decide) (by decide)
  exact ⟨h1.trans (by decide), h2.trans (by decide)⟩

lemma innerRes_idem (base : ℕ) (pv : VPoint) (m : ℕ) (rv : VPoint) :
    innerRes base pv m (innerRes base pv m rv) = innerRes base pv m rv := by
  by_cases h : m = base ∨ rv.type ≠ VJoint.R
  · have h1 : innerRes base pv m rv = rv := by rw [innerRes, if_pos h]
    rw [h1]
    exact h1
  · have h1 : innerRes base pv m rv = replSlider pv rv := by
      rw [innerRes, if_neg h]
    rw [h1, innerRes,
      if_pos (Or.inr (by simp [replSlider, VPoint.c_slider_joint]))]

lemma tcInnerNode_get?_ne (base : ℕ) (pv : VPoint) (cur : List VPoint)
    (n m : ℕ) (h : n ≠ m) :
    (tcInnerNode base pv cur n).get? m = cur.get? m := by
  cases hg : cur.get? n with
  | none => simp only [tcInnerNode, hg]
  | some rv =>
      simp only [tcInnerNode, hg]
      split_ifs with hc
      · rfl
      · exact List.get?_set_ne _ _ h

lemma tcInnerNode_get?_self (base : ℕ) (pv : VPoint) (cur : List VPoint)
    (n : ℕ) :
    (tcInnerNode base pv cur n).get? n = (cur.get? n).map (innerRes base pv n) := by
  cases hg : cur.get? n with
  | none => simp only [tcInnerNode, hg, Option.map_none']
  | some rv =>
      have hlt : n < cur.length := by
        have := List.get?_eq_some.mp hg
        exact this.1
      simp only [tcInnerNode, hg, Option.map_some']
      split_ifs with hc
      · rw [hg, innerRes, if_pos hc]
      · rw [List.get?_set_eq_of_lt _ hlt, innerRes, if_neg hc]

lemma foldl_tcInnerNode_get? (base : ℕ) (pv : VPoint) :
    ∀ (l : List ℕ) (cur : List VPoint) (m : ℕ),
      (l.foldl (tcInnerNode base pv) cur).get? m =
        if m ∈ l then (cur.get? m).map (innerRes base pv m) else cur.get? m := by
  intro l
  induction l with
  | nil => intro cur m; simp
  | cons n l ih =>
      intro cur m
      rw [List.foldl_cons, ih]
      by_cases hmn : m = n
      · subst hmn
        rw [tcInnerNode_get?_self]
        by_cases hml : m ∈ l
        · rw [if_pos hml, if_pos (List.mem_cons_self m l)]
          cases cur.get? m with
          | none => rfl
          | some rv => simp [innerRes_idem]
        · rw [if_neg hml, if_pos (List.mem_cons_self m l)]
      · rw [tcInnerNode_get?_ne _ _ _ _ _ (fun h => hmn h.symm)]
        by_cases hml : m ∈ l
        · rw [if_pos hml, if_pos (List.mem_cons_of_mem n hml)]
        · rw [if_neg hml, if_neg (by simp [List.mem_cons, hmn, hml])]

lemma dcInnerNode_eq_tcInnerNode : dcInnerNode = tcInnerNode := by
  funext base pv cur node
  rw [dcInnerNode, tcInnerNode]
  cases hg : cur.get? node with
  | none => rfl
  | some rv =>
      have hiff : (node = base ∨ (rv.type = VJoint.P ∨ rv.type = VJoint.RP)) ↔
          (node = base ∨ rv.type ≠ VJoint.R) := by
        cases h : rv.type <;> simp [h]
      exact if_congr hiff rfl rfl

lemma mem_osAdd {α : Type} [DecidableEq α] (acc : List α) (b x : α) :
    x ∈ osAdd acc b ↔ x ∈ acc ∨ x = b := by
  rw [osAdd]
  split_ifs with h
  · constructor
    · exact Or.inl
    · rintro (hx | rfl)
      · exact hx
      · exact h
  · simp

lemma mem_foldl_osAdd {α : Type} [DecidableEq α] :
    ∀ (l acc : List α) (x : α), x ∈ l.foldl osAdd acc ↔ x ∈ acc ∨ x ∈ l := by
  intro l
  induction l with
  | nil => intro acc x; simp
  | cons b l ih =>
      intro acc x
      rw [List.foldl_cons, ih, mem_osAdd]
      simp [or_assoc, List.mem_cons]

lemma mem_osFromIterable {α : Type} [DecidableEq α] (l : List α) (x : α) :
    x ∈ osFromIterable l ↔ x ∈ l := by
  rw [osFromIterable, mem_foldl_osAdd]
  simp

lemma dictUpd_map_osAdd (n : ℕ) :
    ∀ (d : List (String × List ℕ)) (k : String),
      dictUpd (d.map (fun kv => (kv.1, osFromIterable kv.2))) k
          (fun l => osAdd l n) [n]
        = (dictUpd d k (fun l => l ++ [n]) [n]).map
            (fun kv => (kv.1, osFromIterable kv.2)) := by
  intro d
  induction d with
  | nil =>
      intro k
      simp [dictUpd, osFromIterable, osAdd]
  | cons kv rest ih =>
      intro k
      obtain ⟨k', v⟩ := kv
      simp only [List.map_cons, dictUpd]
      split_ifs with h
      · simp only [List.map_cons]
        congr 2
        rw [osFromIterable, osFromIterable, List.foldl_append]
        rfl
      · simp [ih k]

lemma buildVlinks_fold_rel (n : ℕ) :
    ∀ (links : List String) (d : List (String × List ℕ)),
      links.foldl (fun d link => dictUpd d link (fun l => osAdd l n) [n])
          (d.map (fun kv => (kv.1, osFromIterable kv.2)))
        = (links.foldl (fun d link => dictUpd d link (fun l => l ++ [n]) [n]) d).map
            (fun kv => (kv.1, osFromIterable kv.2)) := by
  intro links
  induction links with
  | nil => intro d; simp
  | cons link links ih =>
      intro d
      rw [List.foldl_cons, List.foldl_cons, dictUpd_map_osAdd, ih]

lemma buildVlinksTGo_eq_map :
    ∀ (vps : List VPoint) (d : List (String × List ℕ)) (node : ℕ),
      buildVlinksTGo (d.map (fun kv => (kv.1, osFromIterable kv.2))) node vps
        = (buildVlinksDGo d node vps).map (fun kv => (kv.1, osFromIterable kv.2)) := by
  intro vps
  induction vps with
  | nil => intro d node; simp [buildVlinksTGo, buildVlinksDGo]
  | cons vp vps ih =>
      intro d node
      rw [buildVlinksTGo, buildVlinksDGo, buildVlinks_fold_rel, ih]

lemma buildVlinksT_eq_map (vps : List VPoint) :
    buildVlinksT vps
      = (buildVlinksD vps).map (fun kv => (kv.1, osFromIterable kv.2)) := by
  rw [buildVlinksT, buildVlinksD, ← buildVlinksTGo_eq_map]
  rfl

lemma dictGet_map {κ ν ν' : Type} [DecidableEq κ] (g : ν → ν') :
    ∀ (d : List (κ × ν)) (k : κ),
      dictGet (d.map (fun kv => (kv.1, g kv.2))) k = (dictGet d k).map g := by
  intro d
  induction d with
  | nil => intro k; rfl
  | cons kv rest ih =>
      intro k
      obtain ⟨k', v⟩ := kv
      simp only [List.map_cons, dictGet]
      split_ifs with h
      · rfl
      · exact ih k

lemma foldl_inner_dedup (base : ℕ) (pv : VPoint) (l : List ℕ)
    (cur : List VPoint) :
    (osFromIterable l).foldl (tcInnerNode base pv) cur
      = l.foldl (tcInnerNode base pv) cur := by
  apply List.ext_get?
  intro m
  rw [foldl_tcInnerNode_get?, foldl_tcInnerNode_get?]
  rw [if_congr (mem_osFromIterable l m) rfl rfl]

lemma perBase_eq (vlD : List (String × List ℕ)) (cur : List VPoint) (base : ℕ)
    (hP : ∀ pv, cur.get? base = some pv → pv.type = VJoint.P →
      pv.grounded = true) :
    tcPerBase (vlD.map (fun kv => (kv.1, osFromIterable kv.2))) cur base
      = dcPerBase vlD cur base := by
  cases hg : cur.get? base with
  | none => simp only [tcPerBase, dcPerBase, hg]
  | some pv =>
      simp only [tcPerBase, dcPerBase, hg]
      by_cases hT : pv.type = VJoint.P
      · rw [if_neg (by simp [hT, hP pv hg hT]), if_neg (by simp [hT])]
        congr 1
        funext c link
        rw [dictGet_map, dcInnerNode_eq_tcInnerNode]
        cases hgl : dictGet vlD link with
        | none => rfl
        | some l =>
            simp only [Option.map_some, Option.getD_some]
            exact foldl_inner_dedup base pv l c
      · rw [if_pos (by simp [hT]), if_pos (by simp [hT])]

lemma foldl_inner_normInv (vps : List VPoint) (base : ℕ) (pv : VPoint)
    (l : List ℕ) (cur : List VPoint) (h : normInv vps cur) :
    normInv vps (l.foldl (tcInnerNode base pv) cur) := by
  intro i
  rw [foldl_tcInnerNode_get?]
  split_ifs with hi
  · rcases h i with hc | ⟨v, hv, hvt⟩
    · rw [hc]
      cases hg : vps.get? i with
      | none => simp
      | some rv =>
          by_cases hcond : i = base ∨ rv.type ≠ VJoint.R
          · left
            simp [hg, innerRes, hcond]
          · right
            refine ⟨replSlider pv rv, ?_, rfl⟩
            simp [hg, innerRes, hcond]
    · right
      refine ⟨v, ?_, hvt⟩
      rw [hv]
      simp [innerRes, hvt]
  · exact h i

lemma foldl_links_normInv (vps : List VPoint) (base : ℕ) (pv : VPoint)
    (vl : List (String × List ℕ)) :
    ∀ (links : List String) (cur : List VPoint), normInv vps cur →
      normInv vps (links.foldl
        (fun c link => ((dictGet vl link).getD []).foldl (tcInnerNode base pv) c)
        cur) := by
  intro links
  induction links with
  | nil => intro cur h; exact h
  | cons link links ih =>
      intro cur h
      rw [List.foldl_cons]
      exact ih _ (foldl_inner_normInv vps base pv _ cur h)

lemma dcPerBase_normInv (vps : List VPoint) (vlD : List (String × List ℕ))
    (cur : List VPoint) (base : ℕ) (h : normInv vps cur) :
    normInv vps (dcPerBase vlD cur base) := by
  cases hg : cur.get? base with
  | none => simp only [dcPerBase, hg]; exact h
  | some pv =>
      simp only [dcPerBase, hg]
      split_ifs with hc
      · exact h
      · rw [dcInnerNode_eq_tcInnerNode]
        exact foldl_links_normInv vps base pv vlD _ cur h

lemma tcNormalize_fold_eq (vps : List VPoint)
    (hgr : ∀ v ∈ vps, v.type = VJoint.P → v.grounded = true) :
    ∀ (l : List ℕ) (cur : List VPoint), normInv vps cur →
      l.foldl (tcPerBase (buildVlinksT vps)) cur
        = l.foldl (dcPerBase (buildVlinksD vps)) cur := by
  intro l
  induction l with
  | nil => intro cur _; rfl
  | cons base l ih =>
      intro cur hinv
      rw [List.foldl_cons, List.foldl_cons]
      have hstep : tcPerBase (buildVlinksT vps) cur base
          = dcPerBase (buildVlinksD vps) cur base := by
        rw [buildVlinksT_eq_map]
        apply perBase_eq
        intro pv hpv hT
        rcases hinv base with hc | ⟨v, hv, hvt⟩
        · rw [hc] at hpv
          exact hgr pv (List.get?_mem hpv) hT
        · rw [hv] at hpv
          injection hpv with hpv
          rw [← hpv, hvt] at hT
          cases hT
      rw [hstep, ih _ (dcPerBase_normInv vps _ cur base hinv)]

/-- Counterexample to C7 as frozen: for an **ungrounded** prismatic joint
(`vpP7`) with a revolute friend on its secondary link, `data_collecting`
performs the P→RP replacement (there is no grounded test at
tinycadlib.pyx:315) while `t_config` does not (triangulation.pyx:289
requires `vpoint.grounded()`), so the two normalizations produce joint
lists that differ already in their joint kinds. -/
theorem normalize_counterexample :
    (tcNormalize [vpP7, vpR7]).map VPoint.type
        ≠ (dcNormalize [vpP7, vpR7]).map VPoint.type ∧
      vpP7.grounded = false := by
  decide

/-- **C7** (amended).  The per-joint replacement rule of the two
normalizations is identical (`replSlider`: primary link of the prismatic
joint followed by the revolute joint's links not on the prismatic joint,
position preserved, the prismatic joint's angle), but `t_config` triggers it
only for grounded prismatic joints whereas `data_collecting` triggers it for
every prismatic joint; consequently the two transformations coincide on
every joint list whose prismatic joints are all grounded. -/
theorem tcNormalize_eq_dcNormalize (vps : List VPoint)
    (hgr : ∀ v ∈ vps, v.type = VJoint.P → v.grounded = true) :
    tcNormalize vps = dcNormalize vps := by
  rw [tcNormalize, dcNormalize]
  exact tcNormalize_fold_eq vps hgr _ vps (fun i => Or.inl rfl)

/-- Witness for the amended C7 at a concrete input (a grounded prismatic
joint with a revolute friend). -/
theorem tcNormalize_eq_dcNormalize_witness :
    tcNormalize [vpP7g, vpR7] = dcNormalize [vpP7g, vpR7] :=
  tcNormalize_eq_dcNormalize [vpP7g, vpR7] (by decide)

lemma hpInnerNode_heap_extend (tcGuard : Bool) (base : ℕ) (pv : VPoint)
    (st : List VPoint × List ℕ) (node : ℕ) :
    ∃ ext, (hpInnerNode tcGuard base pv st node).1 = st.1 ++ ext := by
  cases hg : (st.2.get? node).bind st.1.get? with
  | none => exact ⟨[], by simp only [hpInnerNode, hg]; simp⟩
  | some rv =>
      simp only [hpInnerNode, hg]
      by_cases hc : node = base ∨ (if tcGuard then rv.type ≠ VJoint.R
          else (rv.type = VJoint.P ∨ rv.type = VJoint.RP))
      · exact ⟨[], by rw [if_pos hc]; simp⟩
      · exact ⟨[replSlider pv rv], by rw [if_neg hc]⟩

lemma foldl_heap_extend {σ : Type} (f : List VPoint × List ℕ → σ → List VPoint × List ℕ)
    (hf : ∀ st x, ∃ ext, (f st x).1 = st.1 ++ ext) :
    ∀ (l : List σ) (st : List VPoint × List ℕ),
      ∃ ext, (l.foldl f st).1 = st.1 ++ ext := by
  intro l
  induction l with
  | nil => intro st; exact ⟨[], by simp⟩
  | cons x l ih =>
      intro st
      obtain ⟨e1, he1⟩ := hf st x
      obtain ⟨e2, he2⟩ := ih (f st x)
      exact ⟨e1 ++ e2, by rw [List.foldl_cons, he2, he1, List.append_assoc]⟩

lemma hpPerBase_heap_extend (tcGuard : Bool) (vl : List (String × List ℕ))
    (st : List VPoint × List ℕ) (base : ℕ) :
    ∃ ext, (hpPerBase tcGuard vl st base).1 = st.1 ++ ext := by
  cases hg : (st.2.get? base).bind st.1.get? with
  | none => exact ⟨[], by simp only [hpPerBase, hg]; simp⟩
  | some pv =>
      simp only [hpPerBase, hg]
      by_cases hc : (if tcGuard then pv.type ≠ VJoint.P ∨ pv.grounded = false
          else pv.type ≠ VJoint.P)
      · exact ⟨[], by rw [if_pos hc]; simp⟩
      · rw [if_neg hc]
        refine foldl_heap_extend _ ?_ _ st
        intro st' link
        exact foldl_heap_extend _ (hpInnerNode_heap_extend tcGuard base pv) _ st'

/-- **C8.** Neither `t_config`'s nor `data_collecting`'s P→RP normalization
ever mutates the caller's joint sequence or the `VPoint` objects it
contains: at the heap level both only append freshly allocated replacement
objects and assign them into the internal copy, so after either call every
address of the caller's input sequence still refers to the same object with
the same field values.  (Every other statement of both routines only reads
the joint list, so the normalization phase is the only candidate writer.) -/
theorem normalize_no_mutation (heap : List VPoint) (lst : List ℕ)
    (wf : ∀ a ∈ lst, a < heap.length) :
    (∀ a ∈ lst, (hpTcNormalize heap lst).1.get? a = heap.get? a) ∧
    (∀ a ∈ lst, (hpDcNormalize heap lst).1.get? a = heap.get? a) := by
  have hstep : ∀ (tcGuard : Bool) (vl : List (String × List ℕ)),
      ∃ ext, ((List.range lst.length).foldl (hpPerBase tcGuard vl) (heap, lst)).1
        = heap ++ ext := by
    intro tcGuard vl
    exact foldl_heap_extend _ (hpPerBase_heap_extend tcGuard vl) _ (heap, lst)
  constructor
  · intro a ha
    obtain ⟨ext, hext⟩ := hstep true (buildVlinksT (derefHeap heap lst))
    rw [hpTcNormalize, hext]
    exact List.get?_append (wf a ha)
  · intro a ha
    obtain ⟨ext, hext⟩ := hstep false (buildVlinksD (derefHeap heap lst))
    rw [hpDcNormalize, hext]
    exact List.get?_append (wf a ha)

/-- Witness for C8 at a concrete input: a two-joint heap whose sequence
`[0, 1]` is unchanged by both normalizations. -/
theorem normalize_no_mutation_witness :
    (∀ a ∈ [0, 1], (hpTcNormalize [vpP7g, vpR7] [0, 1]).1.get? a
        = [vpP7g, vpR7].get? a) ∧
    (∀ a ∈ [0, 1], (hpDcNormalize [vpP7g, vpR7] [0, 1]).1.get? a
        = [vpP7g, vpR7].get? a) :=
  normalize_no_mutation [vpP7g, vpR7] [0, 1] (by decide)

/-- **C4.** For every joint list, `vpoint_dof` returns
`3·(L − 1) − 2·j1 − j2`, where `L` counts the distinct links appearing on
joints having at least two link memberships plus the always-present ground
link; `j1` accumulates `memberships − 1` per such revolute joint and, per
prismatic joint, `1` plus any memberships beyond 2; `j2` accumulates 1 per
RP joint (RP also adds memberships beyond 2 to `j1`); joints with fewer than
two link memberships contribute nothing. -/
theorem vpoint_dof_eq_claim_formula (vps : List VPoint) :
    vpoint_dof vps =
      3 * ((claimLinks vps).card : ℤ) - 3
        - 2 * ((dofJoints vps).map claimJ1).sum
        - ((dofJoints vps).map claimJ2).sum := by
  rw [vpoint_dof, vpoint_dof_go_spec, claimLinks]
  ring

/-! ### Dictionary and measure lemmas for the main-loop termination proof -/

lemma dictGet_dictUpd_self {κ ν : Type} [DecidableEq κ]
    (d : List (κ × ν)) (k : κ) (f : ν → ν) (init : ν) :
    dictGet (dictUpd d k f init) k = some ((dictGet d k).elim init f) := by
  induction d with
  | nil => simp [dictUpd, dictGet]
  | cons kv rest ih =>
      obtain ⟨k', v⟩ := kv
      by_cases h : k = k'
      · simp [dictUpd, dictGet, h]
      · simp only [dictUpd, dictGet, if_neg h]
        exact ih

lemma dictGet_dictUpd_ne {κ ν : Type} [DecidableEq κ]
    (d : List (κ × ν)) (k k' : κ) (f : ν → ν) (init : ν) (h : k' ≠ k) :
    dictGet (dictUpd d k f init) k' = dictGet d k' := by
  induction d with
  | nil => simp [dictUpd, dictGet, h]
  | cons kv rest ih =>
      obtain ⟨k'', v⟩ := kv
      by_cases h2 : k = k''
      · subst h2
        simp [dictUpd, dictGet, h]
      · simp only [dictUpd, if_neg h2, dictGet]
        split_ifs with h3
        · rfl
        · exact ih

lemma dictGet_dSet_isSome (st : List (ℤ × Bool)) (k k' : ℤ) (v : Bool)
    (h : (dictGet st k').isSome) : (dictGet (dSet st k v) k').isSome := by
  by_cases hk : k' = k
  · subst hk
    rw [dSet, dictGet_dictUpd_self]
    rfl
  · rw [dSet, dictGet_dictUpd_ne _ _ _ _ _ hk]
    exact h

lemma countFalse_dictUpd_true (k : ℤ) :
    ∀ st : List (ℤ × Bool),
      countFalse (dictUpd st k (fun _ => true) true) ≤ countFalse st ∧
      (dictGet st k = some false →
        countFalse (dictUpd st k (fun _ => true) true) + 1 ≤ countFalse st) := by
  intro st
  induction st with
  | nil =>
      constructor
      · simp [dictUpd, countFalse]
      · intro h
        simp [dictGet] at h
  | cons kv rest ih =>
      obtain ⟨k', v⟩ := kv
      rw [dictUpd]
      split_ifs with h
      · constructor
        · simp only [countFalse, List.filter_cons]
          cases v <;> simp
        · intro hf
          rw [dictGet, if_pos h] at hf
          injection hf with hf
          subst hf
          simp only [countFalse, List.filter_cons]
          simp
      · have hget : dictGet ((k', v) :: rest) k = dictGet rest k := by
          rw [dictGet, if_neg h]
        have ih1 := ih.1
        simp only [countFalse, List.filter_cons] at ih1 ⊢
        constructor
        · cases v <;> simp <;> omega
        · intro hf
          rw [hget] at hf
          have ih2 := ih.2 hf
          simp only [countFalse] at ih2
          cases v <;> simp <;> omega

lemma countFalse_dSet_true_le (st : List (ℤ × Bool)) (k : ℤ) :
    countFalse (dSet st k true) ≤ countFalse st := by
  rw [dSet]
  exact (countFalse_dictUpd_true k st).1

lemma countFalse_dSet_true_lt (st : List (ℤ × Bool)) (k : ℤ)
    (h : dictGet st k = some false) :
    countFalse (dSet st k true) < countFalse st := by
  rw [dSet]
  have := (countFalse_dictUpd_true k st).2 h
  omega

lemma pPropagateNodes_status (node : ℕ) :
    ∀ (l : List ℕ) (status : List (ℤ × Bool)) (exprs : List Expr) (lsym : ℤ)
      (status2 : List (ℤ × Bool)) (exprs2 : List Expr) (lsym2 : ℤ),
      pPropagateNodes node l status exprs lsym = .ok (status2, exprs2, lsym2) →
      countFalse status2 ≤ countFalse status ∧
      (∀ k, (dictGet status k).isSome → (dictGet status2 k).isSome) := by
  intro l
  induction l with
  | nil =>
      intro status exprs lsym s2 e2 l2 h
      simp only [pPropagateNodes, Except.ok.injEq, Prod.mk.injEq] at h
      obtain ⟨h1, h2, h3⟩ := h
      subst h1
      exact ⟨le_refl _, fun k hk => hk⟩
  | cons fb rest ih =>
      intro status exprs lsym s2 e2 l2 h
      cases hs : statusAt status fb with
      | error e =>
          simp only [pPropagateNodes, hs] at h
          cases h
      | ok sfb =>
          simp only [pPropagateNodes, hs] at h
          by_cases hb : sfb = true
          · rw [if_pos hb] at h
            exact ih _ _ _ _ _ _ h
          · rw [if_neg hb] at h
            obtain ⟨h1, h2⟩ := ih _ _ _ _ _ _ h
            refine ⟨le_trans h1 (countFalse_dSet_true_le _ _), fun k hk => ?_⟩
            exact h2 k (dictGet_dSet_isSome _ _ _ _ hk)

lemma pPropagateLinks_status (node : ℕ) (vl : List (String × List ℕ)) :
    ∀ (links : List String) (status : List (ℤ × Bool)) (exprs : List Expr)
      (lsym : ℤ) (status2 : List (ℤ × Bool)) (exprs2 : List Expr) (lsym2 : ℤ),
      pPropagateLinks node vl links status exprs lsym
          = .ok (status2, exprs2, lsym2) →
      countFalse status2 ≤ countFalse status ∧
      (∀ k, (dictGet status k).isSome → (dictGet status2 k).isSome) := by
  intro links
  induction links with
  | nil =>
      intro status exprs lsym s2 e2 l2 h
      simp only [pPropagateLinks, Except.ok.injEq, Prod.mk.injEq] at h
      obtain ⟨h1, h2, h3⟩ := h
      subst h1
      exact ⟨le_refl _, fun k hk => hk⟩
  | cons link rest ih =>
      intro status exprs lsym s2 e2 l2 h
      cases hv : dictGet vl link with
      | none =>
          simp only [pPropagateLinks, hv] at h
          cases h
      | some fl =>
          cases hp : pPropagateNodes node fl status exprs lsym with
          | error e =>
              simp only [pPropagateLinks, hv, hp] at h
              cases h
          | ok triple =>
              obtain ⟨sa, ea, la⟩ := triple
              simp only [pPropagateLinks, hv, hp] at h
              obtain ⟨ha1, ha2⟩ := pPropagateNodes_status node fl _ _ _ _ _ _ hp
              obtain ⟨hb1, hb2⟩ := ih _ _ _ _ _ _ h
              exact ⟨le_trans hb1 ha1, fun k hk => hb2 k (ha2 k hk)⟩

lemma tMeasure_flag_le (st : List (ℤ × Bool)) (n : ℤ) :
    (if dictGet st n = none then (1 : ℕ) else 0) ≤ 1 := by
  split_ifs <;> omega

lemma tMeasure_lt_of_solve (ctx : TCtx) (s s' : TState)
    (hC : countFalse s'.status < countFalse s.status) :
    tMeasure ctx s' < tMeasure ctx s := by
  rw [tMeasure, tMeasure]
  have h1 : countFalse s'.status * (ctx.around + 1) + (ctx.around + 1)
      ≤ countFalse s.status * (ctx.around + 1) := by
    calc countFalse s'.status * (ctx.around + 1) + (ctx.around + 1)
        = (countFalse s'.status + 1) * (ctx.around + 1) := by ring
      _ ≤ countFalse s.status * (ctx.around + 1) :=
          Nat.mul_le_mul_right _ hC
  have h3 : ctx.around - s'.skip ≤ ctx.around := Nat.sub_le _ _
  have h4 := tMeasure_flag_le s'.status (s'.node : ℤ)
  set A' := countFalse s'.status * (ctx.around + 1)
  set A := countFalse s.status * (ctx.around + 1)
  set f' := (if dictGet s'.status (s'.node : ℤ) = none then (1 : ℕ) else 0)
  omega

lemma tMeasure_lt_of_skip (ctx : TCtx) (s s' : TState)
    (hst : s'.status = s.status) (hskip : s'.skip = s.skip + 1)
    (hlt : s.skip < ctx.around)
    (hkey : ¬ dictGet s.status (s.node : ℤ) = none) :
    tMeasure ctx s' < tMeasure ctx s := by
  rw [tMeasure, tMeasure, hst, hskip, if_neg hkey]
  have h4 := tMeasure_flag_le s.status (s'.node : ℤ)
  set A := countFalse s.status * (ctx.around + 1)
  set f' := (if dictGet s.status (s'.node : ℤ) = none then (1 : ℕ) else 0)
  omega

lemma tMeasure_lt_of_reset (ctx : TCtx) (s s' : TState)
    (hst : s'.status = s.status) (hskip : s'.skip = s.skip)
    (hnode : s'.node = 0)
    (hnone : dictGet s.status (s.node : ℤ) = none)
    (h0 : (dictGet s.status 0).isSome) :
    tMeasure ctx s' < tMeasure ctx s := by
  rw [tMeasure, tMeasure, hst, hskip, hnode, if_pos hnone]
  have hz : dictGet s.status ((0 : ℕ) : ℤ) ≠ none := by
    intro hc
    rw [show ((0 : ℕ) : ℤ) = (0 : ℤ) from rfl] at hc
    rw [hc] at h0
    cases h0
  rw [if_neg hz]
  omega

lemma stepR_cont_spec (ctx : TCtx) (s s' : TState)
    (h : stepR ctx s = .cont s')
    (hfalse : dictGet s.status (s.node : ℤ) = some false)
    (hskip : s.skip < ctx.around)
    (h0 : (dictGet s.status 0).isSome) :
    tMeasure ctx s' < tMeasure ctx s ∧ (dictGet s'.status 0).isSome := by
  have hkey : ¬ dictGet s.status (s.node : ℤ) = none := by
    rw [hfalse]; intro hc; cases hc
  rw [stepR] at h
  by_cases htgt : s.node ∈ ctx.inputTargets
  · rw [if_pos htgt] at h
    cases hb : dictGet s.status (getInputBase s.node ctx.inputs) with
    | none => rw [hb] at h; cases h
    | some b =>
        rw [hb] at h
        cases b
        · simp only at h
          injection h with h
          subst h
          exact ⟨tMeasure_lt_of_skip ctx s _ rfl rfl hskip hkey, h0⟩
        · simp only at h
          injection h with h
          subst h
          refine ⟨tMeasure_lt_of_solve ctx s _ ?_, dictGet_dSet_isSome _ _ _ _ h0⟩
          exact countFalse_dSet_true_lt _ _ hfalse
  · rw [if_neg htgt] at h
    cases hrf : getReliableFriend s.node ctx.vpoints ctx.vlinks s.status with
    | error e => rw [hrf] at h; cases h
    | ok trip =>
        obtain ⟨ok1, fa, fb⟩ := trip
        rw [hrf] at h
        cases ok1
        · simp only at h
          injection h with h
          subst h
          exact ⟨tMeasure_lt_of_skip ctx s _ rfl rfl hskip hkey, h0⟩
        · simp only at h
          cases hp1 : posAt ctx fa with
          | error e => rw [hp1] at h; cases h
          | ok pfa =>
            cases hp2 : posAt ctx (s.node : ℤ) with
            | error e => rw [hp1, hp2] at h; cases h
            | ok pn =>
              cases hp3 : posAt ctx fb with
              | error e => rw [hp1, hp2, hp3] at h; cases h
              | ok pfb =>
                rw [hp1, hp2, hp3] at h
                simp only at h
                injection h with h
                subst h
                refine ⟨tMeasure_lt_of_solve ctx s _ ?_,
                  dictGet_dSet_isSome _ _ _ _ h0⟩
                exact countFalse_dSet_true_lt _ _ hfalse

lemma stepP_cont_spec (ctx : TCtx) (s s' : TState) (vp : VPoint)
    (h : stepP ctx s vp = .cont s')
    (hfalse : dictGet s.status (s.node : ℤ) = some false)
    (hskip : s.skip < ctx.around)
    (h0 : (dictGet s.status 0).isSome) :
    tMeasure ctx s' < tMeasure ctx s ∧ (dictGet s'.status 0).isSome := by
  have hkey : ¬ dictGet s.status (s.node : ℤ) = none := by
    rw [hfalse]; intro hc; cases hc
  rw [stepP] at h
  cases hnb : getNotBaseFriend s.node ctx.vpoints ctx.vlinks s.status with
  | error e => rw [hnb] at h; cases h
  | ok pr =>
      obtain ⟨ok1, fa⟩ := pr
      rw [hnb] at h
      cases ok1
      · simp only at h
        injection h with h
        subst h
        exact ⟨tMeasure_lt_of_skip ctx s _ rfl rfl hskip hkey, h0⟩
      · simp only at h
        cases hpp : pPropagateLinks s.node ctx.vlinks (vp.links.drop 1)
            (dSet s.status s.node true)
            (addPxy s.exprs ⟨.pL, fa⟩ ⟨.lL, s.lsym⟩ ⟨.lL, s.lsym + 1⟩
              ⟨.pL, (s.node : ℤ)⟩)
            (s.lsym + 2) with
        | error e => rw [hpp] at h; cases h
        | ok trip =>
            obtain ⟨status2, exprs2, lsym2⟩ := trip
            rw [hpp] at h
            simp only at h
            injection h with h
            subst h
            obtain ⟨hc1, hc2⟩ := pPropagateLinks_status s.node ctx.vlinks
              _ _ _ _ _ _ _ hpp
            constructor
            · apply tMeasure_lt_of_solve ctx s
              calc countFalse status2
                  ≤ countFalse (dSet s.status s.node true) := hc1
                _ < countFalse s.status := countFalse_dSet_true_lt _ _ hfalse
            · exact hc2 0 (dictGet_dSet_isSome _ _ _ _ h0)

lemma stepRP_cont_spec (ctx : TCtx) (s s' : TState) (vp : VPoint)
    (h : stepRP ctx s vp = .cont s')
    (hfalse : dictGet s.status (s.node : ℤ) = some false)
    (hskip : s.skip < ctx.around)
    (h0 : (dictGet s.status 0).isSome) :
    tMeasure ctx s' < tMeasure ctx s ∧ (dictGet s'.status 0).isSome := by
  have hkey : ¬ dictGet s.status (s.node : ℤ) = none := by
    rw [hfalse]; intro hc; cases hc
  rw [stepRP] at h
  cases hp0 : posAt ctx (s.node : ℤ) with
  | error e => rw [hp0] at h; cases h
  | ok pn =>
    rw [hp0] at h
    simp only at h
    cases hnb : getNotBaseFriend s.node ctx.vpoints ctx.vlinks s.status with
    | error e => rw [hnb] at h; cases h
    | ok pr1 =>
      obtain ⟨ok1, fa⟩ := pr1
      rw [hnb] at h
      cases hbf : getBaseFriend s.node ctx.vpoints ctx.vlinks with
      | error e => rw [hbf] at h; cases h
      | ok pr2 =>
        obtain ⟨ok2, fb0, fd0⟩ := pr2
        rw [hbf] at h
        simp only at h
        by_cases hko : ok1 = false ∨ ok2 = false
        · rw [if_pos hko] at h
          injection h with h
          subst h
          exact ⟨tMeasure_lt_of_skip ctx s _ rfl rfl hskip hkey, h0⟩
        · rw [if_neg hko] at h
          cases hq1 : posAt ctx fb0 with
          | error e => rw [hq1] at h; cases h
          | ok pfb0 =>
            cases hq2 : posAt ctx fd0 with
            | error e => rw [hq1, hq2] at h; cases h
            | ok pfd0 =>
              cases hq3 : posAt ctx fa with
              | error e => rw [hq1, hq2, hq3] at h; cases h
              | ok pfa =>
                rw [hq1, hq2, hq3] at h
                simp only at h
                cases hq4 : posAt ctx
                    (if vp.grounded = false then
                      (if clockwise pfb0
                          (pn.1 + Real.cos (vp.angle / 180 * Real.pi),
                           pn.2 + Real.sin (vp.angle / 180 * Real.pi)) pfd0 = true
                        then (fb0, fd0) else (fd0, fb0))
                      else (fb0, fd0)).1 with
                | error e => rw [hq4] at h; cases h
                | ok pfb1 =>
                  rw [hq4] at h
                  simp only at h
                  injection h with h
                  subst h
                  refine ⟨tMeasure_lt_of_solve ctx s _ ?_,
                    dictGet_dSet_isSome _ _ _ _ h0⟩
                  exact countFalse_dSet_true_lt _ _ hfalse

lemma stepT_cont_spec (ctx : TCtx) (s s' : TState)
    (h : stepT ctx s = .cont s')
    (h0 : (dictGet s.status 0).isSome) :
    tMeasure ctx s' < tMeasure ctx s ∧ (dictGet s'.status 0).isSome := by
  rw [stepT] at h
  by_cases hall : isAllLock s.status = true
  · rw [if_pos hall] at h; cases h
  · rw [if_neg hall] at h
    by_cases hnone : dictGet s.status (s.node : ℤ) = none
    · rw [if_pos hnone] at h
      injection h with h
      subst h
      exact ⟨tMeasure_lt_of_reset ctx s _ rfl rfl rfl hnone h0, h0⟩
    · rw [if_neg hnone] at h
      by_cases hsk : ctx.around ≤ s.skip
      · rw [if_pos hsk] at h; cases h
      · rw [if_neg hsk] at h
        have hskip : s.skip < ctx.around := lt_of_not_le hsk
        by_cases htrue : dictGet s.status (s.node : ℤ) = some true
        · rw [if_pos htrue] at h
          injection h with h
          subst h
          exact ⟨tMeasure_lt_of_skip ctx s _ rfl rfl hskip hnone, h0⟩
        · rw [if_neg htrue] at h
          have hfalse : dictGet s.status (s.node : ℤ) = some false := by
            cases hd : dictGet s.status (s.node : ℤ) with
            | none => exact absurd hd hnone
            | some b =>
                cases b
                · rfl
                · exact absurd hd htrue
          cases hvp : ctx.vpoints.get? s.node with
          | none => rw [hvp] at h; cases h
          | some vp =>
              simp only [hvp] at h
              cases htype : vp.type
              all_goals rw [htype] at h
              · exact stepR_cont_spec ctx s s' h hfalse hskip h0
              · exact stepP_cont_spec ctx s s' vp h hfalse hskip h0
              · exact stepRP_cont_spec ctx s s' vp h hfalse hskip h0

lemma runT_total (ctx : TCtx) :
    ∀ (n : ℕ) (s : TState), tMeasure ctx s < n →
      (dictGet s.status 0).isSome → (runT ctx n s).isSome := by
  intro n
  induction n with
  | zero => intro s h _; omega
  | succ n ih =>
      intro s hm h0
      rw [runT]
      cases hstep : stepT ctx s with
      | done e => rfl
      | fail e => rfl
      | cont s2 =>
          obtain ⟨hlt, h02⟩ := stepT_cont_spec ctx s s2 hstep h0
          exact ih s2 (by omega) h02

lemma foldl_condSet_isSome_mono (node : ℕ) (vp : VPoint) :
    ∀ (links : List String) (st : List (ℤ × Bool)) (k : ℤ),
      (dictGet st k).isSome →
      (dictGet (links.foldl (fun st link =>
          if link = FRAME ∧ vp.type = VJoint.R then dSet st (node : ℤ) true
          else st) st) k).isSome := by
  intro links
  induction links with
  | nil => intro st k h; exact h
  | cons link rest ih =>
      intro st k h
      rw [List.foldl_cons]
      apply ih
      split_ifs with hc
      · exact dictGet_dSet_isSome _ _ _ _ h
      · exact h

lemma initStatusGo_isSome_mono :
    ∀ (vps : List VPoint) (st : List (ℤ × Bool)) (n : ℕ) (k : ℤ),
      (dictGet st k).isSome →
      (dictGet (initStatusGo st n vps) k).isSome := by
  intro vps
  induction vps with
  | nil => intro st n k h; exact h
  | cons vp rest ih =>
      intro st n k h
      rw [initStatusGo]
      apply ih
      have h1 : (dictGet (dSet st (n : ℤ) false) k).isSome :=
        dictGet_dSet_isSome _ _ _ _ h
      split_ifs with hc
      · exact dictGet_dSet_isSome _ _ _ _ h1
      · exact foldl_condSet_isSome_mono n vp _ _ _ h1

lemma initStatusGo_key_head (st : List (ℤ × Bool)) (n : ℕ) (vp : VPoint)
    (rest : List VPoint) :
    (dictGet (initStatusGo st n (vp :: rest)) (n : ℤ)).isSome := by
  rw [initStatusGo]
  apply initStatusGo_isSome_mono
  have h1 : (dictGet (dSet st (n : ℤ) false) (n : ℤ)).isSome := by
    rw [dSet, dictGet_dictUpd_self]
    rfl
  split_ifs with hc
  · exact dictGet_dSet_isSome _ _ _ _ h1
  · exact foldl_condSet_isSome_mono n vp _ _ _ h1

lemma inputPlaGo_isSome_mono :
    ∀ (inputs : List (ℕ × ℕ)) (st : List (ℤ × Bool)) (e : List Expr)
      (l a : ℤ) (st2 : List (ℤ × Bool)) (e2 : List Expr) (l2 a2 : ℤ)
      (k : ℤ),
      inputPlaGo inputs st e l a = .ok (st2, e2, l2, a2) →
      (dictGet st k).isSome → (dictGet st2 k).isSome := by
  intro inputs
  induction inputs with
  | nil =>
      intro st e l a st2 e2 l2 a2 k h hk
      simp only [inputPlaGo, Except.ok.injEq, Prod.mk.injEq] at h
      obtain ⟨h1, h2⟩ := h
      subst h1
      exact hk
  | cons ip rest ih =>
      intro st e l a st2 e2 l2 a2 k h hk
      obtain ⟨base, node⟩ := ip
      cases hs : statusAt st (base : ℤ) with
      | error er =>
          simp only [inputPlaGo, hs] at h
          cases h
      | ok sb =>
          simp only [inputPlaGo, hs] at h
          split_ifs at h with hb
          · exact ih _ _ _ _ _ _ _ _ k h (dictGet_dSet_isSome _ _ _ _ hk)
          · exact ih _ _ _ _ _ _ _ _ k h hk

/-- **C5.** `t_config` terminates for every finite joint list, input-pair
list and initial status map: the main worklist loop stops after finitely
many iterations (it stops either with every status solved, or when
`skip_times` reaches `around` without further progress, or with a Python
exception for ill-formed inputs), and `t_config` returns a result — the fuel
given by the termination measure is never exhausted. -/
theorem t_config_terminates (vpoints_ : List VPoint) (inputs : List (ℕ × ℕ))
    (status0 : List (ℤ × Bool)) :
    ∃ r, t_config vpoints_ inputs status0 = some r := by
  cases vpoints_ with
  | nil => exact ⟨.ok [], rfl⟩
  | cons vp0 vrest =>
      cases inputs with
      | nil => exact ⟨.ok [], rfl⟩
      | cons ip irest =>
          rw [show t_config (vp0 :: vrest) (ip :: irest) status0 =
              (match tConfigStart (vp0 :: vrest) (ip :: irest) status0 with
               | .error e => some (.error e)
               | .ok (ctx, s0) => runT ctx (tMeasure ctx s0 + 1) s0) from rfl]
          cases hst : tConfigStart (vp0 :: vrest) (ip :: irest) status0 with
          | error e => exact ⟨.error e, rfl⟩
          | ok pair =>
              obtain ⟨ctx, s0⟩ := pair
              simp only [tConfigStart] at hst
              cases hip : inputPlaGo (ip :: irest)
                  (initStatusGo status0 0 (vp0 :: vrest)) [] 0 0 with
              | error e => rw [hip] at hst; cases hst
              | ok quad =>
                  obtain ⟨status2, exprs0, lsym0, asym0⟩ := quad
                  rw [hip] at hst
                  injection hst with hst
                  injection hst with hctx hs0
                  have h0 : (dictGet s0.status 0).isSome := by
                    rw [← hs0]
                    exact inputPlaGo_isSome_mono _ _ _ _ _ _ _ _ _ _ hip
                      (by
                        have := initStatusGo_key_head status0 0 vp0 vrest
                        simpa using this)
                  have hrun := runT_total ctx (tMeasure ctx s0 + 1) s0
                    (by omega) h0
                  exact Option.isSome_iff_exists.mp hrun

lemma countFalse_dSet_ne (s : TState) (hfalse : dictGet s.status (s.node : ℤ) = some false) :
    ¬ countFalse (dSet s.status s.node true) = countFalse s.status := by
  have := countFalse_dSet_true_lt s.status (s.node : ℤ) hfalse
  omega

/-- **C6** (amended).  In `t_config`'s main worklist loop, every successful
placement **except** the input-target revolute (PLA) branch resets
`skip_times` to 0; the PLA branch (triangulation.pyx:358-365) marks its
joint solved but leaves `skip_times` unchanged; and every skipped joint
increments `skip_times` by exactly 1. -/
theorem stepT_skip_discipline (ctx : TCtx) (s s' : TState)
    (h : stepT ctx s = .cont s') :
    (countFalse s'.status < countFalse s.status →
      (isInputPlaState ctx s ∧ s'.skip = s.skip) ∨
      (¬ isInputPlaState ctx s ∧ s'.skip = 0)) ∧
    (countFalse s'.status = countFalse s.status →
      ¬ dictGet s.status (s.node : ℤ) = none → s'.skip = s.skip + 1) := by
  rw [stepT] at h
  by_cases hall : isAllLock s.status = true
  · rw [if_pos hall] at h; cases h
  rw [if_neg hall] at h
  by_cases hnone : dictGet s.status (s.node : ℤ) = none
  · rw [if_pos hnone] at h
    injection h with h
    subst h
    exact ⟨fun hc => absurd hc (lt_irrefl _), fun _ hk => absurd hnone hk⟩
  rw [if_neg hnone] at h
  by_cases hsk : ctx.around ≤ s.skip
  · rw [if_pos hsk] at h; cases h
  rw [if_neg hsk] at h
  by_cases htrue : dictGet s.status (s.node : ℤ) = some true
  · rw [if_pos htrue] at h
    injection h with h
    subst h
    exact ⟨fun hc => absurd hc (lt_irrefl _), fun _ _ => rfl⟩
  rw [if_neg htrue] at h
  have hfalse : dictGet s.status (s.node : ℤ) = some false := by
    cases hd : dictGet s.status (s.node : ℤ) with
    | none => exact absurd hd hnone
    | some b =>
        cases b
        · rfl
        · exact absurd hd htrue
  cases hvp : ctx.vpoints.get? s.node with
  | none => rw [hvp] at h; cases h
  | some vp =>
      simp only [hvp] at h
      cases htype : vp.type
      all_goals rw [htype] at h
      · -- revolute branch
        rw [stepR] at h
        by_cases htgt : s.node ∈ ctx.inputTargets
        · rw [if_pos htgt] at h
          cases hb : dictGet s.status (getInputBase s.node ctx.inputs) with
          | none => rw [hb] at h; cases h
          | some b =>
              rw [hb] at h
              cases b
              · simp only at h
                injection h with h
                subst h
                exact ⟨fun hc => absurd hc (lt_irrefl _), fun _ _ => rfl⟩
              · simp only at h
                injection h with h
                subst h
                refine ⟨fun _ => Or.inl ⟨⟨vp, hvp, htype, htgt⟩, rfl⟩,
                  fun heq _ => absurd heq (countFalse_dSet_ne s hfalse)⟩
        · rw [if_neg htgt] at h
          have hnpla : ¬ isInputPlaState ctx s := by
            rintro ⟨vp', hvp', _, htgt'⟩
            exact htgt htgt'
          cases hrf : getReliableFriend s.node ctx.vpoints ctx.vlinks s.status with
          | error e => rw [hrf] at h; cases h
          | ok trip =>
              obtain ⟨ok1, fa, fb⟩ := trip
              rw [hrf] at h
              cases ok1
              · simp only at h
                injection h with h
                subst h
                exact ⟨fun hc => absurd hc (lt_irrefl _), fun _ _ => rfl⟩
              · simp only at h
                cases hp1 : posAt ctx fa with
                | error e => rw [hp1] at h; cases h
                | ok pfa =>
                  cases hp2 : posAt ctx (s.node : ℤ) with
                  | error e => rw [hp1, hp2] at h; cases h
                  | ok pn =>
                    cases hp3 : posAt ctx fb with
                    | error e => rw [hp1, hp2, hp3] at h; cases h
                    | ok pfb =>
                      rw [hp1, hp2, hp3] at h
                      simp only at h
                      injection h with h
                      subst h
                      exact ⟨fun _ => Or.inr ⟨hnpla, rfl⟩,
                        fun heq _ => absurd heq (countFalse_dSet_ne s hfalse)⟩
      · -- prismatic branch
        have hnpla : ¬ isInputPlaState ctx s := by
          rintro ⟨vp', hvp', htype', _⟩
          rw [hvp] at hvp'
          injection hvp' with hvp'
          rw [← hvp', htype] at htype'
          cases htype'
        rw [stepP] at h
        cases hnb : getNotBaseFriend s.node ctx.vpoints ctx.vlinks s.status with
        | error e => rw [hnb] at h; cases h
        | ok pr =>
            obtain ⟨ok1, fa⟩ := pr
            rw [hnb] at h
            cases ok1
            · simp only at h
              injection h with h
              subst h
              exact ⟨fun hc => absurd hc (lt_irrefl _), fun _ _ => rfl⟩
            · simp only at h
              cases hpp : pPropagateLinks s.node ctx.vlinks (vp.links.drop 1)
                  (dSet s.status s.node true)
                  (addPxy s.exprs ⟨.pL, fa⟩ ⟨.lL, s.lsym⟩ ⟨.lL, s.lsym + 1⟩
                    ⟨.pL, (s.node : ℤ)⟩)
                  (s.lsym + 2) with
              | error e => rw [hpp] at h; cases h
              | ok trip =>
                  obtain ⟨status2, exprs2, lsym2⟩ := trip
                  rw [hpp] at h
                  simp only at h
                  injection h with h
                  subst h
                  refine ⟨fun _ => Or.inr ⟨hnpla, rfl⟩, fun heq _ => ?_⟩
                  obtain ⟨hc1, _⟩ := pPropagateLinks_status s.node ctx.vlinks
                    _ _ _ _ _ _ _ hpp
                  have := countFalse_dSet_true_lt s.status (s.node : ℤ) hfalse
                  simp only at heq
                  omega
      · -- RP branch
        have hnpla : ¬ isInputPlaState ctx s := by
          rintro ⟨vp', hvp', htype', _⟩
          rw [hvp] at hvp'
          injection hvp' with hvp'
          rw [← hvp', htype] at htype'
          cases htype'
        rw [stepRP] at h
        cases hp0 : posAt ctx (s.node : ℤ) with
        | error e => rw [hp0] at h; cases h
        | ok pn =>
          rw [hp0] at h
          simp only at h
          cases hnb : getNotBaseFriend s.node ctx.vpoints ctx.vlinks s.status with
          | error e => rw [hnb] at h; cases h
          | ok pr1 =>
            obtain ⟨ok1, fa⟩ := pr1
            rw [hnb] at h
            cases hbf : getBaseFriend s.node ctx.vpoints ctx.vlinks with
            | error e => rw [hbf] at h; cases h
            | ok pr2 =>
              obtain ⟨ok2, fb0, fd0⟩ := pr2
              rw [hbf] at h
              simp only at h
              by_cases hko : ok1 = false ∨ ok2 = false
              · rw [if_pos hko] at h
                injection h with h
                subst h
                exact ⟨fun hc => absurd hc (lt_irrefl _), fun _ _ => rfl⟩
              · rw [if_neg hko] at h
                cases hq1 : posAt ctx fb0 with
                | error e => rw [hq1] at h; cases h
                | ok pfb0 =>
                  cases hq2 : posAt ctx fd0 with
                  | error e => rw [hq1, hq2] at h; cases h
                  | ok pfd0 =>
                    cases hq3 : posAt ctx fa with
                    | error e => rw [hq1, hq2, hq3] at h; cases h
                    | ok pfa =>
                      rw [hq1, hq2, hq3] at h
                      simp only at h
                      cases hq4 : posAt ctx
                          (if vp.grounded = false then
                            (if clockwise pfb0
                                (pn.1 + Real.cos (vp.angle / 180 * Real.pi),
                                 pn.2 + Real.sin (vp.angle / 180 * Real.pi)) pfd0 = true
                              then (fb0, fd0) else (fd0, fb0))
                            else (fb0, fd0)).1 with
                      | error e => rw [hq4] at h; cases h
                      | ok pfb1 =>
                        rw [hq4] at h
                        simp only at h
                        injection h with h
                        subst h
                        exact ⟨fun _ => Or.inr ⟨hnpla, rfl⟩,
                          fun heq _ => absurd heq (countFalse_dSet_ne s hfalse)⟩

/-- Counterexample to C6 as frozen: the input-target revolute (PLA) branch
of the main loop performs a successful placement (joint 4 goes from
unsolved to solved) but leaves `skip_times` at 1 instead of resetting it to
0 — triangulation.pyx:358-365 has no `skip_times = 0`. -/
theorem stepT_pla_no_reset_counterexample :
    stepT ctxC6 sC6 = .cont sC6' ∧
    countFalse sC6'.status < countFalse sC6.status ∧
    ¬ sC6'.skip = 0 := by
  refine ⟨rfl, by decide, by decide⟩

/-- Witness for the amended C6 at a concrete input: applying the
skip-discipline theorem to the PLA step above. -/
theorem stepT_skip_discipline_witness :
    (isInputPlaState ctxC6 sC6 ∧ sC6'.skip = sC6.skip) ∨
    (¬ isInputPlaState ctxC6 sC6 ∧ sC6'.skip = 0) :=
  (stepT_skip_discipline ctxC6 sC6 sC6' rfl).1 (by decide)

/-! ### The polygon run of `cycle_basis` (C10) -/

lemma dictGet_append {κ ν : Type} [DecidableEq κ] (A B : List (κ × ν)) (k : κ) :
    dictGet (A ++ B) k =
      match dictGet A k with
      | some v => some v
      | none => dictGet B k := by
  induction A with
  | nil => simp [dictGet]
  | cons kv rest ih =>
      obtain ⟨k', v⟩ := kv
      by_cases h : k = k' <;> simp [dictGet, h, ih]

lemma dictUpd_absent {κ ν : Type} [DecidableEq κ] (A : List (κ × ν)) (k : κ)
    (f : ν → ν) (init : ν) (h : dictGet A k = none) :
    dictUpd A k f init = A ++ [(k, init)] := by
  induction A with
  | nil => simp [dictUpd]
  | cons kv rest ih =>
      obtain ⟨k', v⟩ := kv
      by_cases hk : k = k'
      · rw [dictGet, if_pos hk] at h
        cases h
      · rw [dictGet, if_neg hk] at h
        simp [dictUpd, hk, ih h]

lemma descPairs_get : ∀ m k j, dictGet (descPairs k m) j =
    if k ≤ j ∧ j < k + m then some (j + 1) else none := by
  intro m
  induction m with
  | zero =>
      intro k j
      rw [descPairs, dictGet, if_neg (by omega)]
  | succ m ih =>
      intro m' j
      rw [descPairs, dictGet_append, ih (m' + 1) j]
      by_cases h1 : m' + 1 ≤ j ∧ j < m' + 1 + m
      · rw [if_pos h1, if_pos (by omega)]
      · rw [if_neg h1]
        by_cases h2 : j = m'
        · subst h2
          rw [dictGet, if_pos rfl, if_pos (by omega)]
        · rw [dictGet, if_neg h2, dictGet, if_neg (by omega)]

lemma descUsed_get : ∀ m k j, dictGet (descUsed k m) j =
    if k ≤ j ∧ j < k + m then some [j + 1] else none := by
  intro m
  induction m with
  | zero =>
      intro k j
      rw [descUsed, dictGet, if_neg (by omega)]
  | succ m ih =>
      intro m' j
      rw [descUsed, dictGet_append, ih (m' + 1) j]
      by_cases h1 : m' + 1 ≤ j ∧ j < m' + 1 + m
      · rw [if_pos h1, if_pos (by omega)]
      · rw [if_neg h1]
        by_cases h2 : j = m'
        · subst h2
          rw [dictGet, if_pos rfl, if_pos (by omega)]
        · rw [dictGet, if_neg h2, dictGet, if_neg (by omega)]

lemma polyPred_get (n k j : ℕ) (hn : 4 ≤ n) (hk : 2 ≤ k)
    (hkn : k ≤ n - 1) :
    dictGet (polyPred n k) j =
      if j = 0 then some 0
      else if j = 1 then some 0
      else if j = n - 1 then some 0
      else if k ≤ j ∧ j < n - 1 then some (j + 1)
      else none := by
  rw [polyPred]
  rw [dictGet_append, descPairs_get]
  by_cases h0 : j = 0
  · subst h0
    rw [dictGet, if_pos rfl, if_pos rfl]
  · rw [dictGet, if_neg h0, if_neg h0]
    by_cases h1 : j = 1
    · subst h1
      rw [dictGet, if_pos rfl, if_pos rfl]
    · rw [dictGet, if_neg h1, if_neg h1]
      by_cases h2 : j = n - 1
      · subst h2
        rw [dictGet, if_pos rfl, if_pos rfl]
      · rw [dictGet, if_neg h2, dictGet, if_neg h2]
        by_cases h3 : k ≤ j ∧ j < n - 1
        · rw [if_pos (by omega), if_pos h3]
        · rw [if_neg (by omega), if_neg h3]

lemma polyUsed_get (n k j : ℕ) (hn : 4 ≤ n) (hk : 2 ≤ k)
    (hkn : k ≤ n - 1) :
    dictGet (polyUsed n k) j =
      if j = 0 then some []
      else if j = 1 then some [0]
      else if j = n - 1 then some [0]
      else if k ≤ j ∧ j < n - 1 then some [j + 1]
      else none := by
  rw [polyUsed]
  rw [dictGet_append, descUsed_get]
  by_cases h0 : j = 0
  · subst h0
    rw [dictGet, if_pos rfl, if_pos rfl]
  · rw [dictGet, if_neg h0, if_neg h0]
    by_cases h1 : j = 1
    · subst h1
      rw [dictGet, if_pos rfl, if_pos rfl]
    · rw [dictGet, if_neg h1, if_neg h1]
      by_cases h2 : j = n - 1
      · subst h2
        rw [dictGet, if_pos rfl, if_pos rfl]
      · rw [dictGet, if_neg h2, dictGet, if_neg h2]
        by_cases h3 : k ≤ j ∧ j < n - 1
        · rw [if_pos (by omega), if_pos h3]
        · rw [if_neg (by omega), if_neg h3]

lemma visitNbr_new (pf z : ℕ) (zused : List ℕ) (st : CBState) (nbr : ℕ)
    (h : dictGet st.used nbr = none) :
    visitNbr pf z zused st nbr =
      { st with
        pred := dictUpd st.pred nbr (fun _ => z) z
        stack := nbr :: st.stack
        used := dictUpd st.used nbr (fun _ => [z]) [z] } := by
  simp only [visitNbr, h]

lemma visitNbr_skip (pf z : ℕ) (zused : List ℕ) (st : CBState) (nbr : ℕ)
    (pn : List ℕ) (h : dictGet st.used nbr = some pn) (hz : nbr ≠ z)
    (hm : nbr ∈ zused) :
    visitNbr pf z zused st nbr = st := by
  simp only [visitNbr, h]
  rw [if_neg hz, if_pos hm]

lemma visitNbr_cycle (pf z : ℕ) (zused : List ℕ) (st : CBState) (nbr : ℕ)
    (pn : List ℕ) (h : dictGet st.used nbr = some pn) (hz : nbr ≠ z)
    (hm : nbr ∉ zused) :
    visitNbr pf z zused st nbr =
      { st with
        cycles := st.cycles ++
          [predWalk st.pred pn pf ((dictGet st.pred z).getD z)
            (osFromIterable [nbr, z])]
        used := dictUpd st.used nbr (fun s => osAdd s z) [z] } := by
  simp only [visitNbr, h]
  rw [if_neg hz, if_neg hm]

lemma adj_polygon (n i : ℕ) (h1 : i + 1 < n) :
    (polygonG n).adj i = [i + 1, if i = 0 then n - 1 else i - 1] := by
  simp only [polygonG]
  rw [Nat.mod_eq_of_lt h1]
  by_cases h0 : i = 0
  · subst h0
    rw [if_pos rfl, show 0 + n - 1 = n - 1 by omega,
      Nat.mod_eq_of_lt (by omega)]
  · rw [if_neg h0, show i + n - 1 = (i - 1) + n by omega,
      Nat.add_mod_right, Nat.mod_eq_of_lt (by omega)]

lemma step_init (n : ℕ) (hn : 4 ≤ n) (pf : ℕ) :
    dfsStep (polygonG n) pf 0 initPop = phaseSt n (n - 1) := by
  rw [initPop]
  have hadj : (polygonG n).adj 0 = [1, n - 1] := by
    rw [adj_polygon n 0 (by omega), if_pos rfl]
  rw [dfsStep, hadj]
  have h2 : n - 1 ≠ 0 := by omega
  have h3 : n - 1 ≠ 1 := by omega
  rw [phaseSt, polyPred, polyUsed, show n - 1 - (n - 1) = 0 by omega]
  simp [visitNbr, dictGet, dictUpd, descPairs, descUsed, h2, h3]

lemma step_top (n : ℕ) (hn : 4 ≤ n) (pf : ℕ) :
    dfsStep (polygonG n) pf (n - 1) (phasePop n (n - 1)) =
      phaseSt n (n - 2) := by
  have hadj : (polygonG n).adj (n - 1) = [0, n - 2] := by
    simp only [polygonG]
    rw [show n - 1 + 1 = n by omega, Nat.mod_self,
      show n - 1 + n - 1 = (n - 2) + n by omega, Nat.add_mod_right,
      Nat.mod_eq_of_lt (by omega)]
  have hzu : dictGet (polyUsed n (n - 1)) (n - 1) = some [0] := by
    rw [polyUsed_get n (n - 1) (n - 1) hn (by omega) (by omega),
      if_neg (by omega), if_neg (by omega), if_pos rfl]
  have hu0 : dictGet (polyUsed n (n - 1)) 0 = some [] := by
    rw [polyUsed_get n (n - 1) 0 hn (by omega) (by omega), if_pos rfl]
  have hun2 : dictGet (polyUsed n (n - 1)) (n - 2) = none := by
    rw [polyUsed_get n (n - 1) (n - 2) hn (by omega) (by omega),
      if_neg (by omega), if_neg (by omega), if_neg (by omega),
      if_neg (by omega)]
  have hpn2 : dictGet (polyPred n (n - 1)) (n - 2) = none := by
    rw [polyPred_get n (n - 1) (n - 2) hn (by omega) (by omega),
      if_neg (by omega), if_neg (by omega), if_neg (by omega),
      if_neg (by omega)]
  rw [dfsStep, hadj]
  rw [show (dictGet (phasePop n (n - 1)).used (n - 1)).getD [] = [0] from by
    rw [show (phasePop n (n - 1)).used = polyUsed n (n - 1) from rfl, hzu]
    rfl]
  rw [List.foldl_cons, List.foldl_cons, List.foldl_nil]
  rw [visitNbr_skip pf (n - 1) [0] (phasePop n (n - 1)) 0 [] hu0 (by omega)
    (by simp)]
  rw [visitNbr_new pf (n - 1) [0] (phasePop n (n - 1)) (n - 2) hun2]
  rw [show (phasePop n (n - 1)).pred = polyPred n (n - 1) from rfl,
    dictUpd_absent _ _ _ _ hpn2]
  rw [show (phasePop n (n - 1)).used = polyUsed n (n - 1) from rfl,
    dictUpd_absent _ _ _ _ hun2]
  simp [phaseSt, phasePop, polyPred, polyUsed, descPairs, descUsed,
    show n - 1 - (n - 1) = 0 by omega, show n - 1 - (n - 2) = 1 by omega,
    show n - 2 + 1 = n - 1 by omega]

lemma step_mid (n k : ℕ) (hn : 4 ≤ n) (hk : 2 ≤ k) (hkn : k + 1 ≤ n - 2)
    (pf : ℕ) :
    dfsStep (polygonG n) pf (k + 1) (phasePop n (k + 1)) = phaseSt n k := by
  have hadj : (polygonG n).adj (k + 1) = [k + 2, k] := by
    rw [adj_polygon n (k + 1) (by omega), if_neg (by omega)]
    norm_num
  have hzu : dictGet (polyUsed n (k + 1)) (k + 1) = some [k + 2] := by
    rw [polyUsed_get n (k + 1) (k + 1) hn (by omega) (by omega),
      if_neg (by omega), if_neg (by omega), if_neg (by omega),
      if_pos (by omega)]
  have hu2 : dictGet (polyUsed n (k + 1)) (k + 2) =
      some (if k + 2 = n - 1 then [0] else [k + 3]) := by
    by_cases h : k + 2 = n - 1
    · rw [polyUsed_get n (k + 1) (k + 2) hn (by omega) (by omega),
        if_neg (by omega), if_neg (by omega), if_pos h, if_pos h]
    · rw [polyUsed_get n (k + 1) (k + 2) hn (by omega) (by omega),
        if_neg (by omega), if_neg (by omega), if_neg h,
        if_pos (by omega), if_neg h]
  have huk : dictGet (polyUsed n (k + 1)) k = none := by
    rw [polyUsed_get n (k + 1) k hn (by omega) (by omega),
      if_neg (by omega), if_neg (by omega), if_neg (by omega),
      if_neg (by omega)]
  have hpk : dictGet (polyPred n (k + 1)) k = none := by
    rw [polyPred_get n (k + 1) k hn (by omega) (by omega),
      if_neg (by omega), if_neg (by omega), if_neg (by omega),
      if_neg (by omega)]
  rw [dfsStep, hadj]
  rw [show (dictGet (phasePop n (k + 1)).used (k + 1)).getD [] = [k + 2]
    from by
    rw [show (phasePop n (k + 1)).used = polyUsed n (k + 1) from rfl, hzu]
    rfl]
  rw [List.foldl_cons, List.foldl_cons, List.foldl_nil]
  rw [visitNbr_skip pf (k + 1) [k + 2] (phasePop n (k + 1)) (k + 2) _ hu2
    (by omega) (by simp)]
  rw [visitNbr_new pf (k + 1) [k + 2] (phasePop n (k + 1)) k huk]
  rw [show (phasePop n (k + 1)).pred = polyPred n (k + 1) from rfl,
    dictUpd_absent _ _ _ _ hpk]
  rw [show (phasePop n (k + 1)).used = polyUsed n (k + 1) from rfl,
    dictUpd_absent _ _ _ _ huk]
  simp [phaseSt, phasePop, polyPred, polyUsed,
    show n - 1 - k = (n - 1 - (k + 1)) + 1 by omega, descPairs, descUsed]

lemma range_one_concat : ∀ (m s : ℕ),
    List.range' s (m + 1) = List.range' s m ++ [s + m] := by
  intro m
  induction m with
  | zero => intro s; simp
  | succ m ih =>
      intro s
      rw [List.range'_succ s (m + 1) 1, ih (s + 1), List.range'_succ s m 1]
      simp [List.cons_append]
      omega

lemma osAdd_range (m j : ℕ) (hj : j = 1 + m) :
    osAdd (List.range' 1 m) j = List.range' 1 (m + 1) := by
  rw [osAdd, if_neg (by rw [List.mem_range'_1]; omega), range_one_concat, hj]

lemma predWalk_poly (n : ℕ) (hn : 4 ≤ n) :
    ∀ m f, m ≤ n - 4 →
      predWalk (polyPred n 2) [0] (f + m + 2) (n - 1 - m)
        (List.range' 1 (n - 2 - m)) =
      List.range' 1 (n - 1) ++ [0] := by
  intro m
  induction m with
  | zero =>
      intro f _
      simp only [Nat.sub_zero]
      rw [predWalk, if_neg (by simp; omega)]
      rw [osAdd_range (n - 2) (n - 1) (by omega)]
      rw [show n - 2 + 1 = n - 1 by omega]
      rw [show dictGet (polyPred n 2) (n - 1) = some 0 from by
        rw [polyPred_get n 2 (n - 1) hn (by omega) (by omega),
          if_neg (by omega), if_neg (by omega), if_pos (by omega)]]
      rw [show (some 0).getD (n - 1) = 0 from rfl]
      rw [predWalk, if_pos (by simp)]
      rw [osAdd, if_neg (by rw [List.mem_range'_1]; omega)]
  | succ m ih =>
      intro f hm
      rw [predWalk, if_neg (by simp; omega)]
      rw [osAdd_range (n - 2 - (m + 1)) (n - 1 - (m + 1)) (by omega)]
      rw [show n - 2 - (m + 1) + 1 = n - 2 - m by omega]
      rw [show dictGet (polyPred n 2) (n - 1 - (m + 1)) =
          some (n - 1 - (m + 1) + 1) from by
        rw [polyPred_get n 2 (n - 1 - (m + 1)) hn (by omega) (by omega),
          if_neg (by omega), if_neg (by omega), if_neg (by omega),
          if_pos (by omega)]]
      rw [show (some (n - 1 - (m + 1) + 1)).getD (n - 1 - (m + 1)) =
        n - 1 - (m + 1) + 1 from rfl]
      rw [show n - 1 - (m + 1) + 1 = n - 1 - m by omega]
      exact ih f (by omega)

lemma step_cyc (n : ℕ) (hn : 4 ≤ n) (f : ℕ) :
    dfsStep (polygonG n) (f + (n - 4) + 2) 2 (phasePop n 2) = cycSt n := by
  have hadj : (polygonG n).adj 2 = [3, 1] := by
    rw [adj_polygon n 2 (by omega), if_neg (by omega)]
  have hzu : dictGet (polyUsed n 2) 2 = some [3] := by
    rw [polyUsed_get n 2 2 hn (by omega) (by omega),
      if_neg (by omega), if_neg (by omega), if_neg (by omega),
      if_pos (by omega)]
  have hu3 : dictGet (polyUsed n 2) 3 =
      some (if 3 = n - 1 then [0] else [4]) := by
    by_cases h : 3 = n - 1
    · rw [polyUsed_get n 2 3 hn (by omega) (by omega),
        if_neg (by omega), if_neg (by omega), if_pos h, if_pos h]
    · rw [polyUsed_get n 2 3 hn (by omega) (by omega),
        if_neg (by omega), if_neg (by omega), if_neg h,
        if_pos (by omega), if_neg h]
  have hu1 : dictGet (polyUsed n 2) 1 = some [0] := by
    rw [polyUsed_get n 2 1 hn (by omega) (by omega),
      if_neg (by omega), if_pos rfl]
  have hp2 : dictGet (polyPred n 2) 2 = some 3 := by
    rw [polyPred_get n 2 2 hn (by omega) (by omega),
      if_neg (by omega), if_neg (by omega), if_neg (by omega),
      if_pos (by omega)]
  rw [dfsStep, hadj]
  rw [show (dictGet (phasePop n 2).used 2).getD [] = [3] from by
    rw [show (phasePop n 2).used = polyUsed n 2 from rfl, hzu]
    rfl]
  rw [List.foldl_cons, List.foldl_cons, List.foldl_nil]
  rw [visitNbr_skip (f + (n - 4) + 2) 2 [3] (phasePop n 2) 3 _ hu3
    (by omega) (by simp)]
  rw [visitNbr_cycle (f + (n - 4) + 2) 2 [3] (phasePop n 2) 1 [0] hu1
    (by omega) (by simp)]
  rw [show (phasePop n 2).pred = polyPred n 2 from rfl, hp2]
  rw [show (some 3).getD 2 = 3 from rfl]
  rw [show (osFromIterable [1, 2] : List ℕ) = List.range' 1 2 from rfl]
  have hpw := predWalk_poly n hn (n - 4) f (by omega)
  rw [show n - 1 - (n - 4) = 3 by omega,
    show n - 2 - (n - 4) = 2 by omega] at hpw
  rw [hpw]
  rw [cycSt]
  simp only [phasePop, polyUsed, List.cons_append, List.nil_append]
  rw [dictUpd, if_neg (by omega), dictUpd, if_pos rfl]
  simp [osAdd]

lemma step_last (n : ℕ) (hn : 4 ≤ n) (pf : ℕ) :
    dfsStep (polygonG n) pf 1 { cycSt n with stack := [] } =
      { cycSt n with stack := [] } := by
  have hadj : (polygonG n).adj 1 = [2, 0] := by
    rw [adj_polygon n 1 (by omega), if_neg (by omega)]
  have hcu : ({ cycSt n with stack := ([] : List ℕ) } : CBState).used =
      (0, ([] : List ℕ)) :: (1, [0, 2]) :: (n - 1, [0]) ::
        descUsed 2 (n - 1 - 2) := by
    rw [show ({ cycSt n with stack := ([] : List ℕ) } : CBState).used =
      (cycSt n).used from rfl, cycSt]
    simp
  have hzu : dictGet ({ cycSt n with stack := ([] : List ℕ) } :
      CBState).used 1 = some [0, 2] := by
    rw [hcu, dictGet, if_neg (by omega), dictGet, if_pos rfl]
  have hu2 : dictGet ({ cycSt n with stack := ([] : List ℕ) } :
      CBState).used 2 = some [3] := by
    rw [hcu, dictGet, if_neg (by omega), dictGet, if_neg (by omega),
      dictGet, if_neg (by omega), descUsed_get]
    rw [if_pos (by omega)]
  have hu0 : dictGet ({ cycSt n with stack := ([] : List ℕ) } :
      CBState).used 0 = some [] := by
    rw [hcu, dictGet, if_pos rfl]
  rw [dfsStep, hadj]
  rw [show (dictGet ({ cycSt n with stack := ([] : List ℕ) } :
      CBState).used 1).getD [] = [0, 2] from by rw [hzu]; rfl]
  rw [List.foldl_cons, List.foldl_cons, List.foldl_nil]
  rw [visitNbr_skip pf 1 [0, 2] _ 2 [3] hu2 (by omega) (by simp)]
  rw [visitNbr_skip pf 1 [0, 2] _ 0 [] hu0 (by omega) (by simp)]

lemma dfsRun_pop (g : LGraph) (pf : ℕ) (f f' : ℕ) (hf : f = f' + 1)
    (st : CBState) (z : ℕ) (rest : List ℕ) (h : st.stack = z :: rest) :
    dfsRun g pf f st =
      dfsRun g pf f' (dfsStep g pf z { st with stack := rest }) := by
  subst hf
  simp only [dfsRun, h]

lemma dfsRun_halt (g : LGraph) (pf f : ℕ) (st : CBState)
    (h : st.stack = []) : dfsRun g pf f st = st := by
  cases f with
  | zero => rw [dfsRun]
  | succ f => simp only [dfsRun, h]

lemma dfsRun_chain (n : ℕ) (hn : 4 ≤ n) (pf : ℕ) :
    ∀ d f, 2 + d ≤ n - 2 →
      dfsRun (polygonG n) pf (f + d) (phaseSt n (2 + d)) =
        dfsRun (polygonG n) pf f (phaseSt n 2) := by
  intro d
  induction d with
  | zero => intro f _; rfl
  | succ d ih =>
      intro f h
      have hs := step_mid n (2 + d) hn (by omega) (by omega) pf
      rw [phasePop] at hs
      rw [dfsRun_pop (polygonG n) pf (f + (d + 1)) (f + d) rfl
        (phaseSt n (2 + (d + 1))) (2 + (d + 1)) [1] rfl]
      rw [show ({ phaseSt n (2 + (d + 1)) with stack := [1] } : CBState) =
        ({ stack := [1]
           pred := polyPred n (2 + d + 1)
           used := polyUsed n (2 + d + 1)
           cycles := [] } : CBState) from rfl]
      rw [show (2 : ℕ) + (d + 1) = 2 + d + 1 from rfl, hs]
      exact ih f (by omega)

lemma dfsRun_poly (n : ℕ) (hn : 4 ≤ n) :
    dfsRun (polygonG n) (n + 1) (n + 1) initSt =
      { cycSt n with stack := [] } := by
  rw [dfsRun_pop (polygonG n) (n + 1) (n + 1) n rfl initSt 0 [] rfl]
  rw [show ({ initSt with stack := ([] : List ℕ) } : CBState) = initPop
    from rfl]
  rw [step_init n hn (n + 1)]
  rw [dfsRun_pop (polygonG n) (n + 1) n (n - 1) (by omega)
    (phaseSt n (n - 1)) (n - 1) [1] rfl]
  rw [show ({ phaseSt n (n - 1) with stack := [1] } : CBState) =
    phasePop n (n - 1) from rfl]
  rw [step_top n hn (n + 1)]
  have hch := dfsRun_chain n hn (n + 1) (n - 4) 3 (by omega)
  rw [show (3 : ℕ) + (n - 4) = n - 1 by omega] at hch
  rw [show n - 2 = 2 + (n - 4) by omega, hch]
  rw [dfsRun_pop (polygonG n) (n + 1) 3 2 rfl (phaseSt n 2) 2 [1] rfl]
  rw [show ({ phaseSt n 2 with stack := [1] } : CBState) =
    phasePop n 2 from rfl]
  rw [show n + 1 = 3 + (n - 4) + 2 by omega]
  rw [step_cyc n hn 3]
  rw [dfsRun_pop (polygonG n) (3 + (n - 4) + 2) 2 1 rfl (cycSt n) 1 [] rfl]
  rw [step_last n hn (3 + (n - 4) + 2)]
  exact dfsRun_halt _ _ _ _ rfl

lemma cbOuter_nil (g : LGraph) (pf df f : ℕ) (cycles : List (List ℕ)) :
    cbOuter g pf df f [] cycles = cycles := by
  cases f with
  | zero => rw [cbOuter]
  | succ f => rw [cbOuter]

lemma cycle_basis_poly (n : ℕ) (hn : 4 ≤ n) :
    cycle_basis (polygonG n) = [List.range' 1 (n - 1) ++ [0]] := by
  rw [cycle_basis]
  rw [show (polygonG n).nodes = List.range n from rfl]
  rw [List.length_range]
  rw [osFromIterable_of_nodup _ (List.nodup_range n)]
  rw [show List.range n = 0 :: List.range' 1 (n - 1) from by
    rw [List.range_eq_range' n, show n = (n - 1) + 1 by omega,
      List.range'_succ 0 (n - 1) 1]
    simp]
  rw [cbOuter]
  rw [show ({ stack := [0], pred := [(0, 0)], used := [(0, [])], cycles := ([] : List (List ℕ)) } : CBState) = initSt from rfl]
  rw [dfsRun_poly n hn]
  have hfil : (List.range' 1 (n - 1)).filter
      (fun x => (dictGet ({ cycSt n with stack := ([] : List ℕ) } :
        CBState).pred x).isNone) = [] := by
    rw [List.filter_eq_nil]
    intro x hx
    rw [List.mem_range'_1] at hx
    rw [show ({ cycSt n with stack := ([] : List ℕ) } : CBState).pred =
      polyPred n 2 from rfl]
    rw [polyPred_get n 2 x hn (by omega) (by omega)]
    by_cases h0 : x = 0
    · omega
    · rw [if_neg h0]
      by_cases h1 : x = 1
      · rw [if_pos h1]
        simp
      · rw [if_neg h1]
        by_cases h2 : x = n - 1
        · rw [if_pos h2]
          simp
        · rw [if_neg h2, if_pos (by omega)]
          simp
  rw [hfil]
  rw [show ({ cycSt n with stack := ([] : List ℕ) } : CBState).cycles =
    [List.range' 1 (n - 1) ++ [0]] from rfl]
  exact cbOuter_nil _ _ _ _ _

/-- **C10.** For the simple polygon (cycle) graph on `n ≥ 3` nodes,
`cycle_basis` returns exactly one cycle — `[1, 2, …, n-1, 0]` — and that
cycle has all `n` nodes; for the two triangles sharing exactly one edge,
`outer_loop` returns the 4-node outer boundary containing every node of
both triangles instead of raising "Invalid graph". -/
theorem cycle_basis_polygon_outer_loop :
    (∀ n, 3 ≤ n →
      cycle_basis (polygonG n) = [List.range' 1 (n - 1) ++ [0]] ∧
      (List.range' 1 (n - 1) ++ [0]).length = n ∧
      (∀ m, m ∈ List.range' 1 (n - 1) ++ [0] ↔ m < n)) ∧
    outer_loop twoTriG = .ok [1, 3, 2, 0] ∧
    (∀ m, m ∈ ([1, 3, 2, 0] : List ℕ) ↔ m < 4) := by
  refine ⟨fun n hn => ?_, by rfl, fun m => by
    simp only [List.mem_cons, List.not_mem_nil, or_false]
    omega⟩
  have hcb : cycle_basis (polygonG n) = [List.range' 1 (n - 1) ++ [0]] := by
    by_cases h3 : n = 3
    · subst h3
      decide
    · exact cycle_basis_poly n (by omega)
  refine ⟨hcb, ?_, fun m => ?_⟩
  · simp only [List.length_append, List.length_range', List.length_cons,
      List.length_nil]
    omega
  · simp only [List.mem_append, List.mem_range'_1, List.mem_singleton]
    omega

theorem cycle_basis_polygon_witness :
    cycle_basis (polygonG 5) = [List.range' 1 4 ++ [0]] ∧
    (List.range' 1 4 ++ [0]).length = 5 ∧
    (∀ m, m ∈ List.range' 1 4 ++ [0] ↔ m < 5) :=
  cycle_basis_polygon_outer_loop.1 5 (by decide)

/-! ### Lemmas for the final assembly loop (C1) -/

lemma finalLoop_ok_spec (dd : List (Val × Val)) (mapping : List (MKey × Val))
    (sb : Option (List OutEntry)) :
    ∀ (vps : List VPoint) (i : ℕ) (l : List OutEntry),
      finalLoop dd mapping sb i vps = .ok l →
      l.length = vps.length ∧
      ∀ (k : ℕ) (vp : VPoint), vps.get? k = some vp →
        ∃ entry, finalEntry dd mapping vp (i + k) sb = .ok entry ∧
          l.get? k = some entry := by
  intro vps
  induction vps with
  | nil =>
      intro i l h
      simp only [finalLoop, Except.ok.injEq] at h
      subst h
      refine ⟨rfl, fun k vp hk => ?_⟩
      simp at hk
  | cons vp0 rest ih =>
      intro i l h
      cases he : finalEntry dd mapping vp0 i sb with
      | error e =>
          simp only [finalLoop, he] at h
          cases h
      | ok e0 =>
          cases hl : finalLoop dd mapping sb (i + 1) rest with
          | error e =>
              simp only [finalLoop, he, hl] at h
              cases h
          | ok l' =>
              simp only [finalLoop, he, hl, Except.ok.injEq] at h
              subst h
              obtain ⟨hlen, hidx⟩ := ih (i + 1) l' hl
              constructor
              · simp [hlen]
              · intro k vp hk
                cases k with
                | zero =>
                    simp only [List.get?] at hk
                    injection hk with hk
                    subst hk
                    exact ⟨e0, by simpa using he, rfl⟩
                | succ k =>
                    simp only [List.get?] at hk
                    obtain ⟨entry, h1, h2⟩ := hidx k vp hk
                    refine ⟨entry, ?_, h2⟩
                    rw [show i + (k + 1) = i + 1 + k by omega]
                    exact h1

lemma nanAt_finalEntry (dd : List (Val × Val)) (mapping : List (MKey × Val))
    (i : ℕ) (vp : VPoint) (sb : Option (List OutEntry))
    (h : nanAt dd mapping i) :
    finalEntry dd mapping vp i sb = .error (.pointNaN i) := by
  obtain ⟨v, h1, h2⟩ := h
  simp only [finalEntry, h1, h2]

lemma finalEntry_ok_not_nan (dd : List (Val × Val))
    (mapping : List (MKey × Val)) (k : ℕ) (vp : VPoint)
    (sb : Option (List OutEntry)) (e : OutEntry)
    (h : finalEntry dd mapping vp k sb = .ok e) :
    ¬ nanAt dd mapping k := by
  intro hn
  rw [nanAt_finalEntry dd mapping k vp sb hn] at h
  cases h

lemma finalLoop_nan_spec (dd : List (Val × Val)) (mapping : List (MKey × Val))
    (sb : Option (List OutEntry)) :
    ∀ (vps : List VPoint) (i j : ℕ) (vp : VPoint),
      vps.get? j = some vp →
      finalEntry dd mapping vp (i + j) sb = .error (.pointNaN (i + j)) →
      (∀ k, k < j → ∃ vp2 e2, vps.get? k = some vp2 ∧
        finalEntry dd mapping vp2 (i + k) sb = .ok e2) →
      finalLoop dd mapping sb i vps = .error (.pointNaN (i + j)) := by
  intro vps
  induction vps with
  | nil =>
      intro i j vp hj _ _
      simp at hj
  | cons vp0 rest ih =>
      intro i j vp hj hent hok
      cases j with
      | zero =>
          simp only [List.get?] at hj
          injection hj with hj
          subst hj
          have hent' : finalEntry dd mapping vp0 i sb = .error (.pointNaN i) := by
            simpa using hent
          simp [finalLoop, hent']
      | succ j =>
          obtain ⟨vp2, e2, hget0, hok0⟩ := hok 0 (Nat.succ_pos j)
          simp only [List.get?] at hget0
          injection hget0 with hget0
          subst hget0
          have hok0' : finalEntry dd mapping vp0 i sb = .ok e2 := by
            simpa using hok0
          have hrec := ih (i + 1) j vp (by simpa using hj)
            (by rw [show i + 1 + j = i + (j + 1) by omega]; exact hent)
            (fun k hk => by
              obtain ⟨vp3, e3, hg, ho⟩ := hok (k + 1) (by omega)
              refine ⟨vp3, e3, by simpa using hg, ?_⟩
              rw [show i + 1 + k = i + (k + 1) by omega]
              exact ho)
          rw [show i + (j + 1) = i + 1 + j by omega]
          simp only [finalLoop, hok0', hrec]

/-- **C1.** `expr_solving` never returns a partial result: (1) whenever it
succeeds, the returned list has exactly one entry per joint and no joint's
closed-form data-dictionary entry is the NaN pair, and the whole call is
the final assembly loop applied after the earlier stages; (2) on success
the final loop yields the per-joint entries in joint-index order; (3) if
the data-dictionary entry of joint `j` is the NaN pair and every earlier
joint assembles, the call fails with `"result contains failure: Point{j}"`
naming that joint. -/
theorem expr_solving_complete
    (bfgs : List VPoint → List (MKey × Val) → Except Unit (List OutEntry))
    (exprs : List Expr) (mapping : List (MKey × Val))
    (vpoints : List VPoint) (angles : List ℝ) :
    (∀ dd, exprSolveDict exprs mapping vpoints angles = .ok dd →
      (∀ l, expr_solving bfgs exprs mapping vpoints angles = .ok l →
        l.length = vpoints.length ∧
        ∀ k, k < vpoints.length → ¬ nanAt dd mapping k) ∧
      (∀ pdd hns sb, collectPdd mapping dd 0 vpoints [] false = .ok (pdd, hns) →
        sbStage bfgs vpoints mapping pdd hns = .ok sb →
        expr_solving bfgs exprs mapping vpoints angles =
          finalLoop dd mapping sb 0 vpoints)) ∧
    (∀ dd sb l, finalLoop dd mapping sb 0 vpoints = .ok l →
      l.length = vpoints.length ∧
      ∀ (k : ℕ) (vp : VPoint), vpoints.get? k = some vp →
        ∃ entry, finalEntry dd mapping vp k sb = .ok entry ∧
          l.get? k = some entry) ∧
    (∀ dd sb (j : ℕ) (vp : VPoint), vpoints.get? j = some vp →
      nanAt dd mapping j →
      (∀ k, k < j → ∃ vp2 e2, vpoints.get? k = some vp2 ∧
        finalEntry dd mapping vp2 k sb = .ok e2) →
      finalLoop dd mapping sb 0 vpoints = .error (.pointNaN j) ∧
      perrMsg (.pointNaN j) = "result contains failure: Point" ++ toString j) := by
  refine ⟨?_, ?_, ?_⟩
  · intro dd hdd
    constructor
    · intro l hl
      simp only [expr_solving, hdd] at hl
      cases hcp : collectPdd mapping dd 0 vpoints [] false with
      | error e => simp only [hcp] at hl; cases hl
      | ok pr =>
          obtain ⟨pdd, hns⟩ := pr
          simp only [hcp] at hl
          cases hsb : sbStage bfgs vpoints mapping pdd hns with
          | error e => simp only [hsb] at hl; cases hl
          | ok sb =>
              simp only [hsb] at hl
              obtain ⟨hlen, hidx⟩ := finalLoop_ok_spec dd mapping sb vpoints 0 l hl
              refine ⟨hlen, fun k hk => ?_⟩
              have hget : ∃ vp, vpoints.get? k = some vp := by
                cases hg : vpoints.get? k with
                | none =>
                    rw [List.get?_eq_none] at hg
                    omega
                | some vp => exact ⟨vp, rfl⟩
              obtain ⟨vp, hvp⟩ := hget
              obtain ⟨entry, hent, _⟩ := hidx k vp hvp
              exact finalEntry_ok_not_nan dd mapping k vp sb entry
                (by simpa using hent)
    · intro pdd hns sb hcp hsb
      simp only [expr_solving, hdd, hcp, hsb]
  · intro dd sb l hl
    obtain ⟨hlen, hidx⟩ := finalLoop_ok_spec dd mapping sb vpoints 0 l hl
    refine ⟨hlen, fun k vp hvp => ?_⟩
    obtain ⟨entry, h1, h2⟩ := hidx k vp hvp
    exact ⟨entry, by simpa using h1, h2⟩
  · intro dd sb j vp hj hnan hok
    refine ⟨?_, rfl⟩
    have := finalLoop_nan_spec dd mapping sb vpoints 0 j vp hj
      (by simpa using nanAt_finalEntry dd mapping j vp sb hnan)
      (fun k hk => by simpa using hok k hk)
    simpa using this

lemma posGetE_nie (pos : List Pt) (n : ℕ) (e : PErr)
    (h : posGetE pos n = .error e) : nonInputErr e = true := by
  cases hg : pos.get? n with
  | some p => simp only [posGetE, hg] at h; cases h
  | none =>
      simp only [posGetE, hg] at h
      injection h with h
      subst h
      rfl

lemma mrGetE_nie (mr : List (Val × ℕ)) (s : String) (e : PErr)
    (h : mrGetE mr s = .error e) : nonInputErr e = true := by
  cases hg : mrGet mr (.vsym s) with
  | some n => simp only [mrGetE, hg] at h; cases h
  | none =>
      simp only [mrGetE, hg] at h
      injection h with h
      subst h
      rfl

lemma lengthOr_nie (len : List ((ℕ × ℕ) × Val)) (pos : List Pt) (a b : ℕ)
    (e : PErr) (h : lengthOr len pos a b = .error e) : nonInputErr e = true := by
  cases hg : dictGet len (pairKey a b) with
  | some v => simp only [lengthOr, hg] at h; cases h
  | none =>
      simp only [lengthOr, hg] at h
      cases h1 : posGetE pos a with
      | error e1 =>
          simp only [h1] at h
          injection h with h
          subst h
          exact posGetE_nie pos a _ h1
      | ok pa =>
          simp only [h1] at h
          cases h2 : posGetE pos b with
          | error e2 =>
              simp only [h2] at h
              injection h with h
              subst h
              exact posGetE_nie pos b _ h2
          | ok pb => simp only [h2] at h; cases h

lemma seedPoint_nie (dd : List (Val × Val)) (mr : List (Val × ℕ))
    (pos : List Pt) (s : String) (e : PErr)
    (h : seedPoint dd mr pos s = .error e) : nonInputErr e = true := by
  by_cases hs : (ddGet dd (.vsym s)).isSome
  · rw [seedPoint, if_pos hs] at h; cases h
  · rw [seedPoint, if_neg hs] at h
    cases h1 : mrGetE mr s with
    | error e1 =>
        simp only [h1] at h
        injection h with h
        subst h
        exact mrGetE_nie mr s _ h1
    | ok n =>
        simp only [h1] at h
        cases h2 : posGetE pos n with
        | error e2 =>
            simp only [h2] at h
            injection h with h
            subst h
            exact posGetE_nie pos n _ h2
        | ok p => simp only [h2] at h; cases h

lemma countInput_cons_in (e : Expr) (rest : List Expr)
    (h : e.func = ExprFunc.PLA ∨ e.func = ExprFunc.PLAP) :
    countInput (e :: rest) = countInput rest + 1 := by
  rcases h with h | h <;>
    simp [countInput, List.filter_cons, h]

lemma countInput_cons_out (e : Expr) (rest : List Expr)
    (h : ¬ (e.func = ExprFunc.PLA ∨ e.func = ExprFunc.PLAP)) :
    countInput (e :: rest) = countInput rest := by
  simp [countInput, List.filter_cons, h]

lemma dcExprGo_res (mapping : List (MKey × Val)) (mr : List (Val × ℕ))
    (len : List ((ℕ × ℕ) × Val)) (pos : List Pt) :
    ∀ (exprs : List Expr) (dd : List (Val × Val)) (dof : ℕ),
      (∃ e, dcExprGo mapping mr len pos exprs dd dof = .error e ∧
        nonInputErr e = true) ∨
      (∃ dd2, dcExprGo mapping mr len pos exprs dd dof =
        .ok (dd2, dof + countInput exprs)) := by
  intro exprs
  induction exprs with
  | nil =>
      intro dd dof
      exact Or.inr ⟨dd, by simp [dcExprGo, countInput]⟩
  | cons ex rest ih =>
      intro dd dof
      cases h1 : mrGetE mr (symbol_str ex.c1) with
      | error e1 =>
          exact Or.inl ⟨e1, by simp only [dcExprGo, h1], mrGetE_nie _ _ _ h1⟩
      | ok node =>
      cases h2 : seedPoint dd mr pos (symbol_str ex.c1) with
      | error e2 =>
          exact Or.inl ⟨e2, by simp only [dcExprGo, h1, h2],
            seedPoint_nie _ _ _ _ _ h2⟩
      | ok dd1 =>
      cases hf : ex.func with
      | PLA =>
          cases h3 : mrGetE mr (symbol_str ex.c2) with
          | error e3 =>
              exact Or.inl ⟨e3, by simp only [dcExprGo, h1, h2, hf, h3],
                mrGetE_nie _ _ _ h3⟩
          | ok target =>
          cases h4 : lengthOr len pos node target with
          | error e4 =>
              exact Or.inl ⟨e4, by simp only [dcExprGo, h1, h2, hf, h3, h4],
                lengthOr_nie _ _ _ _ _ h4⟩
          | ok v1 =>
          rcases ih (ddSet dd1 (.vsym (symbol_str ex.v1)) v1) (dof + 1) with
            ⟨e, he, hnie⟩ | ⟨dd2, hok⟩
          · exact Or.inl ⟨e,
              by simp only [dcExprGo, h1, h2, hf, h3, h4]; exact he, hnie⟩
          · refine Or.inr ⟨dd2, ?_⟩
            simp only [dcExprGo, h1, h2, hf, h3, h4]
            rw [countInput_cons_in ex rest (Or.inl hf),
              show dof + (countInput rest + 1) = dof + 1 + countInput rest
                by omega]
            exact hok
      | PLAP =>
          cases h3 : mrGetE mr (symbol_str ex.c3) with
          | error e3 =>
              exact Or.inl ⟨e3, by simp only [dcExprGo, h1, h2, hf, h3],
                mrGetE_nie _ _ _ h3⟩
          | ok target =>
          cases h4 : lengthOr len pos node target with
          | error e4 =>
              exact Or.inl ⟨e4, by simp only [dcExprGo, h1, h2, hf, h3, h4],
                lengthOr_nie _ _ _ _ _ h4⟩
          | ok v1 =>
          cases h5 : seedPoint (ddSet dd1 (.vsym (symbol_str ex.v1)) v1) mr pos
              (symbol_str ex.c2) with
          | error e5 =>
              exact Or.inl ⟨e5,
                by simp only [dcExprGo, h1, h2, hf, h3, h4, h5],
                seedPoint_nie _ _ _ _ _ h5⟩
          | ok ddn =>
          rcases ih ddn (dof + 1) with ⟨e, he, hnie⟩ | ⟨dd2, hok⟩
          · exact Or.inl ⟨e,
              by simp only [dcExprGo, h1, h2, hf, h3, h4, h5]; exact he, hnie⟩
          · refine Or.inr ⟨dd2, ?_⟩
            simp only [dcExprGo, h1, h2, hf, h3, h4, h5]
            rw [countInput_cons_in ex rest (Or.inr hf),
              show dof + (countInput rest + 1) = dof + 1 + countInput rest
                by omega]
            exact hok
      | PLLP =>
          cases h3 : mrGetE mr (symbol_str ex.c3) with
          | error e3 =>
              exact Or.inl ⟨e3, by simp only [dcExprGo, h1, h2, hf, h3],
                mrGetE_nie _ _ _ h3⟩
          | ok target =>
          cases h4 : lengthOr len pos node target with
          | error e4 =>
              exact Or.inl ⟨e4, by simp only [dcExprGo, h1, h2, hf, h3, h4],
                lengthOr_nie _ _ _ _ _ h4⟩
          | ok v1 =>
          cases h5 : mrGetE mr (symbol_str ex.c2) with
          | error e5 =>
              exact Or.inl ⟨e5,
                by simp only [dcExprGo, h1, h2, hf, h3, h4, h5],
                mrGetE_nie _ _ _ h5⟩
          | ok mc2 =>
          cases h6 : lengthOr len pos mc2 target with
          | error e6 =>
              exact Or.inl ⟨e6,
                by simp only [dcExprGo, h1, h2, hf, h3, h4, h5, h6],
                lengthOr_nie _ _ _ _ _ h6⟩
          | ok v2 =>
          cases h7 : seedPoint
              (ddSet (ddSet dd1 (.vsym (symbol_str ex.v1)) v1)
                (.vsym (symbol_str ex.v2)) v2) mr pos (symbol_str ex.c2) with
          | error e7 =>
              exact Or.inl ⟨e7,
                by simp only [dcExprGo, h1, h2, hf, h3, h4, h5, h6, h7],
                seedPoint_nie _ _ _ _ _ h7⟩
          | ok ddn =>
          rcases ih ddn dof with ⟨e, he, hnie⟩ | ⟨dd2, hok⟩
          · exact Or.inl ⟨e,
              by simp only [dcExprGo, h1, h2, hf, h3, h4, h5, h6, h7]
                 exact he, hnie⟩
          · refine Or.inr ⟨dd2, ?_⟩
            simp only [dcExprGo, h1, h2, hf, h3, h4, h5, h6, h7]
            rw [countInput_cons_out ex rest (by simp [hf])]
            exact hok
      | PLPP =>
          cases h3 : mrGetE mr (symbol_str ex.c4) with
          | error e3 =>
              exact Or.inl ⟨e3, by simp only [dcExprGo, h1, h2, hf, h3],
                mrGetE_nie _ _ _ h3⟩
          | ok target =>
          cases h4 : lengthOr len pos node target with
          | error e4 =>
              exact Or.inl ⟨e4, by simp only [dcExprGo, h1, h2, hf, h3, h4],
                lengthOr_nie _ _ _ _ _ h4⟩
          | ok v1 =>
          cases h5 : seedPoint (ddSet dd1 (.vsym (symbol_str ex.v1)) v1) mr pos
              (symbol_str ex.c2) with
          | error e5 =>
              exact Or.inl ⟨e5,
                by simp only [dcExprGo, h1, h2, hf, h3, h4, h5],
                seedPoint_nie _ _ _ _ _ h5⟩
          | ok ddn =>
          rcases ih ddn dof with ⟨e, he, hnie⟩ | ⟨dd2, hok⟩
          · exact Or.inl ⟨e,
              by simp only [dcExprGo, h1, h2, hf, h3, h4, h5]; exact he, hnie⟩
          · refine Or.inr ⟨dd2, ?_⟩
            simp only [dcExprGo, h1, h2, hf, h3, h4, h5]
            rw [countInput_cons_out ex rest (by simp [hf])]
            exact hok
      | PXY =>
          cases h3 : mrGetE mr (symbol_str ex.c2) with
          | error e3 =>
              exact Or.inl ⟨e3, by simp only [dcExprGo, h1, h2, hf, h3],
                mrGetE_nie _ _ _ h3⟩
          | ok target =>
          cases hb1 : dictGet mapping (MKey.strk (symbol_str ex.v1)) with
          | none =>
              cases hp1 : posGetE pos target with
              | error ep =>
                  exact Or.inl ⟨ep,
                    by simp only [dcExprGo, h1, h2, hf, h3, hb1, hp1],
                    posGetE_nie _ _ _ hp1⟩
              | ok pt =>
              cases hp2 : posGetE pos node with
              | error ep =>
                  exact Or.inl ⟨ep,
                    by simp only [dcExprGo, h1, h2, hf, h3, hb1, hp1, hp2],
                    posGetE_nie _ _ _ hp2⟩
              | ok pn =>
              cases hb2 : dictGet mapping (MKey.strk (symbol_str ex.v2)) with
              | none =>
                  rcases ih
                      (ddSet (ddSet dd1 (.vsym (symbol_str ex.v1))
                          (Val.vnum (pt.1 - pn.1)))
                        (.vsym (symbol_str ex.v2)) (Val.vnum (pt.2 - pn.2)))
                      dof with ⟨e, he, hnie⟩ | ⟨dd2, hok⟩
                  · exact Or.inl ⟨e,
                      by simp only [dcExprGo, h1, h2, hf, h3, hb1, hp1, hp2,
                           hb2]
                         exact he, hnie⟩
                  · refine Or.inr ⟨dd2, ?_⟩
                    simp only [dcExprGo, h1, h2, hf, h3, hb1, hp1, hp2, hb2]
                    rw [countInput_cons_out ex rest (by simp [hf])]
                    exact hok
              | some yv =>
                  rcases ih
                      (ddSet (ddSet dd1 (.vsym (symbol_str ex.v1))
                          (Val.vnum (pt.1 - pn.1)))
                        (.vsym (symbol_str ex.v2)) yv)
                      dof with ⟨e, he, hnie⟩ | ⟨dd2, hok⟩
                  · exact Or.inl ⟨e,
                      by simp only [dcExprGo, h1, h2, hf, h3, hb1, hp1, hp2,
                           hb2]
                         exact he, hnie⟩
                  · refine Or.inr ⟨dd2, ?_⟩
                    simp only [dcExprGo, h1, h2, hf, h3, hb1, hp1, hp2, hb2]
                    rw [countInput_cons_out ex rest (by simp [hf])]
                    exact hok
          | some xv =>
              cases hb2 : dictGet mapping (MKey.strk (symbol_str ex.v2)) with
              | none =>
                  cases hp1 : posGetE pos target with
                  | error ep =>
                      exact Or.inl ⟨ep,
                        by simp only [dcExprGo, h1, h2, hf, h3, hb1, hb2, hp1],
                        posGetE_nie _ _ _ hp1⟩
                  | ok pt =>
                  cases hp2 : posGetE pos node with
                  | error ep =>
                      exact Or.inl ⟨ep,
                        by simp only [dcExprGo, h1, h2, hf, h3, hb1, hb2, hp1,
                             hp2],
                        posGetE_nie _ _ _ hp2⟩
                  | ok pn =>
                  rcases ih
                      (ddSet (ddSet dd1 (.vsym (symbol_str ex.v1)) xv)
                        (.vsym (symbol_str ex.v2)) (Val.vnum (pt.2 - pn.2)))
                      dof with ⟨e, he, hnie⟩ | ⟨dd2, hok⟩
                  · exact Or.inl ⟨e,
                      by simp only [dcExprGo, h1, h2, hf, h3, hb1, hb2, hp1,
                           hp2]
                         exact he, hnie⟩
                  · refine Or.inr ⟨dd2, ?_⟩
                    simp only [dcExprGo, h1, h2, hf, h3, hb1, hb2, hp1, hp2]
                    rw [countInput_cons_out ex rest (by simp [hf])]
                    exact hok
              | some yv =>
                  rcases ih
                      (ddSet (ddSet dd1 (.vsym (symbol_str ex.v1)) xv)
                        (.vsym (symbol_str ex.v2)) yv)
                      dof with ⟨e, he, hnie⟩ | ⟨dd2, hok⟩
                  · exact Or.inl ⟨e,
                      by simp only [dcExprGo, h1, h2, hf, h3, hb1, hb2]
                         exact he, hnie⟩
                  · refine Or.inr ⟨dd2, ?_⟩
                    simp only [dcExprGo, h1, h2, hf, h3, hb1, hb2]
                    rw [countInput_cons_out ex rest (by simp [hf])]
                    exact hok

lemma dcExprGo_nie (mapping : List (MKey × Val)) (mr : List (Val × ℕ))
    (len : List ((ℕ × ℕ) × Val)) (pos : List Pt) (exprs : List Expr)
    (dd : List (Val × Val)) (dof : ℕ) (e : PErr)
    (h : dcExprGo mapping mr len pos exprs dd dof = .error e) :
    nonInputErr e = true := by
  rcases dcExprGo_res mapping mr len pos exprs dd dof with
    ⟨e1, he1, hnie⟩ | ⟨dd2, hok⟩
  · rw [h] at he1
    injection he1 with he1
    subst he1
    exact hnie
  · rw [h] at hok
    cases hok

lemma dcExprGo_dof (mapping : List (MKey × Val)) (mr : List (Val × ℕ))
    (len : List ((ℕ × ℕ) × Val)) (pos : List Pt) (exprs : List Expr)
    (dd dd2 : List (Val × Val)) (dof dof2 : ℕ)
    (h : dcExprGo mapping mr len pos exprs dd dof = .ok (dd2, dof2)) :
    dof2 = dof + countInput exprs := by
  rcases dcExprGo_res mapping mr len pos exprs dd dof with
    ⟨e1, he1, _⟩ | ⟨dd3, hok⟩
  · rw [h] at he1
    cases he1
  · rw [h] at hok
    injection hok with hok
    injection hok with ha hb

lemma dcGroundedGo_nie (mapping : List (MKey × Val)) :
    ∀ (vps : List VPoint) (i : ℕ) (dd : List (Val × Val)) (e : PErr),
      dcGroundedGo mapping i vps dd = .error e → nonInputErr e = true := by
  intro vps
  induction vps with
  | nil =>
      intro i dd e h
      simp only [dcGroundedGo] at h
      cases h
  | cons vp rest ih =>
      intro i dd e h
      simp only [dcGroundedGo] at h
      by_cases hg : vp.grounded = true ∧ vp.type = VJoint.R
      · rw [if_pos hg] at h
        cases hd : dictGet mapping (MKey.idx i) with
        | none =>
            simp only [hd] at h
            injection h with h
            subst h
            rfl
        | some mv =>
            simp only [hd] at h
            exact ih _ _ _ h
      · rw [if_neg hg] at h
        exact ih _ _ _ h

lemma data_collecting_nie (exprs : List Expr) (mapping : List (MKey × Val))
    (vpoints_ : List VPoint) (e : PErr)
    (h : data_collecting exprs mapping vpoints_ = .error e) :
    nonInputErr e = true := by
  simp only [data_collecting] at h
  split at h
  · rename_i e1 heq
    injection h with h
    subst h
    exact dcExprGo_nie _ _ _ _ _ _ _ _ heq
  · rename_i dd1 dof1 heq
    split at h
    · rename_i e2 heq2
      injection h with h
      subst h
      exact dcGroundedGo_nie _ _ _ _ _ heq2
    · cases h

lemma data_collecting_dof (exprs : List Expr) (mapping : List (MKey × Val))
    (vpoints_ : List VPoint) (dd : List (Val × Val)) (dof : ℕ)
    (h : data_collecting exprs mapping vpoints_ = .ok (dd, dof)) :
    dof = countInput exprs := by
  simp only [data_collecting] at h
  split at h
  · cases h
  · rename_i dd1 dof1 heq
    split at h
    · cases h
    · rename_i dd2 heq2
      injection h with h
      injection h with ha hb
      subst hb
      have := dcExprGo_dof _ _ _ _ _ _ _ _ _ heq
      omega

lemma vpGetE_nie (vps : List VPoint) (n : ℕ) (e : PErr)
    (h : vpGetE vps n = .error e) : nonInputErr e = true := by
  cases hg : vps.get? n with
  | some vp => simp only [vpGetE, hg] at h; cases h
  | none =>
      simp only [vpGetE, hg] at h
      injection h with h
      subst h
      rfl

lemma driverCheck_nie (mr : List (Val × ℕ)) (vpoints : List VPoint) :
    ∀ (exprs : List Expr) (e : PErr),
      driverCheck mr vpoints exprs = .error e → nonInputErr e = true := by
  intro exprs
  induction exprs with
  | nil => intro e h; simp only [driverCheck] at h; cases h
  | cons ex rest ih =>
      intro e h
      cases hf : ex.func with
      | PLA =>
          simp only [driverCheck, hf] at h
          cases h3 : mrGetE mr (symbol_str ex.c2) with
          | error e3 =>
              simp only [h3] at h
              injection h with h
              subst h
              exact mrGetE_nie _ _ _ h3
          | ok target =>
          simp only [h3] at h
          cases h4 : mrGetE mr (symbol_str ex.c1) with
          | error e4 =>
              simp only [h4] at h
              injection h with h
              subst h
              exact mrGetE_nie _ _ _ h4
          | ok b =>
          simp only [h4] at h
          cases h5 : vpGetE vpoints b with
          | error e5 =>
              simp only [h5] at h
              injection h with h
              subst h
              exact vpGetE_nie _ _ _ h5
          | ok vb =>
          simp only [h5] at h
          by_cases hgb : vb.grounded = false
          · rw [if_pos hgb] at h
            exact ih _ h
          · rw [if_neg hgb] at h
            cases h6 : vpGetE vpoints target with
            | error e6 =>
                simp only [h6] at h
                injection h with h
                subst h
                exact vpGetE_nie _ _ _ h6
            | ok vt =>
            simp only [h6] at h
            by_cases hgt : vt.grounded = true
            · rw [if_pos hgt] at h
              injection h with h
              subst h
              rfl
            · rw [if_neg hgt] at h
              exact ih _ h
      | PLAP =>
          simp only [driverCheck, hf] at h
          cases h3 : mrGetE mr (symbol_str ex.c3) with
          | error e3 =>
              simp only [h3] at h
              injection h with h
              subst h
              exact mrGetE_nie _ _ _ h3
          | ok target =>
          simp only [h3] at h
          cases h4 : mrGetE mr (symbol_str ex.c1) with
          | error e4 =>
              simp only [h4] at h
              injection h with h
              subst h
              exact mrGetE_nie _ _ _ h4
          | ok b =>
          simp only [h4] at h
          cases h5 : vpGetE vpoints b with
          | error e5 =>
              simp only [h5] at h
              injection h with h
              subst h
              exact vpGetE_nie _ _ _ h5
          | ok vb =>
          simp only [h5] at h
          by_cases hgb : vb.grounded = false
          · rw [if_pos hgb] at h
            exact ih _ h
          · rw [if_neg hgb] at h
            cases h6 : vpGetE vpoints target with
            | error e6 =>
                simp only [h6] at h
                injection h with h
                subst h
                exact vpGetE_nie _ _ _ h6
            | ok vt =>
            simp only [h6] at h
            by_cases hgt : vt.grounded = true
            · rw [if_pos hgt] at h
              injection h with h
              subst h
              rfl
            · rw [if_neg hgt] at h
              exact ih _ h
      | PLLP => simp only [driverCheck, hf] at h; exact ih _ h
      | PLPP => simp only [driverCheck, hf] at h; exact ih _ h
      | PXY => simp only [driverCheck, hf] at h; exact ih _ h

lemma ddGetPt_nie (dd : List (Val × Val)) (str : String) (e : PErr)
    (h : ddGetPt dd str = .error e) : nonInputErr e = true := by
  cases hg : ddGet dd (.vsym str) with
  | none =>
      simp only [ddGetPt, hg] at h
      injection h with h
      subst h
      rfl
  | some v =>
      cases v with
      | vpt p => simp only [ddGetPt, hg] at h; cases h
      | vnanpt => simp only [ddGetPt, hg] at h; cases h
      | vsym a =>
          simp only [ddGetPt, hg] at h
          injection h with h
          subst h
          rfl
      | vnum r =>
          simp only [ddGetPt, hg] at h
          injection h with h
          subst h
          rfl

lemma ddGetNum_nie (dd : List (Val × Val)) (str : String) (e : PErr)
    (h : ddGetNum dd str = .error e) : nonInputErr e = true := by
  cases hg : ddGet dd (.vsym str) with
  | none =>
      simp only [ddGetNum, hg] at h
      injection h with h
      subst h
      rfl
  | some v =>
      cases v with
      | vnum r => simp only [ddGetNum, hg] at h; cases h
      | vsym a =>
          simp only [ddGetNum, hg] at h
          injection h with h
          subst h
          rfl
      | vpt p =>
          simp only [ddGetNum, hg] at h
          injection h with h
          subst h
          rfl
      | vnanpt =>
          simp only [ddGetNum, hg] at h
          injection h with h
          subst h
          rfl

lemma evalExpr_nie (e0 : Expr) (dd : List (Val × Val)) (e : PErr)
    (h : evalExpr e0 dd = .error e) : nonInputErr e = true := by
  cases hf : e0.func with
  | PLA =>
      simp only [evalExpr, hf] at h
      cases h1 : ddGetPt dd (symbol_str e0.c1) with
      | error e1 =>
          simp only [h1] at h
          injection h with h
          subst h
          exact ddGetPt_nie _ _ _ h1
      | ok c1pt =>
      simp only [h1] at h
      cases h2 : ddGetNum dd (symbol_str e0.v1) with
      | error e2 =>
          simp only [h2] at h
          injection h with h
          subst h
          exact ddGetNum_nie _ _ _ h2
      | ok d0 =>
      simp only [h2] at h
      cases h3 : ddGetNum dd (symbol_str e0.v2) with
      | error e3 =>
          simp only [h3] at h
          injection h with h
          subst h
          exact ddGetNum_nie _ _ _ h3
      | ok a0 => simp only [h3] at h; cases h
  | PLAP =>
      simp only [evalExpr, hf] at h
      cases h1 : ddGetPt dd (symbol_str e0.c1) with
      | error e1 =>
          simp only [h1] at h
          injection h with h
          subst h
          exact ddGetPt_nie _ _ _ h1
      | ok c1pt =>
      simp only [h1] at h
      cases h2 : ddGetPt dd (symbol_str e0.c2) with
      | error e2 =>
          simp only [h2] at h
          injection h with h
          subst h
          exact ddGetPt_nie _ _ _ h2
      | ok c2pt =>
      simp only [h2] at h
      cases h3 : ddGetNum dd (symbol_str e0.v1) with
      | error e3 =>
          simp only [h3] at h
          injection h with h
          subst h
          exact ddGetNum_nie _ _ _ h3
      | ok d0 =>
      simp only [h3] at h
      cases h4 : ddGetNum dd (symbol_str e0.v2) with
      | error e4 =>
          simp only [h4] at h
          injection h with h
          subst h
          exact ddGetNum_nie _ _ _ h4
      | ok a0 =>
      simp only [h4] at h
      rcases c1pt with _ | c1 <;> rcases c2pt with _ | c2 <;> simp at h
  | PLLP =>
      simp only [evalExpr, hf] at h
      cases h1 : ddGetPt dd (symbol_str e0.c1) with
      | error e1 =>
          simp only [h1] at h
          injection h with h
          subst h
          exact ddGetPt_nie _ _ _ h1
      | ok c1pt =>
      simp only [h1] at h
      cases h2 : ddGetPt dd (symbol_str e0.c2) with
      | error e2 =>
          simp only [h2] at h
          injection h with h
          subst h
          exact ddGetPt_nie _ _ _ h2
      | ok c2pt =>
      simp only [h2] at h
      cases h3 : ddGetNum dd (symbol_str e0.v1) with
      | error e3 =>
          simp only [h3] at h
          injection h with h
          subst h
          exact ddGetNum_nie _ _ _ h3
      | ok d0 =>
      simp only [h3] at h
      cases h4 : ddGetNum dd (symbol_str e0.v2) with
      | error e4 =>
          simp only [h4] at h
          injection h with h
          subst h
          exact ddGetNum_nie _ _ _ h4
      | ok d1 =>
      simp only [h4] at h
      rcases c1pt with _ | c1 <;> rcases c2pt with _ | c2 <;> simp at h
  | PLPP =>
      simp only [evalExpr, hf] at h
      cases h1 : ddGetPt dd (symbol_str e0.c1) with
      | error e1 =>
          simp only [h1] at h
          injection h with h
          subst h
          exact ddGetPt_nie _ _ _ h1
      | ok c1pt =>
      simp only [h1] at h
      cases h2 : ddGetPt dd (symbol_str e0.c2) with
      | error e2 =>
          simp only [h2] at h
          injection h with h
          subst h
          exact ddGetPt_nie _ _ _ h2
      | ok c2pt =>
      simp only [h2] at h
      cases h3 : ddGetPt dd (symbol_str e0.c3) with
      | error e3 =>
          simp only [h3] at h
          injection h with h
          subst h
          exact ddGetPt_nie _ _ _ h3
      | ok c3pt =>
      simp only [h3] at h
      cases h4 : ddGetNum dd (symbol_str e0.v1) with
      | error e4 =>
          simp only [h4] at h
          injection h with h
          subst h
          exact ddGetNum_nie _ _ _ h4
      | ok d0 =>
      simp only [h4] at h
      rcases c1pt with _ | c1 <;> rcases c2pt with _ | c2 <;>
        rcases c3pt with _ | c3 <;> simp at h
  | PXY =>
      simp only [evalExpr, hf] at h
      cases h1 : ddGetPt dd (symbol_str e0.c1) with
      | error e1 =>
          simp only [h1] at h
          injection h with h
          subst h
          exact ddGetPt_nie _ _ _ h1
      | ok c1pt =>
      simp only [h1] at h
      cases h2 : ddGetNum dd (symbol_str e0.v1) with
      | error e2 =>
          simp only [h2] at h
          injection h with h
          subst h
          exact ddGetNum_nie _ _ _ h2
      | ok x =>
      simp only [h2] at h
      cases h3 : ddGetNum dd (symbol_str e0.v2) with
      | error e3 =>
          simp only [h3] at h
          injection h with h
          subst h
          exact ddGetNum_nie _ _ _ h3
      | ok y => simp only [h3] at h; cases h

lemma expr_parse_nie :
    ∀ (exprs : List Expr) (dd : List (Val × Val)) (e : PErr),
      expr_parse exprs dd = .error e → nonInputErr e = true := by
  intro exprs
  induction exprs with
  | nil =>
      intro dd e h
      simp only [expr_parse] at h
      cases h
  | cons ex rest ih =>
      intro dd e h
      cases h1 : evalExpr ex dd with
      | error e1 =>
          simp only [expr_parse, h1] at h
          injection h with h
          subst h
          exact evalExpr_nie _ _ _ h1
      | ok pr =>
          obtain ⟨target, res⟩ := pr
          simp only [expr_parse, h1] at h
          exact ih _ _ h

lemma collectPdd_nie (mapping : List (MKey × Val)) (dd : List (Val × Val)) :
    ∀ (vps : List VPoint) (i : ℕ) (pdd : List (MKey × Val)) (hns : Bool)
      (e : PErr), collectPdd mapping dd i vps pdd hns = .error e →
      nonInputErr e = true := by
  intro vps
  induction vps with
  | nil =>
      intro i pdd hns e h
      simp only [collectPdd] at h
      cases h
  | cons vp rest ih =>
      intro i pdd hns e h
      cases hd : dictGet mapping (MKey.idx i) with
      | none =>
          simp only [collectPdd, hd] at h
          injection h with h
          subst h
          rfl
      | some mv =>
          simp only [collectPdd, hd] at h
          cases hg : ddGet dd mv with
          | some dv =>
              simp only [hg] at h
              exact ih _ _ _ _ h
          | none =>
              simp only [hg] at h
              exact ih _ _ _ _ h

lemma sbStage_nie
    (bfgs : List VPoint → List (MKey × Val) → Except Unit (List OutEntry))
    (vpoints : List VPoint) (mapping : List (MKey × Val))
    (pdd : List (MKey × Val)) (hns : Bool) (e : PErr)
    (h : sbStage bfgs vpoints mapping pdd hns = .error e) :
    nonInputErr e = true := by
  cases hns with
  | false => simp only [sbStage] at h; simp at h
  | true =>
      simp only [sbStage, if_true] at h
      split at h
      · cases h
      · injection h with h
        subst h
        rfl

lemma finalEntry_nie (dd : List (Val × Val)) (mapping : List (MKey × Val))
    (vp : VPoint) (i : ℕ) (sb : Option (List OutEntry)) (e : PErr)
    (h : finalEntry dd mapping vp i sb = .error e) : nonInputErr e = true := by
  cases hd : dictGet mapping (MKey.idx i) with
  | none =>
      simp only [finalEntry, hd] at h
      injection h with h
      subst h
      rfl
  | some mv =>
      simp only [finalEntry, hd] at h
      cases hg : ddGet dd mv with
      | some dv =>
          simp only [hg] at h
          cases dv with
          | vnanpt =>
              injection h with h
              subst h
              rfl
          | vpt p => cases h
          | vsym a =>
              injection h with h
              subst h
              rfl
          | vnum r =>
              injection h with h
              subst h
              rfl
      | none =>
          simp only [hg] at h
          cases sb with
          | some bl =>
              simp only [] at h
              cases hbl : bl.get? i with
              | some entry => simp only [hbl] at h; cases h
              | none =>
                  simp only [hbl] at h
                  injection h with h
                  subst h
                  rfl
          | none => simp at h

lemma finalLoop_nie (dd : List (Val × Val)) (mapping : List (MKey × Val))
    (sb : Option (List OutEntry)) :
    ∀ (vps : List VPoint) (i : ℕ) (e : PErr),
      finalLoop dd mapping sb i vps = .error e → nonInputErr e = true := by
  intro vps
  induction vps with
  | nil =>
      intro i e h
      simp only [finalLoop] at h
      cases h
  | cons vp rest ih =>
      intro i e h
      cases he : finalEntry dd mapping vp i sb with
      | error e1 =>
          simp only [finalLoop, he] at h
          injection h with h
          subst h
          exact finalEntry_nie _ _ _ _ _ _ he
      | ok entry =>
          simp only [finalLoop, he] at h
          cases hl : finalLoop dd mapping sb (i + 1) rest with
          | error e2 =>
              simp only [hl] at h
              injection h with h
              subst h
              exact ih _ _ hl
          | ok l => simp only [hl] at h; cases h

lemma exprSolveDict_wrongInput (exprs : List Expr)
    (mapping : List (MKey × Val)) (vpoints : List VPoint) (angles : List ℝ)
    (a b : ℤ) :
    exprSolveDict exprs mapping vpoints angles = .error (.wrongInput a b) ↔
      (∃ dd, data_collecting exprs mapping vpoints =
        .ok (dd, countInput exprs)) ∧
      ((countInput exprs : ℤ) > vpoint_dof vpoints) ∧
      a = (countInput exprs : ℤ) ∧ b = vpoint_dof vpoints := by
  constructor
  · intro h
    simp only [exprSolveDict] at h
    split at h
    · rename_i e1 hdc
      injection h with h
      subst h
      have := data_collecting_nie _ _ _ _ hdc
      simp [nonInputErr] at this
    · rename_i dd1 dof1 hdc
      split at h
      · rename_i hgt
        injection h with h
        injection h with ha hb
        have hdof := data_collecting_dof _ _ _ _ _ hdc
        subst hdof
        exact ⟨⟨dd1, hdc⟩, hgt, ha.symm, hb.symm⟩
      · rename_i hngt
        split at h
        · rename_i e2 hdr
          injection h with h
          subst h
          have := driverCheck_nie _ _ _ _ hdr
          simp [nonInputErr] at this
        · rename_i u hdr
          cases exprs with
          | nil => simp at h
          | cons e0 rest =>
              have := expr_parse_nie _ _ _ h
              simp [nonInputErr] at this
  · rintro ⟨⟨dd, hdc⟩, hgt, ha, hb⟩
    subst ha
    subst hb
    simp only [exprSolveDict, hdc]
    rw [if_pos hgt]

/-- **C3.** `expr_solving` raises the "wrong number of input parameters"
`ValueError` if and only if the consumed-DOF count returned by
`data_collecting` — which always equals the number of PLA/PLAP expressions
in the stack — strictly exceeds the mechanism DOF computed by
`vpoint_dof`; when it does not exceed it, this error is never raised (no
other stage of the pipeline produces it). -/
theorem expr_solving_input_count
    (bfgs : List VPoint → List (MKey × Val) → Except Unit (List OutEntry))
    (exprs : List Expr) (mapping : List (MKey × Val))
    (vpoints : List VPoint) (angles : List ℝ) :
    (∀ dd dof, data_collecting exprs mapping vpoints = .ok (dd, dof) →
      dof = countInput exprs) ∧
    (∀ a b : ℤ, perrMsg (.wrongInput a b) =
      "wrong number of input parameters: " ++ toString a ++ " / " ++
        toString b) ∧
    (∀ a b : ℤ,
      expr_solving bfgs exprs mapping vpoints angles =
          .error (.wrongInput a b) ↔
        (∃ dd, data_collecting exprs mapping vpoints =
          .ok (dd, countInput exprs)) ∧
        ((countInput exprs : ℤ) > vpoint_dof vpoints) ∧
        a = (countInput exprs : ℤ) ∧ b = vpoint_dof vpoints) := by
  refine ⟨fun dd dof h => data_collecting_dof _ _ _ _ _ h,
    fun a b => rfl, fun a b => ?_⟩
  constructor
  · intro h
    simp only [expr_solving] at h
    split at h
    · rename_i e1 hsd
      injection h with h
      subst h
      exact (exprSolveDict_wrongInput exprs mapping vpoints angles a b).mp hsd
    · rename_i dd hsd
      split at h
      · rename_i e2 hcp
        injection h with h
        subst h
        have := collectPdd_nie _ _ _ _ _ _ _ hcp
        simp [nonInputErr] at this
      · rename_i pdd hns hcp
        split at h
        · rename_i e3 hsb
          injection h with h
          subst h
          have := sbStage_nie _ _ _ _ _ _ hsb
          simp [nonInputErr] at this
        · rename_i sb hsb
          have := finalLoop_nie _ _ _ _ _ _ h
          simp [nonInputErr] at this
  · intro hr
    have hsd := (exprSolveDict_wrongInput exprs mapping vpoints angles a b).mpr
      hr
    simp only [expr_solving, hsd]

theorem expr_solving_input_count_witness :
    expr_solving (fun _ _ => Except.ok []) [] [] vpsC3 [] =
      .error (.wrongInput 0 (-2)) :=
  ((expr_solving_input_count (fun _ _ => Except.ok []) [] [] vpsC3 []).2.2
      0 (-2)).mpr
    ⟨⟨[], by rfl⟩, by decide, by decide, by decide⟩

theorem expr_solving_complete_witness :
    finalLoop [(Val.vsym "P0", Val.vnanpt)] [(MKey.idx 0, Val.vsym "P0")]
        none 0 [vpC1] = .error (.pointNaN 0) ∧
      perrMsg (.pointNaN 0) = "result contains failure: Point" ++ toString 0 :=
  (expr_solving_complete (fun _ _ => .ok []) []
      [(MKey.idx 0, Val.vsym "P0")] [vpC1] []).2.2
    [(Val.vsym "P0", Val.vnanpt)] none 0 vpC1 rfl
    ⟨Val.vsym "P0", rfl, rfl⟩ (fun k hk => absurd hk (Nat.not_lt_zero k))

end Pyslvs
